import Mathlib

/-!
# FileDrop: the job queue of the producer and the client that drains it

A shallow embedding of the job service of `src/filedrop/server.js` (and of the
older `src/server_work_no_login.js`, which has the same handlers with plainer
reply bodies): the two Redis lists `filedrop_queue` and `filedrop_completed`,
the upload directory, and the handlers that enqueue, list, download and
complete jobs; and of the client of `src/filedrop/client.js`: the download of
one job with retries, the poll of one endpoint, and one cycle of the scheduler.

Conventions of the embedding.

* A Redis list is a Lean list whose head is the element at index 0.
* A list entry is the job record itself: the program only ever stores
  `JSON.stringify(job)` and reads it back with `JSON.parse`, so equality of
  stored strings is equality of records.
* The Redis client and the file system calls are taken to succeed, except
  `fs.unlinkSync`, whose failure is caught by the program and is an input here.
* Values the program reads from its surroundings (`uuidv4()`, `Date.now()`,
  `new Date().toISOString()`, `fs.statSync`) are inputs of the handlers.
* What the network does to the client is an input too: a script says how
  each request ends. The client's own requests are recorded as events, from
  which the operations they cause on the producer are read off.
* Node's `path` module is a parameter of the client. Where a result depends
  on a fact about it, the fact is a hypothesis.
-/

namespace FileDrop

/-! ## Data model -/

/-- The job object built by the upload handler and the file watcher; the field
`completedAt` is absent until the completion handler sets it. -/
structure Job where
  id : String
  originalName : String
  fileName : String
  size : Nat
  uploadedAt : String
  status : String
  completedAt : Option String
deriving DecidableEq

/-- The producer's mutable surroundings: the list `filedrop_queue`, the list
`filedrop_completed`, and the paths that exist on disk. -/
structure Store where
  queue : List Job
  completed : List Job
  files : List String
deriving DecidableEq

/-- The two producer programs of the repository. -/
inductive Server where
  | main
  | noLogin
deriving DecidableEq

/-- Start-up configuration: `UPLOAD_PATH`, `CLEANUP_CONFIG.deleteAfterDownload`,
and Node's `path.join`, a library function kept as a parameter. -/
structure Env where
  uploadPath : String
  deleteAfterDownload : Bool
  pathJoin : String → String → String

/-- What a handler sends back. -/
inductive Reply where
  | jobs (jobs : List Job) (count : Nat) (totalInQueue : Option Nat)
  | completed (job : Option (String × String × String))
  | download (filePath : String) (downloadName : String)
  | error (status : Nat) (error : String) (code : Option String)
deriving DecidableEq

/-- HTTP status of a reply; `res.json` and `res.download` answer 200. -/
def Reply.status : Reply → Nat
  | .error st _ _ => st
  | _ => 200

/-- The `code` field of an error body, when there is one. -/
def Reply.code : Reply → Option String
  | .error _ _ c => c
  | _ => none

/-- The call `res.status(st).json(...)`: `server.js` sends `error` and `code`,
`server_work_no_login.js` sends `error` only. -/
def errorReply (srv : Server) (st : Nat) (msg code : String) : Reply :=
  match srv with
  | .main => .error st msg (some code)
  | .noLogin => .error st msg none

/-! ## The Redis list commands the program uses -/

/-- The command `LLEN`. -/
def lLen (l : List Job) : Nat := l.length

/-- The command `LINDEX` with a non-negative index; `none` is the client's `null`. -/
def lIndex (l : List Job) (i : Nat) : Option Job := l.get? i

/-- The command `LPUSH` with one value: the value becomes the new head. -/
def lPush (l : List Job) (v : Job) : List Job := v :: l

/-- Removal of the first `n` entries equal to `v`, scanning from the head. -/
def lRemHead : Nat → Job → List Job → List Job
  | 0, _, l => l
  | _ + 1, _, [] => []
  | n + 1, v, x :: xs => if x = v then lRemHead n v xs else x :: lRemHead (n + 1) v xs

/-- The command `LREM` with a non-negative count: a positive count removes that
many entries equal to `v` from the head on, the count 0 removes them all. -/
def lRem (l : List Job) (count : Nat) (v : Job) : List Job :=
  if count = 0 then l.filter (fun x => decide (x ≠ v)) else lRemHead count v l

/-! ## The upload directory -/

/-- The call `fs.existsSync`. -/
def existsSync (files : List String) (p : String) : Bool := decide (p ∈ files)

/-- The call `fs.unlinkSync` when it succeeds. -/
def unlinkSync (files : List String) (p : String) : List String :=
  files.filter (fun q => decide (q ≠ p))

/-- The function `deleteFileAfterDownload`; `unlinkOk` says whether
`fs.unlinkSync` returns rather than throws (a throw is caught and logged). -/
def deleteFileAfterDownload (env : Env) (files : List String) (filePath : String)
    (unlinkOk : Bool) : List String :=
  if env.deleteAfterDownload && existsSync files filePath then
    if unlinkOk then unlinkSync files filePath else files
  else files

/-! ## Handlers of the job service -/

/-- The bound of the listing loop: `Math.min(queueLength, 50)` in `server.js`,
`Math.min(queueLength, 10)` in `server_work_no_login.js`. -/
def listCap : Server → Nat
  | .main => 50
  | .noLogin => 10

/-- The loop of `GET /api/jobs/pending`: `k` iterations are left, `i` is the
loop index, `jobs` the array built so far. -/
def pendingLoop (q : List Job) : Nat → Nat → List Job → List Job
  | 0, _, jobs => jobs
  | k + 1, i, jobs =>
    match lIndex q i with
    | some job => pendingLoop q k (i + 1) (jobs ++ [job])
    | none => pendingLoop q k (i + 1) jobs

/-- The handler `GET /api/jobs/pending`. The query string (`clientId`, `limit`)
is never read by the handler; `limit` is carried here to make that visible. -/
def listPending (srv : Server) (s : Store) (_limit : Nat) : Store × Reply :=
  let queueLength := lLen s.queue
  let jobs := pendingLoop s.queue (min queueLength (listCap srv)) 0 []
  (s, .jobs jobs jobs.length (match srv with
                              | .main => some queueLength
                              | .noLogin => none))

/-- The scan of `GET /api/download/:jobId`: the first entry whose id is `jobId`
among the indices `i, i+1, ..., i+k-1`. -/
def findLoop (q : List Job) (jobId : String) : Nat → Nat → Option Job
  | 0, _ => none
  | k + 1, i =>
    match lIndex q i with
    | some job => if job.id = jobId then some job else findLoop q jobId k (i + 1)
    | none => findLoop q jobId k (i + 1)

/-- The handler `GET /api/download/:jobId`. -/
def streamDownload (srv : Server) (env : Env) (s : Store) (jobId : String) : Store × Reply :=
  let queueLength := lLen s.queue
  match findLoop s.queue jobId queueLength 0 with
  | none => (s, errorReply srv 404 "Job not found" "JOB_NOT_FOUND")
  | some targetJob =>
    let filePath := env.pathJoin env.uploadPath targetJob.fileName
    if !existsSync s.files filePath then
      ({ s with queue := lRem s.queue 1 targetJob },
        errorReply srv 404 "File no longer exists" "FILE_NOT_FOUND")
    else
      (s, .download filePath targetJob.originalName)

/-- The body run by `POST /api/jobs/:jobId/complete` at the entry `job` whose
id matched: remove it from the queue, stamp `completedAt`, push the stamped
record on `filedrop_completed`, delete the file if configured, answer. -/
def completeFound (srv : Server) (env : Env) (s : Store) (job : Job) (now : String)
    (unlinkOk : Bool) : Store × Reply :=
  let queue1 := lRem s.queue 1 job
  let done : Job := { job with completedAt := some now }
  let completed1 := lPush s.completed done
  let filePath := env.pathJoin env.uploadPath done.fileName
  let files1 := deleteFileAfterDownload env s.files filePath unlinkOk
  ({ queue := queue1, completed := completed1, files := files1 },
    match srv with
    | .main => .completed (some (done.id, done.originalName, now))
    | .noLogin => .completed none)

/-- The loop of `POST /api/jobs/:jobId/complete`, with `k` iterations left at
index `i`; `now` is `new Date().toISOString()`. -/
def completeLoop (srv : Server) (env : Env) (s : Store) (jobId now : String)
    (unlinkOk : Bool) : Nat → Nat → Store × Reply
  | 0, _ => (s, errorReply srv 404 "Job not found" "JOB_NOT_FOUND")
  | k + 1, i =>
    match lIndex s.queue i with
    | some job =>
      if job.id = jobId then completeFound srv env s job now unlinkOk
      else completeLoop srv env s jobId now unlinkOk k (i + 1)
    | none => completeLoop srv env s jobId now unlinkOk k (i + 1)

/-- The handler `POST /api/jobs/:jobId/complete`. -/
def completeJob (srv : Server) (env : Env) (s : Store) (jobId now : String)
    (unlinkOk : Bool) : Store × Reply :=
  completeLoop srv env s jobId now unlinkOk (lLen s.queue) 0

/-! ## Enqueueing: the upload handler and the file watcher -/

/-- The test `fileName.includes('___')`, on the characters of the name. -/
def includesSep : List Char → Bool
  | [] => false
  | '_' :: '_' :: '_' :: _ => true
  | _ :: cs => includesSep cs

/-- The call `storedFilename.split('___')`, on the characters of the name:
the pieces between successive leftmost occurrences of the separator. -/
def splitSep : List Char → List (List Char)
  | [] => [[]]
  | '_' :: '_' :: '_' :: rest => [] :: splitSep rest
  | c :: cs =>
    match splitSep cs with
    | p :: ps => (c :: p) :: ps
    | [] => [[c]]

/-- The call `parts.join('___')`. -/
def joinSep : List (List Char) → List Char
  | [] => []
  | [p] => p
  | p :: q :: ps => p ++ '_' :: '_' :: '_' :: joinSep (q :: ps)

/-- The function `extractOriginalFilename`. -/
def extractOriginalFilename (storedFilename : String) : String :=
  let parts := splitSep storedFilename.data
  if parts.length ≥ 2 then String.mk (joinSep (parts.drop 1)) else storedFilename

/-- The stored name built by multer's `filename` callback and by the watcher:
the decimal `Date.now()`, the separator, the original name. -/
def storedName (timestamp : Nat) (originalName : String) : String :=
  toString timestamp ++ "___" ++ originalName

/-- One entry of `req.files` after multer stored it: the name it was stored
under and its size. -/
structure UploadedFile where
  filename : String
  size : Nat
deriving DecidableEq

/-- The job object the upload handler builds for one file; `id` is `uuidv4()`
and `now` is `new Date().toISOString()`. -/
def uploadJob (id : String) (file : UploadedFile) (now : String) : Job :=
  { id := id
    originalName := extractOriginalFilename file.filename
    fileName := file.filename
    size := file.size
    uploadedAt := now
    status := "pending"
    completedAt := none }

/-- One iteration of the upload handler's loop over `req.files`; multer has
already written the file to the upload directory when the handler runs. -/
def uploadFile (s : Store) (id : String) (file : UploadedFile) (now : String) : Store :=
  { s with queue := lPush s.queue (uploadJob id file now) }

/-- What the watcher's `add` callback reads: the path, its `path.basename`,
the size from `fs.statSync` (`none` when it throws), `Date.now()`, whether
`fs.renameSync` returns, `uuidv4()` and `new Date().toISOString()`. -/
structure AddEvent where
  filePath : String
  fileName : String
  statSize : Option Nat
  timestamp : Nat
  renameOk : Bool
  id : String
  now : String
deriving DecidableEq

/-- The call `fs.renameSync` when it succeeds. -/
def renameSync (files : List String) (oldPath newPath : String) : List String :=
  newPath :: files.filter (fun q => decide (q ≠ oldPath) && decide (q ≠ newPath))

/-- The job object the watcher builds. -/
def watcherJob (e : AddEvent) (size : Nat) : Job :=
  { id := e.id
    originalName := e.fileName
    fileName := storedName e.timestamp e.fileName
    size := size
    uploadedAt := e.now
    status := "pending"
    completedAt := none }

/-- The watcher's `add` callback; an exception inside it is caught and only
logged, leaving things as they were when it was thrown. -/
def watcherAdd (env : Env) (s : Store) (e : AddEvent) : Store :=
  if includesSep e.fileName.data then s
  else
    match e.statSize with
    | none => s
    | some size =>
      let newFilePath := env.pathJoin env.uploadPath (storedName e.timestamp e.fileName)
      if e.renameOk then
        { queue := lPush s.queue (watcherJob e size)
          completed := s.completed
          files := renameSync s.files e.filePath newFilePath }
      else s

/-! ## Runs of the producer -/

/-- The operations that read or write the two lists. -/
inductive Op where
  | upload (id : String) (file : UploadedFile) (now : String)
  | watch (e : AddEvent)
  | list (limit : Nat)
  | download (jobId : String)
  | complete (jobId now : String) (unlinkOk : Bool)

/-- The effect of one operation on the store. -/
def step (srv : Server) (env : Env) (s : Store) : Op → Store
  | .upload id file now => uploadFile s id file now
  | .watch e => watcherAdd env s e
  | .list limit => (listPending srv s limit).1
  | .download jobId => (streamDownload srv env s jobId).1
  | .complete jobId now unlinkOk => (completeJob srv env s jobId now unlinkOk).1

/-- The effect of a sequence of operations, first to last. -/
def run (srv : Server) (env : Env) (s : Store) (ops : List Op) : Store :=
  ops.foldl (step srv env) s

/-- The id an operation gives to the job it enqueues, if it may enqueue one. -/
def Op.newId : Op → Option String
  | .upload id _ _ => some id
  | .watch e => some e.id
  | _ => none

/-- The store before anything was enqueued. -/
def emptyStore : Store := { queue := [], completed := [], files := [] }

/-- The job, if any, that an operation pushes on `filedrop_queue`. -/
def Op.pushed : Op → Option Job
  | .upload id file now => some (uploadJob id file now)
  | .watch e =>
    if includesSep e.fileName.data then none
    else
      match e.statSize with
      | none => none
      | some size => if e.renameOk then some (watcherJob e size) else none
  | _ => none

/-- Whether an operation is one of the two enqueueing ones. -/
def Op.isEnqueue : Op → Bool
  | .upload _ _ _ => true
  | .watch _ => true
  | _ => false

/-- What holds of every store the producer can reach: pending and completed
records alike carry the status they were created with. -/
def StatusInv (s : Store) : Prop :=
  (∀ x ∈ s.queue, x.status = "pending") ∧
  (∀ x ∈ s.completed, x.status = "pending" ∧ x.completedAt ≠ none)

/-! ## Sample data -/

/-- A configuration that deletes files on completion. -/
def sampleEnv : Env :=
  { uploadPath := "uploads"
    deleteAfterDownload := true
    pathJoin := fun dir name => dir ++ "/" ++ name }

def jobA : Job :=
  { id := "id-a", originalName := "a.txt", fileName := "1700000000000___a.txt", size := 10,
    uploadedAt := "2024-01-01T00:00:00.000Z", status := "pending", completedAt := none }

def jobB : Job :=
  { id := "id-b", originalName := "b.txt", fileName := "1700000000001___b.txt", size := 20,
    uploadedAt := "2024-01-01T00:00:01.000Z", status := "pending", completedAt := none }

/-- Two pending jobs, both files on disk. -/
def sampleStore : Store :=
  { queue := [jobB, jobA]
    completed := []
    files := ["uploads/1700000000001___b.txt", "uploads/1700000000000___a.txt"] }

/-- Six pending jobs with six ids. -/
def sixStore : Store :=
  { queue := [{ jobA with id := "id-6" }, { jobA with id := "id-5" },
      { jobA with id := "id-4" }, { jobA with id := "id-3" },
      { jobA with id := "id-2" }, { jobA with id := "id-1" }]
    completed := []
    files := ["uploads/1700000000000___a.txt"] }

/-- Two upload requests of one file each, in this order. -/
def twoUploads : List Op :=
  [Op.upload "id-a" { filename := "1700000000000___a.txt", size := 10 }
      "2024-01-01T00:00:00.000Z",
    Op.upload "id-b" { filename := "1700000000001___b.txt", size := 20 }
      "2024-01-01T00:00:01.000Z"]

/-- Two pending jobs; the file of `jobA` is gone from the disk. -/
def staleStore : Store :=
  { queue := [jobB, jobA]
    completed := []
    files := ["uploads/1700000000001___b.txt"] }

/-! ## Decimal numerals -/

/-- The number a list of decimal digit characters stands for, most
significant digit first. -/
def decimalValue (cs : List Char) : Nat :=
  cs.foldl (fun acc c => 10 * acc + (c.toNat - 48)) 0

/-- A file dropped into the upload directory, as the watcher sees it. -/
def sampleAddEvent : AddEvent :=
  { filePath := "uploads/report.pdf"
    fileName := "report.pdf"
    statSize := some 1234
    timestamp := 1700000000005
    renameOk := true
    id := "id-w"
    now := "2024-01-01T00:00:05.000Z" }

/-- The sample store with the dropped file of `sampleAddEvent` on disk. -/
def droppedStore : Store :=
  { sampleStore with files := "uploads/report.pdf" :: sampleStore.files }

/-! ## The consumer: local files and unique names -/

/-- The functions of Node's `path` module that the client calls; library
functions, kept as parameters. -/
structure PathFns where
  join : String → String → String
  dirname : String → String
  extname : String → String
  basename : String → String → String

/-- The path `getUniqueFilePath` tries in the round where `counter` has the
given value: same directory, the base name, the counter in brackets, the
extension. -/
def numberedPath (F : PathFns) (filePath : String) (counter : Nat) : String :=
  let dir := F.dirname filePath
  let ext := F.extname filePath
  let name := F.basename filePath ext
  F.join dir (name ++ " (" ++ toString counter ++ ")" ++ ext)

/-- The numbered paths of one file differ from each other. Node's `path`
module has this property: the counter sits in the last path segment, which
`path.join` leaves as it is. -/
def NumberedDistinct (F : PathFns) (filePath : String) : Prop :=
  ∀ m n : Nat, numberedPath F filePath m = numberedPath F filePath n → m = n

/-- The numbered paths of a file differ from the file's own path. Node's
`path` module has this property: their last segment is longer. -/
def NumberedFresh (F : PathFns) (filePath : String) : Prop :=
  ∀ n : Nat, numberedPath F filePath n ≠ filePath

/-- The loop of `getUniqueFilePath`, run for at most `k` rounds: `none` says
that all `k` paths tried exist. -/
def uniqueLoop (F : PathFns) (existing : List String) (filePath : String) :
    Nat → Nat → Option String
  | 0, _ => none
  | k + 1, counter =>
    let newPath := numberedPath F filePath counter
    if existsSync existing newPath then uniqueLoop F existing filePath k (counter + 1)
    else some newPath

/-- The method `getUniqueFilePath` with a bound on the rounds of its loop;
`existing` lists the paths for which `fs.existsSync` answers true. -/
def getUniqueFilePathFuel (F : PathFns) (existing : List String) (filePath : String)
    (fuel : Nat) : Option String :=
  if !existsSync existing filePath then some filePath
  else uniqueLoop F existing filePath fuel 1

/-- The method `getUniqueFilePath`, its loop run for one round more than there
are existing paths. When the numbered paths are pairwise distinct that many
rounds always find a free path (`getUniqueFilePathFuel_enough`), and the
fallback is never taken. -/
def getUniqueFilePath (F : PathFns) (existing : List String) (filePath : String) : String :=
  (getUniqueFilePathFuel F existing filePath (existing.length + 1)).getD filePath

/-- The consumer's disk: the paths that exist, each with its size in bytes. -/
abbrev LocalFiles := List (String × Nat)

/-- The paths that exist on the consumer's disk. -/
def localPaths (files : LocalFiles) : List String := files.map Prod.fst

/-- A write stream on `p` that leaves `size` bytes there. -/
def writeFile (files : LocalFiles) (p : String) (size : Nat) : LocalFiles :=
  (p, size) :: files.filter (fun e => decide (e.1 ≠ p))

/-- The call `fs.unlink`. -/
def unlinkLocal (files : LocalFiles) (p : String) : LocalFiles :=
  files.filter (fun e => decide (e.1 ≠ p))

/-- A `path` module for simple names: a directory and a file name joined by a
slash; the extension starts at the last dot of the name. Only `join` matters
for the facts below. -/
def simpleFns : PathFns :=
  { join := fun dir name => dir ++ "/" ++ name
    dirname := fun p =>
      String.mk ((p.data.reverse.dropWhile (fun c => c != '/')).drop 1).reverse
    extname := fun p =>
      if p.data.contains '.' then
        String.mk ('.' :: (p.data.reverse.takeWhile (fun c => c != '.')).reverse)
      else ""
    basename := fun p ext =>
      let base := (p.data.reverse.takeWhile (fun c => c != '/')).reverse
      String.mk (base.take (base.length - ext.length)) }

/-! ## The consumer: one endpoint -/

/-- The counters `this.stats` of a `ServerConnection`. -/
structure Stats where
  totalDownloaded : Nat
  filesDownloaded : Nat
  errors : Nat
  lastSync : Option String
  consecutiveErrors : Nat
deriving DecidableEq

/-- One entry of `config.servers`; `none` is a field that is missing (or
`null`). Numbers are taken to be integers, and not negative where they count
time or attempts. -/
structure ServerConfig where
  name : Option String
  url : String
  downloadPath : Option String
  pollInterval : Option Nat
  maxRetries : Option Nat
  priority : Option Int
  enabled : Option Bool
  apiKey : Option String
deriving DecidableEq

/-- A `ServerConnection` object; `serverDownloadPath` is the directory that
`ensureDownloadPath` settled on. -/
structure ServerConnection where
  name : String
  url : String
  serverDownloadPath : String
  pollInterval : Nat
  maxRetries : Nat
  priority : Int
  enabled : Bool
  apiKey : Option String
  stats : Stats
deriving DecidableEq

/-- The expression `x || d` on a number that may be missing: 0 and a missing
value give the default. -/
def orDefaultNat (x : Option Nat) (d : Nat) : Nat :=
  match x with
  | none => d
  | some 0 => d
  | some (n + 1) => n + 1

/-- The expression `x || d` on an integer that may be missing. -/
def orDefaultInt (x : Option Int) (d : Int) : Int :=
  match x with
  | none => d
  | some v => if v = 0 then d else v

/-- The expression `x || d` on a string that may be missing: the empty string
and a missing value give the default. -/
def orDefaultString (x : Option String) (d : String) : String :=
  match x with
  | none => d
  | some v => if v = "" then d else v

/-- The constructor of `ServerConnection`, with the download directory that
`ensureDownloadPath` will create passed in. -/
def mkServerConnection (cfg : ServerConfig) (serverDownloadPath : String) : ServerConnection :=
  { name := orDefaultString cfg.name "Unnamed Server"
    url := cfg.url
    serverDownloadPath := serverDownloadPath
    pollInterval := orDefaultNat cfg.pollInterval 30000
    maxRetries := orDefaultNat cfg.maxRetries 3
    priority := orDefaultInt cfg.priority 1
    enabled := decide (cfg.enabled ≠ some false)
    apiKey := match cfg.apiKey with
      | none => none
      | some k => if k = "" then none else some k
    stats :=
      { totalDownloaded := 0, filesDownloaded := 0, errors := 0, lastSync := none,
        consecutiveErrors := 0 } }

/-! ## The consumer: downloading one job -/

/-- What the network and the disk do during one call of `downloadFile`: the
request is rejected (`reached` says whether the producer got it, `timeout`
whether the error code is `ECONNABORTED`); or the response stream or the write
stream fails, leaving `onDisk` bytes, if a file at all; or the write stream
finishes with `onDisk` bytes on disk. -/
inductive Attempt where
  | requestFailed (reached : Bool) (timeout : Bool)
  | streamBroken (onDisk : Option Nat)
  | finished (onDisk : Nat)
deriving DecidableEq

/-- Whether the producer received the download request of an attempt. -/
def Attempt.reached : Attempt → Bool
  | .requestFailed r _ => r
  | _ => true

/-- The error a call of `downloadFile` is rejected with. -/
inductive RejectReason where
  | downloadTimeout
  | request
  | stream
  | sizeMismatch (expected got : Nat)
deriving DecidableEq

/-- The two ways the promise of `downloadFile` settles: `resolve(true)` or a
rejection. -/
inductive DownloadResult where
  | resolvedTrue
  | rejected (reason : RejectReason)
deriving DecidableEq

/-- The state after a call of `downloadFile`, and how it settled. -/
structure DownloadRun where
  conn : ServerConnection
  files : LocalFiles
  result : DownloadResult
deriving DecidableEq

/-- The path `downloadFile` writes to: the job's original name in the
endpoint's directory, made unique. -/
def downloadTarget (F : PathFns) (c : ServerConnection) (files : LocalFiles) (job : Job) :
    String :=
  getUniqueFilePath F (localPaths files) (F.join c.serverDownloadPath job.originalName)

/-- The method `downloadFile`. -/
def downloadFile (F : PathFns) (c : ServerConnection) (files : LocalFiles) (job : Job)
    (a : Attempt) : DownloadRun :=
  match a with
  | .requestFailed _ timeout =>
    { conn := c, files := files
      result := .rejected (if timeout then .downloadTimeout else .request) }
  | .streamBroken onDisk =>
    let filePath := downloadTarget F c files job
    { conn := c
      files := match onDisk with
        | none => files
        | some n => writeFile files filePath n
      result := .rejected .stream }
  | .finished onDisk =>
    let filePath := downloadTarget F c files job
    let written := writeFile files filePath onDisk
    if onDisk ≠ job.size then
      { conn := c, files := unlinkLocal written filePath
        result := .rejected (.sizeMismatch job.size onDisk) }
    else
      { conn := { c with stats := { c.stats with
                    totalDownloaded := c.stats.totalDownloaded + job.size } }
        files := written
        result := .resolvedTrue }

/-- Whether an attempt makes `downloadFile` reject. -/
def Attempt.fails (job : Job) : Attempt → Bool
  | .finished onDisk => decide (onDisk ≠ job.size)
  | _ => true

/-- How the request of `markJobCompleted` ends; a failure is caught and
logged. -/
inductive ReportOutcome where
  | ok
  | failed (reached : Bool)
deriving DecidableEq

/-- What a run of the client does that others can observe. -/
inductive Event where
  | download (jobId : String) (reached : Bool)
  | report (jobId : String) (outcome : ReportOutcome)
  | sleep (ms : Nat)
  | list (ok : Bool)
deriving DecidableEq

/-- What happens to one job: the attempt met by each call of `downloadFile`,
numbered from 0, and the fate of the completion report. -/
structure JobScript where
  attempts : Nat → Attempt
  report : ReportOutcome

/-- The state after a call of `processJob`, and what it did. -/
structure JobRun where
  conn : ServerConnection
  files : LocalFiles
  events : List Event
deriving DecidableEq

/-- The loop of `processJob`, which runs while `retryCount < maxRetries`; a
round that does not return adds 1 to `retryCount`, so `k`, the rounds left, is
`maxRetries - retryCount`. After the loop the error counter goes up. -/
def processLoop (F : PathFns) (job : Job) (script : JobScript) :
    Nat → Nat → ServerConnection → LocalFiles → JobRun
  | 0, _, c, files =>
    { conn := { c with stats := { c.stats with errors := c.stats.errors + 1 } }
      files := files, events := [] }
  | k + 1, retryCount, c, files =>
    let a := script.attempts retryCount
    let d := downloadFile F c files job a
    match d.result with
    | .resolvedTrue =>
      { conn := { d.conn with stats := { d.conn.stats with
                    filesDownloaded := d.conn.stats.filesDownloaded + 1 } }
        files := d.files
        events := [.download job.id a.reached, .report job.id script.report] }
    | .rejected _ =>
      let retryCount1 := retryCount + 1
      let rest := processLoop F job script k retryCount1 d.conn d.files
      { rest with events :=
          .download job.id a.reached ::
            ((if retryCount1 < d.conn.maxRetries then [Event.sleep (2000 * retryCount1)]
              else []) ++ rest.events) }

/-- The method `processJob`. -/
def processJob (F : PathFns) (c : ServerConnection) (files : LocalFiles) (job : Job)
    (script : JobScript) : JobRun :=
  processLoop F job script c.maxRetries 0 c files

/-- The sleeps among some events, in order. -/
def sleepsOf (events : List Event) : List Nat :=
  events.filterMap (fun e => match e with
    | .sleep ms => some ms
    | _ => none)

/-- The number of download requests among some events. -/
def downloadCount (events : List Event) : Nat :=
  (events.filter (fun e => match e with
    | .download _ _ => true
    | _ => false)).length

/-- The number of completion reports among some events. -/
def reportCount (events : List Event) : Nat :=
  (events.filter (fun e => match e with
    | .report _ _ => true
    | _ => false)).length

/-- The operation a client request causes on the producer, when the request
reaches it; `now` and `unlinkOk` are the producer's inputs to a completion. -/
def Event.toOp (now : String) (unlinkOk : Bool) : Event → Option Op
  | .download jobId true => some (.download jobId)
  | .report jobId .ok => some (.complete jobId now unlinkOk)
  | .report jobId (.failed true) => some (.complete jobId now unlinkOk)
  | .list true => some (.list 5)
  | _ => none

/-- The producer operations caused by some client events, in order. -/
def producerOps (now : String) (unlinkOk : Bool) (events : List Event) : List Op :=
  events.filterMap (Event.toOp now unlinkOk)

/-- An endpoint configured with three retries, downloading to `downloads`. -/
def sampleConn : ServerConnection :=
  mkServerConnection
    { name := some "Primary Server", url := "http://localhost:3000", downloadPath := none,
      pollInterval := some 30000, maxRetries := some 3, priority := some 1,
      enabled := some true, apiKey := none }
    "downloads"

/-- Every download request is answered with an error status. -/
def failScript : JobScript :=
  { attempts := fun _ => .requestFailed true false
    report := .ok }

/-- The first attempt breaks, the second delivers 10 bytes; the completion
report does not get through. -/
def retryScript : JobScript :=
  { attempts := fun i => if i = 0 then .streamBroken none else .finished 10
    report := .failed false }

/-- A job of another id whose original name is that of `jobA`. -/
def jobA3 : Job := { jobB with originalName := "a.txt" }

/-! ## The consumer: polling one endpoint -/

/-- How the request for the pending jobs ends: it fails, or the producer
answers with a body holding `jobs` and `count`. -/
inductive ListOutcome where
  | failed
  | ok (jobs : List Job) (count : Nat)
deriving DecidableEq

/-- What `pollForFiles` returns: nothing when the endpoint is disabled, an
object with `success: true` and `jobsFound` (and `jobsProcessed` when there
were jobs), or an object with `success: false`. -/
inductive PollResult where
  | undefined
  | success (jobsFound : Nat) (jobsProcessed : Option Nat)
  | failure
deriving DecidableEq

/-- What happens during one poll of an endpoint: the fate of the list request,
of each job of the batch by position, and the time at the end. -/
structure PollScript where
  list : ListOutcome
  jobs : Nat → JobScript
  now : String

/-- The state after the loop over a batch, what it did, and `processedJobs`. -/
structure BatchRun where
  conn : ServerConnection
  files : LocalFiles
  events : List Event
  processedJobs : Nat
deriving DecidableEq

/-- The loop of `pollForFiles` over the jobs of a batch; `i` is the position
of the next job. Since `processJob` never throws, every round counts. -/
def processBatch (F : PathFns) (scripts : Nat → JobScript) :
    List Job → Nat → ServerConnection → LocalFiles → BatchRun
  | [], _, c, files => { conn := c, files := files, events := [], processedJobs := 0 }
  | job :: rest, i, c, files =>
    let r := processJob F c files job (scripts i)
    let b := processBatch F scripts rest (i + 1) r.conn r.files
    { b with events := r.events ++ b.events, processedJobs := b.processedJobs + 1 }

/-- The state after a call of `pollForFiles`, what it did and returned. -/
structure PollRun where
  conn : ServerConnection
  files : LocalFiles
  events : List Event
  result : PollResult
deriving DecidableEq

/-- The method `pollForFiles`. -/
def pollForFiles (F : PathFns) (c : ServerConnection) (files : LocalFiles)
    (script : PollScript) : PollRun :=
  if !c.enabled then { conn := c, files := files, events := [], result := .undefined }
  else
    match script.list with
    | .failed =>
      { conn := { c with stats := { c.stats with
                    consecutiveErrors := c.stats.consecutiveErrors + 1 } }
        files := files, events := [.list false], result := .failure }
    | .ok jobs count =>
      if count = 0 then
        { conn := { c with stats := { c.stats with consecutiveErrors := 0 } }
          files := files, events := [.list true], result := .success 0 none }
      else
        let b := processBatch F script.jobs jobs 0 c files
        { conn := { b.conn with stats := { b.conn.stats with
                      lastSync := some script.now, consecutiveErrors := 0 } }
          files := b.files
          events := .list true :: b.events
          result := .success count (some b.processedJobs) }

/-! ## The consumer: the scheduler -/

/-- Insertion of `x` in front of a list that came after it: `x` passes the
elements that the comparator puts before it, and no others. -/
def insertSorted {α : Type} (cmp : α → α → Int) (x : α) : List α → List α
  | [] => [x]
  | y :: ys => if cmp x y > 0 then y :: insertSorted cmp x ys else x :: y :: ys

/-- The method `Array.prototype.sort` with a comparator, which the language
requires to be stable; modelled by insertion. -/
def stableSort {α : Type} (cmp : α → α → Int) : List α → List α
  | [] => []
  | x :: xs => insertSorted cmp x (stableSort cmp xs)

/-- The comparator `(a, b) => b.priority - a.priority`, on endpoints paired
with their position in `this.servers`. -/
def comparePriority (a b : Nat × ServerConnection) : Int :=
  b.2.priority - a.2.priority

/-- The array `sortedServers` of a cycle: the enabled endpoints, each with its
position in `this.servers` (which stands for the object itself), sorted. -/
def sortedServers (servers : List ServerConnection) : List (Nat × ServerConnection) :=
  stableSort comparePriority (servers.enum.filter (fun p => p.2.enabled))

/-- The call `Math.min(...xs)` on a list that is not empty. -/
def mathMin : List Nat → Nat
  | [] => 0
  | x :: xs => xs.foldl min x

/-- The method `getMinPollInterval`. -/
def getMinPollInterval (servers : List ServerConnection) : Nat :=
  let enabledServers := servers.filter (fun s => s.enabled)
  if enabledServers.length = 0 then 30000
  else mathMin (enabledServers.map (fun s => s.pollInterval))

/-- The state after the loop over `sortedServers`, and what it did: the
endpoints polled, by position in `this.servers` and in poll order, what each
poll returned, and the two counters of the cycle. -/
structure PassRun where
  servers : List ServerConnection
  files : LocalFiles
  events : List Event
  polled : List Nat
  results : List PollResult
  totalJobsFound : Nat
  activeServerCount : Nat
deriving DecidableEq

/-- The loop of `pollAllServers` over `sortedServers`; `i` counts the rounds,
`running i` is the value of `this.isRunning` read at the top of round `i`, and
`scripts i` is what happens during the poll of that round. A poll that returns
nothing makes the round throw before its pause. -/
def passLoop (F : PathFns) (sorted : List (Nat × ServerConnection)) (running : Nat → Bool)
    (scripts : Nat → PollScript) :
    List (Nat × ServerConnection) → Nat → List ServerConnection → LocalFiles → PassRun
  | [], _, servers, files =>
    { servers := servers, files := files, events := [], polled := [], results := [],
      totalJobsFound := 0, activeServerCount := 0 }
  | (ref, _) :: rest, i, servers, files =>
    if !running i then
      { servers := servers, files := files, events := [], polled := [], results := [],
        totalJobsFound := 0, activeServerCount := 0 }
    else
      match servers.get? ref with
      | none => passLoop F sorted running scripts rest (i + 1) servers files
      | some server =>
        let p := pollForFiles F server files (scripts i)
        let found := match p.result with
          | .success jobsFound _ => jobsFound
          | _ => 0
        let active := match p.result with
          | .success _ _ => 1
          | _ => 0
        let pause := match p.result with
          | .undefined => []
          | _ =>
            if (sorted.map Prod.fst).indexOf ref < sorted.length - 1 then [Event.sleep 1000]
            else []
        let r := passLoop F sorted running scripts rest (i + 1) (servers.set ref p.conn) p.files
        { r with
          events := p.events ++ pause ++ r.events
          polled := ref :: r.polled
          results := p.result :: r.results
          totalJobsFound := found + r.totalJobsFound
          activeServerCount := active + r.activeServerCount }

/-- One cycle of `pollAllServers`, and the wait that ends it. -/
structure CycleRun where
  pass : PassRun
  waitTime : Nat
  events : List Event
deriving DecidableEq

/-- One round of the `while` loop of `pollAllServers`. -/
def pollCycle (F : PathFns) (servers : List ServerConnection) (files : LocalFiles)
    (running : Nat → Bool) (scripts : Nat → PollScript) : CycleRun :=
  let sorted := sortedServers servers
  let pass := passLoop F sorted running scripts sorted 0 servers files
  let waitTime := if pass.totalJobsFound > 0 then 5000 else getMinPollInterval pass.servers
  { pass := pass, waitTime := waitTime, events := pass.events ++ [.sleep waitTime] }

/-- A configuration entry with the given priority and poll interval. -/
def sampleConfig (name : String) (priority : Int) (pollInterval : Nat) : ServerConfig :=
  { name := some name, url := "http://localhost:3000", downloadPath := none,
    pollInterval := some pollInterval, maxRetries := some 3, priority := some priority,
    enabled := some true, apiKey := none }

/-- Three endpoints configured with priorities 3, 1 and 2, in this order. -/
def threeServers : List ServerConnection :=
  [mkServerConnection (sampleConfig "p3" 3 30000) "downloads/p3",
    mkServerConnection (sampleConfig "p1" 1 20000) "downloads/p1",
    mkServerConnection (sampleConfig "p2" 2 60000) "downloads/p2"]

/-- Two endpoints configured with priorities 0 and 1, in this order. -/
def zeroFirstServers : List ServerConnection :=
  [mkServerConnection (sampleConfig "p0" 0 30000) "downloads/p0",
    mkServerConnection (sampleConfig "p1" 1 30000) "downloads/p1"]

/-- Every list request fails. -/
def idleScripts : Nat → PollScript :=
  fun _ => { list := .failed, jobs := fun _ => failScript, now := "t" }

/-- The order of a cycle: higher priority first, and among equal priorities
the endpoint that stands earlier in `this.servers`. -/
def PollsBefore (a b : Nat × ServerConnection) : Prop :=
  a.2.priority > b.2.priority ∨ (a.2.priority = b.2.priority ∧ a.1 < b.1)

/-- Every list request returns one job, which arrives at the second attempt. -/
def busyScripts : Nat → PollScript :=
  fun _ => { list := .ok [jobA] 1, jobs := fun _ => retryScript, now := "t" }

/-- The settings of an endpoint that the scheduler reads. -/
def scheduleKey (c : ServerConnection) : Bool × Nat := (c.enabled, c.pollInterval)

/-! ## The consumer: what never changes an endpoint's settings -/

/-- The method `initializeDownloadPath`, called when an endpoint is set up:
when `ensureDownloadPath` throws, the endpoint is switched off. -/
def initializeDownloadPath (c : ServerConnection) (ensureOk : Bool) : ServerConnection :=
  if ensureOk then c else { c with enabled := false }

/-- The method `checkServerHealth`; `probe` is the status of the response to
the health request, `none` when the request is rejected. Nothing is assigned. -/
def checkServerHealth (c : ServerConnection) (probe : Option Nat) : ServerConnection × Bool :=
  (c, decide (probe = some 200))

/-- The loop of `checkAllServersHealth`: every enabled endpoint is probed, and
the answer only printed; `i` is the position of the next endpoint. -/
def checkAllServersHealth (probes : Nat → Option Nat) :
    List ServerConnection → Nat → List ServerConnection × List (Nat × Bool)
  | [], _ => ([], [])
  | server :: rest, i =>
    let r := checkAllServersHealth probes rest (i + 1)
    if !server.enabled then (server :: r.1, r.2)
    else
      let h := checkServerHealth server (probes i)
      (h.1 :: r.1, (i, h.2) :: r.2)

/-- The settings of an endpoint that are fixed when it is set up. -/
def settingsOf (c : ServerConnection) : Bool × Int × Nat × Nat :=
  (c.enabled, c.priority, c.pollInterval, c.maxRetries)

/-- Polls of one endpoint, one after the other. -/
def pollMany (F : PathFns) :
    List PollScript → ServerConnection → LocalFiles → ServerConnection × LocalFiles
  | [], c, files => (c, files)
  | script :: rest, c, files =>
    let p := pollForFiles F c files script
    pollMany F rest p.conn p.files

/-- Whether the list request of a poll fails. -/
def PollScript.listFails (script : PollScript) : Bool :=
  match script.list with
  | .failed => true
  | .ok _ _ => false

/-- The number of polls at the end of a sequence whose list request failed. -/
def trailingFailures (scripts : List PollScript) : Nat :=
  (scripts.reverse.takeWhile PollScript.listFails).length

/-- Whether every attempt within the retry budget fails, so that the job is
given up. -/
def abandons (maxRetries : Nat) (job : Job) (script : JobScript) : Bool :=
  (List.range maxRetries).all (fun i => (script.attempts i).fails job)

/-- The number of jobs of a batch that are given up; `i` is the position of
the first job of the list. -/
def abandonedCount (maxRetries : Nat) (scripts : Nat → JobScript) : List Job → Nat → Nat
  | [], _ => 0
  | job :: rest, i =>
    (if abandons maxRetries job (scripts i) then 1 else 0) +
      abandonedCount maxRetries scripts rest (i + 1)

/-- What one poll does to `consecutiveErrors`: a failed list request adds 1,
an answered one resets it. -/
def countAfter (n : Nat) (script : PollScript) : Nat :=
  if script.listFails then n + 1 else 0

/-- Three polls: the list request is answered, then fails twice. -/
def okThenTwoFailures : List PollScript :=
  [busyScripts 0, idleScripts 1, idleScripts 2]

/-- A poll whose batch holds `jobA` and `jobA3`; the first arrives at the
second attempt, every attempt at the second fails. -/
def mixedPoll : PollScript :=
  { list := .ok [jobA, jobA3] 2
    jobs := fun i => if i = 0 then retryScript else failScript
    now := "t" }

/-! ## Stored names, the gate before the handlers, the retention sweep -/

/-- What multer hands to the upload handler for one file: its `filename`
callback reads `Date.now()` and stores the file under that number, the
separator and `file.originalname`. -/
def multerFile (timestamp : Nat) (originalname : String) (size : Nat) : UploadedFile :=
  { filename := storedName timestamp originalname, size := size }

/-- The two fields of `AUTH_CONFIG` that the gate reads; `apiKey` is `none`
when the configuration has no such field. -/
structure AuthConfig where
  enabled : Bool
  apiKey : Option String
deriving DecidableEq

/-- What the gate reads of a request: `req.headers['x-api-key']`, the value of
`req.session && req.session.authenticated`, and `req.path`. -/
structure Request where
  apiKeyHeader : Option String
  sessionAuthenticated : Bool
  path : String
deriving DecidableEq

/-- What `isAuthenticated` does with a request: call `next()`, answer
`res.status(401).json(...)`, or `res.redirect(...)`. -/
inductive Gate where
  | next
  | status401 (error : String)
  | redirect (location : String)
deriving DecidableEq

/-- The method `String.prototype.startsWith`, on the characters of the text
and of the searched beginning. -/
def startsWith : List Char → List Char → Bool
  | _, [] => true
  | [], _ :: _ => false
  | c :: cs, p :: ps => decide (c = p) && startsWith cs ps

/-- The middleware `isAuthenticated`; an empty header is falsy, so the test
`apiKey && apiKey === AUTH_CONFIG.apiKey` fails on it. -/
def isAuthenticated (auth : AuthConfig) (req : Request) : Gate :=
  if !auth.enabled then .next
  else
    let keyOk := match req.apiKeyHeader with
      | some apiKey => decide (apiKey ≠ "") && decide (auth.apiKey = some apiKey)
      | none => false
    if keyOk then .next
    else if req.sessionAuthenticated then .next
    else if startsWith req.path.data "/api/".data then
      .status401 "Authentication required. Use X-API-Key header or web login."
    else .redirect "/login"

/-- What a client gets from a route registered behind the gate. -/
inductive Routed (α : Type) where
  | handled (result : α)
  | refused (status : Nat) (error : String)
  | redirected (location : String)
deriving DecidableEq

/-- A route registered as `app.get(path, isAuthenticated, handler)`: the
handler runs when the gate calls `next()` and not otherwise. -/
def protectedRoute {α : Type} (auth : AuthConfig) (req : Request) (handler : Request → α) :
    Routed α :=
  match isAuthenticated auth req with
  | .next => .handled (handler req)
  | .status401 error => .refused 401 error
  | .redirect location => .redirected location

/-- One name returned by `fs.readdirSync(UPLOAD_PATH)` and what the sweep
meets on it: `stats.mtime.getTime()` (`none` when `fs.statSync` throws) and
whether `fs.unlinkSync` returns. -/
structure DirEntry where
  name : String
  mtime : Option Int
  unlinkOk : Bool
deriving DecidableEq

/-- The value `maxAge` of the sweep, in milliseconds. -/
def maxAge (keepFilesForDays : Int) : Int := keepFilesForDays * 24 * 60 * 60 * 1000

/-- The `for` loop of `cleanupOldFiles` over the listing, with the files on
disk and `deletedCount`; an exception in one round is caught and the loop
continues with the next name. -/
def cleanupLoop (env : Env) (now : Int) (keepFilesForDays : Int) :
    List DirEntry → List String → Nat → List String × Nat
  | [], files, deletedCount => (files, deletedCount)
  | file :: rest, files, deletedCount =>
    let filePath := env.pathJoin env.uploadPath file.name
    match file.mtime with
    | none => cleanupLoop env now keepFilesForDays rest files deletedCount
    | some mtime =>
      if now - mtime > maxAge keepFilesForDays then
        if file.unlinkOk then
          cleanupLoop env now keepFilesForDays rest (unlinkSync files filePath)
            (deletedCount + 1)
        else cleanupLoop env now keepFilesForDays rest files deletedCount
      else cleanupLoop env now keepFilesForDays rest files deletedCount

/-- The function `cleanupOldFiles`: the store after the sweep and the number
it logs; `listing` is `none` when `fs.readdirSync` throws, which is caught and
only logged. The two lists in Redis are not referred to. -/
def cleanupOldFiles (env : Env) (keepFilesForDays : Int) (s : Store)
    (listing : Option (List DirEntry)) (now : Int) : Store × Nat :=
  match listing with
  | none => (s, 0)
  | some files =>
    let r := cleanupLoop env now keepFilesForDays files s.files 0
    ({ s with files := r.1 }, r.2)

/-- Whether the sweep deletes the file of a listing entry. -/
def DirEntry.swept (now : Int) (keepFilesForDays : Int) (file : DirEntry) : Bool :=
  match file.mtime with
  | none => false
  | some mtime => decide (now - mtime > maxAge keepFilesForDays) && file.unlinkOk

/-- A store whose only pending job refers to a file that is eight days old. -/
def oldPendingStore : Store :=
  { queue := [jobA], completed := [], files := ["uploads/" ++ jobA.fileName, "uploads/new.txt"] }

/-- A day in milliseconds. -/
def dayMs : Int := 24 * 60 * 60 * 1000

/-- A listing: the old file of the pending job, a name whose `statSync`
throws, an old name whose `unlinkSync` throws, and a file one day old. -/
def sampleListing : List DirEntry :=
  [{ name := jobA.fileName, mtime := some 0, unlinkOk := true },
    { name := "gone.txt", mtime := none, unlinkOk := true },
    { name := "locked", mtime := some 0, unlinkOk := false },
    { name := "new.txt", mtime := some (7 * dayMs), unlinkOk := true }]

/-! ## The consumer: the scheduling loop and the stop signal -/

/-- What the `while` loop of `pollAllServers` did before it ended: the state
it left and its cycles, in order. -/
structure LoopRun where
  servers : List ServerConnection
  files : LocalFiles
  cycles : List CycleRun
deriving DecidableEq

/-- The `while (this.isRunning)` loop of `pollAllServers` from cycle `cycle`
on. `runningAtCycle c` is the value of `this.isRunning` read by the `while`
test before cycle `c`, `runningAtPoll c i` the value read at the top of round
`i` of that cycle, and `scripts c i` what happens during the poll of that
round. The first argument bounds the number of `while` tests; `none` says
that the loop was still running after that many. -/
def pollAllServers (F : PathFns) (runningAtCycle : Nat → Bool)
    (runningAtPoll : Nat → Nat → Bool) (scripts : Nat → Nat → PollScript) :
    Nat → Nat → List ServerConnection → LocalFiles → Option LoopRun
  | 0, _, _, _ => none
  | rounds + 1, cycle, servers, files =>
    if !runningAtCycle cycle then some { servers := servers, files := files, cycles := [] }
    else
      let c := pollCycle F servers files (runningAtPoll cycle) (scripts cycle)
      match pollAllServers F runningAtCycle runningAtPoll scripts rounds (cycle + 1)
          c.pass.servers c.pass.files with
      | none => none
      | some r => some { r with cycles := c :: r.cycles }

/-- The values of `this.isRunning` when `stop()` is called once: `true` at
every check before check number `stopCheck`, `false` from then on. -/
def stopAfter (stopCheck : Nat) (check : Nat) : Bool := decide (check < stopCheck)

/-! ## The loops as list functions -/

theorem lRem_one (l : List Job) (v : Job) : lRem l 1 v = l.erase v := by
  unfold lRem
  simp only [Nat.one_ne_zero, if_false]
  induction l with
  | nil => rfl
  | cons x xs ih =>
    by_cases h : x = v
    · subst h
      simp [lRemHead]
    · have h2 : (x == v) = false := by simpa using h
      simp [lRemHead, List.erase_cons, h, h2, ih]

theorem drop_of_lIndex_some {q : List Job} {i : Nat} {job : Job}
    (h : lIndex q i = some job) : q.drop i = job :: q.drop (i + 1) := by
  unfold lIndex at h
  rw [List.get?_eq_getElem?] at h
  obtain ⟨hi, hget⟩ := List.getElem?_eq_some.mp h
  rw [List.drop_eq_getElem_cons hi, hget]

theorem drop_of_lIndex_none {q : List Job} {i : Nat}
    (h : lIndex q i = none) : q.drop i = [] ∧ q.drop (i + 1) = [] := by
  unfold lIndex at h
  rw [List.get?_eq_getElem?] at h
  have hle : q.length ≤ i := by simpa using h
  exact ⟨List.drop_eq_nil_of_le hle, List.drop_eq_nil_of_le (Nat.le_succ_of_le hle)⟩

theorem pendingLoop_eq (q : List Job) (k i : Nat) (acc : List Job) :
    pendingLoop q k i acc = acc ++ (q.drop i).take k := by
  induction k generalizing i acc with
  | zero => simp [pendingLoop]
  | succ k ih =>
    unfold pendingLoop
    cases h : lIndex q i with
    | none =>
      obtain ⟨h1, h2⟩ := drop_of_lIndex_none h
      simp [ih, h1, h2]
    | some job =>
      simp [ih, drop_of_lIndex_some h]

/-- The jobs array of a listing is the first `min (length, cap)` entries of the
queue, in index order. -/
theorem pendingLoop_take (q : List Job) (n : Nat) :
    pendingLoop q (min (lLen q) n) 0 [] = q.take n := by
  rw [pendingLoop_eq]
  simp only [List.drop_zero, List.nil_append, lLen]
  rw [List.take_eq_take]
  simp [min_comm]

theorem findLoop_eq (q : List Job) (jobId : String) (k i : Nat) :
    findLoop q jobId k i = ((q.drop i).take k).find? (fun j => decide (j.id = jobId)) := by
  induction k generalizing i with
  | zero => simp [findLoop]
  | succ k ih =>
    unfold findLoop
    cases h : lIndex q i with
    | none =>
      obtain ⟨h1, h2⟩ := drop_of_lIndex_none h
      simp [ih, h1, h2]
    | some job =>
      by_cases hid : job.id = jobId
      · simp [drop_of_lIndex_some h, hid]
      · simp [ih, drop_of_lIndex_some h, hid]

/-- The scan of the download handler returns the first entry with the id. -/
theorem findLoop_find (q : List Job) (jobId : String) :
    findLoop q jobId (lLen q) 0 = q.find? (fun j => decide (j.id = jobId)) := by
  simp [findLoop_eq, lLen]

theorem completeLoop_eq (srv : Server) (env : Env) (s : Store) (jobId now : String)
    (ok : Bool) (k i : Nat) :
    completeLoop srv env s jobId now ok k i =
      match ((s.queue.drop i).take k).find? (fun j => decide (j.id = jobId)) with
      | some job => completeFound srv env s job now ok
      | none => (s, errorReply srv 404 "Job not found" "JOB_NOT_FOUND") := by
  induction k generalizing i with
  | zero => simp [completeLoop]
  | succ k ih =>
    unfold completeLoop
    cases h : lIndex s.queue i with
    | none =>
      obtain ⟨h1, h2⟩ := drop_of_lIndex_none h
      simp [ih, h1, h2]
    | some job =>
      by_cases hid : job.id = jobId
      · simp [drop_of_lIndex_some h, hid]
      · simp [ih, drop_of_lIndex_some h, hid]

/-- The completion handler acts on the first entry with the id, if any. -/
theorem completeJob_find (srv : Server) (env : Env) (s : Store) (jobId now : String)
    (ok : Bool) :
    completeJob srv env s jobId now ok =
      match s.queue.find? (fun j => decide (j.id = jobId)) with
      | some job => completeFound srv env s job now ok
      | none => (s, errorReply srv 404 "Job not found" "JOB_NOT_FOUND") := by
  unfold completeJob
  rw [completeLoop_eq]
  simp [lLen]

/-! ## Facts about the first entry with a given id -/

theorem find_none_iff (q : List Job) (jobId : String) :
    q.find? (fun j => decide (j.id = jobId)) = none ↔ ∀ x ∈ q, x.id ≠ jobId := by
  simp

/-- When the scan finds `job`, the queue splits around it: nothing before it
has the id, and erasing `job` removes exactly that occurrence. -/
theorem find_split {q : List Job} {jobId : String} {job : Job}
    (h : q.find? (fun j => decide (j.id = jobId)) = some job) :
    job.id = jobId ∧ ∃ l1 l2, q = l1 ++ job :: l2 ∧ (∀ x ∈ l1, x.id ≠ jobId) ∧
      q.erase job = l1 ++ l2 := by
  obtain ⟨hp, l1, l2, hq, hl1⟩ := List.find?_eq_some.mp h
  have hid : job.id = jobId := by simpa using hp
  have hl1n : ∀ x ∈ l1, x.id ≠ jobId := by
    intro x hx
    simpa using hl1 x hx
  refine ⟨hid, l1, l2, hq, hl1n, ?_⟩
  have hnot : job ∉ l1 := fun hm => hl1n job hm hid
  rw [hq, List.erase_append_right _ hnot, List.erase_cons_head]

theorem find_some_of_mem {q : List Job} {jobId : String} {j : Job}
    (hj : j ∈ q) (hid : j.id = jobId) :
    ∃ job, q.find? (fun x => decide (x.id = jobId)) = some job := by
  cases h : q.find? (fun x => decide (x.id = jobId)) with
  | some job => exact ⟨job, rfl⟩
  | none => exact absurd hid ((find_none_iff q jobId).mp h j hj)

/-- In a queue with pairwise distinct ids the scan for `j.id` finds `j` itself. -/
theorem find_of_nodup {q : List Job} {j : Job}
    (hnd : (q.map Job.id).Nodup) (hj : j ∈ q) :
    q.find? (fun x => decide (x.id = j.id)) = some j := by
  obtain ⟨job, hjob⟩ := find_some_of_mem hj rfl
  obtain ⟨hid, l1, l2, hq, hl1, -⟩ := find_split hjob
  rw [hq, List.map_append, List.map_cons] at hnd
  have hnd2 := (List.nodup_append.mp hnd).2.1
  have hnot2 : job.id ∉ l2.map Job.id := (List.nodup_cons.mp hnd2).1
  rw [hq] at hj
  rcases List.mem_append.mp hj with h1 | h2
  · exact absurd rfl (hl1 j h1)
  · rcases List.mem_cons.mp h2 with h3 | h4
    · rw [hjob, h3]
    · exact absurd (hid ▸ List.mem_map_of_mem Job.id h4) hnot2

/-- In a queue with pairwise distinct ids, no entry left after erasing `j`
carries the id of `j`. -/
theorem erase_no_id {q : List Job} {j : Job}
    (hnd : (q.map Job.id).Nodup) (hj : j ∈ q) :
    ∀ x ∈ q.erase j, x.id ≠ j.id := by
  obtain ⟨hid, l1, l2, hq, hl1, her⟩ := find_split (find_of_nodup hnd hj)
  rw [hq, List.map_append, List.map_cons] at hnd
  have hnd2 := (List.nodup_append.mp hnd).2.1
  have hnot2 : j.id ∉ l2.map Job.id := (List.nodup_cons.mp hnd2).1
  intro x hx
  rw [her] at hx
  rcases List.mem_append.mp hx with h1 | h2
  · exact hl1 x h1
  · intro hxe
    exact hnot2 (hxe ▸ List.mem_map_of_mem Job.id h2)

/-! ## Effects of the handlers on the store -/

theorem completeFound_queue (srv : Server) (env : Env) (s : Store) (job : Job)
    (now : String) (ok : Bool) :
    (completeFound srv env s job now ok).1.queue = s.queue.erase job := by
  simp [completeFound, lRem_one]

theorem completeFound_completed (srv : Server) (env : Env) (s : Store) (job : Job)
    (now : String) (ok : Bool) :
    (completeFound srv env s job now ok).1.completed =
      { job with completedAt := some now } :: s.completed := by
  simp [completeFound, lPush]

theorem completeFound_status (srv : Server) (env : Env) (s : Store) (job : Job)
    (now : String) (ok : Bool) :
    (completeFound srv env s job now ok).2.status = 200 := by
  cases srv <;> simp [completeFound, Reply.status]

/-- A job id that no queue entry carries: the completion handler answers 404
and hands the store back as it was. -/
theorem completeJob_absent (srv : Server) (env : Env) (s : Store) (jobId now : String)
    (ok : Bool) (h : ∀ x ∈ s.queue, x.id ≠ jobId) :
    completeJob srv env s jobId now ok =
      (s, errorReply srv 404 "Job not found" "JOB_NOT_FOUND") := by
  rw [completeJob_find, (find_none_iff s.queue jobId).mpr h]

/-- A job id that no queue entry carries: the download handler answers 404 and
hands the store back as it was. -/
theorem streamDownload_absent (srv : Server) (env : Env) (s : Store) (jobId : String)
    (h : ∀ x ∈ s.queue, x.id ≠ jobId) :
    streamDownload srv env s jobId =
      (s, errorReply srv 404 "Job not found" "JOB_NOT_FOUND") := by
  unfold streamDownload
  simp only [findLoop_find, (find_none_iff s.queue jobId).mpr h]

theorem completeJob_queue_sub (srv : Server) (env : Env) (s : Store) (jobId now : String)
    (ok : Bool) : ∀ x ∈ (completeJob srv env s jobId now ok).1.queue, x ∈ s.queue := by
  intro x hx
  rw [completeJob_find] at hx
  cases h : s.queue.find? (fun j => decide (j.id = jobId)) with
  | none => simpa [h] using hx
  | some job =>
    rw [h] at hx
    simp only [completeFound_queue] at hx
    exact List.mem_of_mem_erase hx

theorem streamDownload_queue_sub (srv : Server) (env : Env) (s : Store) (jobId : String) :
    ∀ x ∈ (streamDownload srv env s jobId).1.queue, x ∈ s.queue := by
  intro x hx
  unfold streamDownload at hx
  simp only [findLoop_find] at hx
  cases h : s.queue.find? (fun j => decide (j.id = jobId)) with
  | none => simpa [h] using hx
  | some job =>
    rw [h] at hx
    by_cases hf : existsSync s.files (env.pathJoin env.uploadPath job.fileName) = true
    · simpa [hf] using hx
    · simp only [hf, lRem_one] at hx
      exact List.mem_of_mem_erase (by simpa using hx)

theorem listPending_store (srv : Server) (s : Store) (limit : Nat) :
    (listPending srv s limit).1 = s := rfl

theorem listPending_reply (srv : Server) (s : Store) (limit : Nat) :
    (listPending srv s limit).2 =
      Reply.jobs (s.queue.take (listCap srv)) (s.queue.take (listCap srv)).length
        (match srv with
         | .main => some s.queue.length
         | .noLogin => none) := by
  have h := pendingLoop_take s.queue (listCap srv)
  simp only [lLen] at h
  simp only [listPending, lLen, h]

/-! ## Runs that enqueue only fresh ids -/

theorem step_no_id (srv : Server) (env : Env) (s : Store) (op : Op) (jobId : String)
    (h : ∀ x ∈ s.queue, x.id ≠ jobId) (hop : op.newId ≠ some jobId) :
    ∀ x ∈ (step srv env s op).queue, x.id ≠ jobId := by
  cases op with
  | upload id file now =>
    intro x hx
    simp only [step, uploadFile, lPush, List.mem_cons] at hx
    rcases hx with rfl | hx
    · intro he
      exact hop (by simp [Op.newId, uploadJob] at he ⊢; exact he)
    · exact h x hx
  | watch e =>
    intro x hx
    simp only [step, watcherAdd] at hx
    split at hx
    · exact h x hx
    · split at hx
      · exact h x hx
      · split at hx
        · simp only [lPush, List.mem_cons] at hx
          rcases hx with rfl | hx
          · intro he
            exact hop (by simp [Op.newId, watcherJob] at he ⊢; exact he)
          · exact h x hx
        · exact h x hx
  | list limit => exact h
  | download jobId2 =>
    intro x hx
    exact h x (streamDownload_queue_sub srv env s jobId2 x hx)
  | complete jobId2 now ok =>
    intro x hx
    exact h x (completeJob_queue_sub srv env s jobId2 now ok x hx)

theorem run_no_id (srv : Server) (env : Env) (ops : List Op) (jobId : String) :
    ∀ s : Store, (∀ x ∈ s.queue, x.id ≠ jobId) → (∀ op ∈ ops, op.newId ≠ some jobId) →
      ∀ x ∈ (run srv env s ops).queue, x.id ≠ jobId := by
  induction ops with
  | nil => intro s h _; exact h
  | cons op ops ih =>
    intro s h hops
    have h1 := step_no_id srv env s op jobId h (hops op (List.mem_cons_self _ _))
    exact ih (step srv env s op) h1 (fun o ho => hops o (List.mem_cons_of_mem _ ho))

/-! ## Completion -/

/-- C1: in a pending queue with pairwise distinct ids, completing a pending job
`j` succeeds and leaves `j` out of the queue; after any further operations that
enqueue only jobs with other ids, `j` is still not pending, no listing returns
it, and completing `j.id` again is answered 404 (with code `JOB_NOT_FOUND` by
`server.js`) and changes nothing. -/
theorem completed_job_stays_gone (srv : Server) (env : Env) (s : Store) (j : Job)
    (now : String) (ok : Bool)
    (hnd : (s.queue.map Job.id).Nodup) (hj : j ∈ s.queue) :
    (completeJob srv env s j.id now ok).2.status = 200 ∧
    j ∉ (completeJob srv env s j.id now ok).1.queue ∧
    ∀ ops : List Op, (∀ op ∈ ops, op.newId ≠ some j.id) →
      ∀ s2 : Store, s2 = run srv env (completeJob srv env s j.id now ok).1 ops →
        j ∉ s2.queue ∧
        (∀ limit jobs count total,
          (listPending srv s2 limit).2 = Reply.jobs jobs count total → j ∉ jobs) ∧
        ∀ now2 ok2,
          (completeJob srv env s2 j.id now2 ok2).1 = s2 ∧
          (completeJob srv env s2 j.id now2 ok2).2.status = 404 ∧
          (srv = Server.main →
            (completeJob srv env s2 j.id now2 ok2).2 =
              Reply.error 404 "Job not found" (some "JOB_NOT_FOUND")) := by
  have hfind := find_of_nodup hnd hj
  have hgone : ∀ x ∈ (completeJob srv env s j.id now ok).1.queue, x.id ≠ j.id := by
    intro x hx
    rw [completeJob_find, hfind] at hx
    simp only [completeFound_queue] at hx
    exact erase_no_id hnd hj x hx
  refine ⟨?_, fun hm => hgone j hm rfl, ?_⟩
  · rw [completeJob_find, hfind]
    exact completeFound_status srv env s j now ok
  · intro ops hops s2 hs2
    have hno : ∀ x ∈ s2.queue, x.id ≠ j.id := by
      rw [hs2]
      exact run_no_id srv env ops j.id _ hgone hops
    refine ⟨fun hm => hno j hm rfl, ?_, ?_⟩
    · intro limit jobs count total hrep hm
      rw [listPending_reply] at hrep
      injection hrep with h1 _ _
      rw [← h1] at hm
      exact hno j (List.mem_of_mem_take hm) rfl
    · intro now2 ok2
      rw [completeJob_absent srv env s2 j.id now2 ok2 hno]
      refine ⟨rfl, ?_, ?_⟩
      · cases srv <;> rfl
      · intro hsrv
        subst hsrv
        rfl

theorem completed_job_stays_gone_witness :
    (sampleStore.queue.map Job.id).Nodup ∧ jobA ∈ sampleStore.queue ∧
    ((completeJob Server.main sampleEnv sampleStore jobA.id "t9" true).2.status = 200 ∧
    jobA ∉ (completeJob Server.main sampleEnv sampleStore jobA.id "t9" true).1.queue ∧
    ∀ ops : List Op, (∀ op ∈ ops, op.newId ≠ some jobA.id) →
      ∀ s2 : Store,
        s2 = run Server.main sampleEnv
          (completeJob Server.main sampleEnv sampleStore jobA.id "t9" true).1 ops →
        jobA ∉ s2.queue ∧
        (∀ limit jobs count total,
          (listPending Server.main s2 limit).2 = Reply.jobs jobs count total → jobA ∉ jobs) ∧
        ∀ now2 ok2,
          (completeJob Server.main sampleEnv s2 jobA.id now2 ok2).1 = s2 ∧
          (completeJob Server.main sampleEnv s2 jobA.id now2 ok2).2.status = 404 ∧
          (Server.main = Server.main →
            (completeJob Server.main sampleEnv s2 jobA.id now2 ok2).2 =
              Reply.error 404 "Job not found" (some "JOB_NOT_FOUND"))) :=
  ⟨by decide, by decide,
    completed_job_stays_gone Server.main sampleEnv sampleStore jobA "t9" true
      (by decide) (by decide)⟩

/-- C2: when some pending job has id `jobId`, the completion handler removes
exactly one entry, the first one with that id: the queue splits as
`l1 ++ job :: l2` and becomes `l1 ++ l2`, one entry shorter with all others in
place; and exactly one record is pushed on the completed list, equal to `job`
in `id`, `originalName`, `fileName`, `size` and `uploadedAt`, with
`completedAt` set to the completion time. -/
theorem complete_job_moves_one (srv : Server) (env : Env) (s : Store) (jobId now : String)
    (ok : Bool) (h : ∃ j ∈ s.queue, j.id = jobId) :
    ∃ l1 job l2, s.queue = l1 ++ job :: l2 ∧ job.id = jobId ∧ (∀ x ∈ l1, x.id ≠ jobId) ∧
      (completeJob srv env s jobId now ok).1.queue = l1 ++ l2 ∧
      (completeJob srv env s jobId now ok).1.queue.length + 1 = s.queue.length ∧
      ∃ done, (completeJob srv env s jobId now ok).1.completed = done :: s.completed ∧
        done.id = job.id ∧ done.originalName = job.originalName ∧
        done.fileName = job.fileName ∧ done.size = job.size ∧
        done.uploadedAt = job.uploadedAt ∧ done.completedAt = some now := by
  obtain ⟨j, hj, hid⟩ := h
  obtain ⟨job, hjob⟩ := find_some_of_mem hj hid
  obtain ⟨hjid, l1, l2, hq, hl1, her⟩ := find_split hjob
  refine ⟨l1, job, l2, hq, hjid, hl1, ?_, ?_, { job with completedAt := some now }, ?_,
    rfl, rfl, rfl, rfl, rfl, rfl⟩
  · rw [completeJob_find, hjob, completeFound_queue, her]
  · rw [completeJob_find, hjob, completeFound_queue, her, hq]
    simp only [List.length_append, List.length_cons]
    omega
  · rw [completeJob_find, hjob, completeFound_completed]

theorem complete_job_moves_one_witness :
    (∃ j ∈ sampleStore.queue, j.id = "id-a") ∧
    ∃ l1 job l2, sampleStore.queue = l1 ++ job :: l2 ∧ job.id = "id-a" ∧
      (∀ x ∈ l1, x.id ≠ "id-a") ∧
      (completeJob Server.main sampleEnv sampleStore "id-a" "t9" true).1.queue = l1 ++ l2 ∧
      (completeJob Server.main sampleEnv sampleStore "id-a" "t9" true).1.queue.length + 1 =
        sampleStore.queue.length ∧
      ∃ done, (completeJob Server.main sampleEnv sampleStore "id-a" "t9" true).1.completed =
          done :: sampleStore.completed ∧
        done.id = job.id ∧ done.originalName = job.originalName ∧
        done.fileName = job.fileName ∧ done.size = job.size ∧
        done.uploadedAt = job.uploadedAt ∧ done.completedAt = some "t9" :=
  ⟨⟨jobA, by decide, by decide⟩,
    complete_job_moves_one Server.main sampleEnv sampleStore "id-a" "t9" true
      ⟨jobA, by decide, by decide⟩⟩

/-- C3: when no pending job has id `jobId`, the completion handler answers 404
(with code `JOB_NOT_FOUND` in `server.js`) and leaves the pending queue, the
completed list and the stored files as they were. -/
theorem complete_job_absent_unchanged (srv : Server) (env : Env) (s : Store)
    (jobId now : String) (ok : Bool) (h : ∀ x ∈ s.queue, x.id ≠ jobId) :
    (completeJob srv env s jobId now ok).1.queue = s.queue ∧
    (completeJob srv env s jobId now ok).1.completed = s.completed ∧
    (completeJob srv env s jobId now ok).1.files = s.files ∧
    (completeJob srv env s jobId now ok).2.status = 404 ∧
    (srv = Server.main →
      (completeJob srv env s jobId now ok).2 =
        Reply.error 404 "Job not found" (some "JOB_NOT_FOUND")) := by
  rw [completeJob_absent srv env s jobId now ok h]
  refine ⟨rfl, rfl, rfl, ?_, ?_⟩
  · cases srv <;> rfl
  · intro hsrv
    subst hsrv
    rfl

theorem complete_job_absent_unchanged_witness :
    (∀ x ∈ sampleStore.queue, x.id ≠ "id-z") ∧
    ((completeJob Server.main sampleEnv sampleStore "id-z" "t9" true).1.queue =
        sampleStore.queue ∧
    (completeJob Server.main sampleEnv sampleStore "id-z" "t9" true).1.completed =
        sampleStore.completed ∧
    (completeJob Server.main sampleEnv sampleStore "id-z" "t9" true).1.files =
        sampleStore.files ∧
    (completeJob Server.main sampleEnv sampleStore "id-z" "t9" true).2.status = 404 ∧
    (Server.main = Server.main →
      (completeJob Server.main sampleEnv sampleStore "id-z" "t9" true).2 =
        Reply.error 404 "Job not found" (some "JOB_NOT_FOUND"))) :=
  ⟨by decide,
    complete_job_absent_unchanged Server.main sampleEnv sampleStore "id-z" "t9" true
      (by decide)⟩

/-! ## The status field -/

theorem completeJob_cases (srv : Server) (env : Env) (s : Store) (jobId now : String)
    (ok : Bool) :
    completeJob srv env s jobId now ok =
        (s, errorReply srv 404 "Job not found" "JOB_NOT_FOUND") ∨
      ∃ job, job ∈ s.queue ∧ job.id = jobId ∧
        completeJob srv env s jobId now ok = completeFound srv env s job now ok := by
  rw [completeJob_find]
  cases h : s.queue.find? (fun j => decide (j.id = jobId)) with
  | none => exact Or.inl rfl
  | some job =>
    obtain ⟨hid, l1, l2, hq, -, -⟩ := find_split h
    exact Or.inr ⟨job, by simp [hq], hid, rfl⟩

theorem step_statusInv (srv : Server) (env : Env) (s : Store) (op : Op)
    (h : StatusInv s) : StatusInv (step srv env s op) := by
  obtain ⟨hq, hc⟩ := h
  cases op with
  | upload id file now =>
    refine ⟨?_, hc⟩
    intro x hx
    simp only [step, uploadFile, lPush, List.mem_cons] at hx
    rcases hx with rfl | hx
    · rfl
    · exact hq x hx
  | watch e =>
    simp only [step, watcherAdd]
    split
    · exact ⟨hq, hc⟩
    · split
      · exact ⟨hq, hc⟩
      · split
        · refine ⟨?_, hc⟩
          intro x hx
          simp only [lPush, List.mem_cons] at hx
          rcases hx with rfl | hx
          · rfl
          · exact hq x hx
        · exact ⟨hq, hc⟩
  | list limit => exact ⟨hq, hc⟩
  | download jobId =>
    refine ⟨fun x hx => hq x (streamDownload_queue_sub srv env s jobId x hx), ?_⟩
    have hsame : (streamDownload srv env s jobId).1.completed = s.completed := by
      unfold streamDownload
      simp only
      split
      · rfl
      · split <;> rfl
    simp only [step, hsame]
    exact hc
  | complete jobId now ok =>
    refine ⟨fun x hx => hq x (completeJob_queue_sub srv env s jobId now ok x hx), ?_⟩
    rcases completeJob_cases srv env s jobId now ok with h1 | ⟨job, hjob, -, h2⟩
    · simp only [step, h1]
      exact hc
    · simp only [step, h2, completeFound_completed]
      intro x hx
      rcases List.mem_cons.mp hx with rfl | hx
      · exact ⟨hq job hjob, by simp⟩
      · exact hc x hx

theorem run_statusInv (srv : Server) (env : Env) (ops : List Op) :
    ∀ s : Store, StatusInv s → StatusInv (run srv env s ops) := by
  induction ops with
  | nil => intro s h; exact h
  | cons op ops ih => intro s h; exact ih _ (step_statusInv srv env s op h)

/-- C4, as the claim states it, fails: the record the completion handler
pushes on the completed list still has status `pending`. -/
theorem completed_record_status_not_completed :
    (completeJob Server.main sampleEnv sampleStore "id-a" "t9" true).1.completed =
        [{ jobA with completedAt := some "t9" }] ∧
    ¬ ∀ x ∈ (completeJob Server.main sampleEnv sampleStore "id-a" "t9" true).1.completed,
        x.status = "completed" := by
  decide

/-- C4, amended: the status field is written once, at creation, and never
again. In every store reached from the empty one, each pending record has
status `pending`, each completed record still has status `pending` and has
`completedAt` set; and a successful completion pushes the pending record
unchanged but for `completedAt`. -/
theorem status_never_rewritten (srv : Server) (env : Env) (ops : List Op) :
    (∀ x ∈ (run srv env emptyStore ops).queue, x.status = "pending") ∧
    (∀ x ∈ (run srv env emptyStore ops).completed,
      x.status = "pending" ∧ x.completedAt ≠ none) ∧
    ∀ jobId now ok,
      (completeJob srv env (run srv env emptyStore ops) jobId now ok).2.status = 200 →
      ∃ job, job ∈ (run srv env emptyStore ops).queue ∧ job.id = jobId ∧
        (completeJob srv env (run srv env emptyStore ops) jobId now ok).1.completed =
          { job with completedAt := some now } :: (run srv env emptyStore ops).completed ∧
        ({ job with completedAt := some now } : Job).status = "pending" := by
  have hinv : StatusInv (run srv env emptyStore ops) :=
    run_statusInv srv env ops emptyStore ⟨by simp [emptyStore], by simp [emptyStore]⟩
  refine ⟨hinv.1, hinv.2, ?_⟩
  intro jobId now ok hst
  rcases completeJob_cases srv env (run srv env emptyStore ops) jobId now ok with
    h1 | ⟨job, hjob, hid, h2⟩
  · rw [h1] at hst
    cases srv <;> simp [errorReply, Reply.status] at hst
  · exact ⟨job, hjob, hid, by rw [h2, completeFound_completed], hinv.1 job hjob⟩

theorem status_never_rewritten_witness :
    (∀ x ∈ (run Server.main sampleEnv emptyStore twoUploads).queue, x.status = "pending") ∧
    (∀ x ∈ (run Server.main sampleEnv emptyStore twoUploads).completed,
      x.status = "pending" ∧ x.completedAt ≠ none) ∧
    ∀ jobId now ok,
      (completeJob Server.main sampleEnv (run Server.main sampleEnv emptyStore twoUploads)
        jobId now ok).2.status = 200 →
      ∃ job, job ∈ (run Server.main sampleEnv emptyStore twoUploads).queue ∧ job.id = jobId ∧
        (completeJob Server.main sampleEnv (run Server.main sampleEnv emptyStore twoUploads)
          jobId now ok).1.completed =
          { job with completedAt := some now } ::
            (run Server.main sampleEnv emptyStore twoUploads).completed ∧
        ({ job with completedAt := some now } : Job).status = "pending" :=
  status_never_rewritten Server.main sampleEnv twoUploads

/-! ## Listing -/

/-- C5, as the claim states it, fails: asked for at most 5 jobs with 6 pending,
the listing returns all 6. -/
theorem list_pending_exceeds_limit :
    (listPending Server.main sixStore 5).2 = Reply.jobs sixStore.queue 6 (some 6) ∧
    ¬ sixStore.queue.length ≤ 5 := by
  decide

/-- C5, amended: the listing does not depend on the requested limit; it
returns the entries at the head of the pending queue up to the fixed bound of
the server (50 in `server.js`, 10 in `server_work_no_login.js`), so at most
that many. -/
theorem list_pending_capped (srv : Server) (s : Store) (limit : Nat) :
    ∃ jobs count total, (listPending srv s limit).2 = Reply.jobs jobs count total ∧
      jobs = s.queue.take (listCap srv) ∧
      jobs.length = min s.queue.length (listCap srv) ∧
      jobs.length ≤ listCap srv ∧
      (srv = Server.main → jobs.length ≤ 50) ∧
      ∀ limit2, listPending srv s limit2 = listPending srv s limit := by
  refine ⟨_, _, _, listPending_reply srv s limit, rfl, ?_, ?_, ?_, fun _ => rfl⟩
  · rw [List.length_take, min_comm]
  · rw [List.length_take]
    exact min_le_left _ _
  · intro hsrv
    subst hsrv
    rw [List.length_take]
    exact min_le_left _ _

theorem list_pending_capped_witness :
    ∃ jobs count total, (listPending Server.main sixStore 5).2 = Reply.jobs jobs count total ∧
      jobs = sixStore.queue.take (listCap Server.main) ∧
      jobs.length = min sixStore.queue.length (listCap Server.main) ∧
      jobs.length ≤ listCap Server.main ∧
      (Server.main = Server.main → jobs.length ≤ 50) ∧
      ∀ limit2, listPending Server.main sixStore limit2 = listPending Server.main sixStore 5 :=
  list_pending_capped Server.main sixStore 5

theorem run_enqueues (srv : Server) (env : Env) (ops : List Op) :
    ∀ s : Store, (∀ op ∈ ops, op.isEnqueue = true) →
      (run srv env s ops).queue = (ops.filterMap Op.pushed).reverse ++ s.queue := by
  induction ops with
  | nil => intro s _; simp [run]
  | cons op ops ih =>
    intro s h
    have hop := h op (List.mem_cons_self _ _)
    have hrest : ∀ o ∈ ops, o.isEnqueue = true := fun o ho => h o (List.mem_cons_of_mem _ ho)
    have hrun : run srv env s (op :: ops) = run srv env (step srv env s op) ops := rfl
    rw [hrun, ih (step srv env s op) hrest]
    cases op with
    | upload id file now =>
      simp [step, uploadFile, lPush, Op.pushed]
    | watch e =>
      by_cases h1 : includesSep e.fileName.data = true
      · simp [step, watcherAdd, Op.pushed, h1]
      · cases h2 : e.statSize with
        | none => simp [step, watcherAdd, Op.pushed, h1, h2]
        | some size =>
          by_cases h3 : e.renameOk = true
          · simp [step, watcherAdd, Op.pushed, h1, h2, h3, lPush]
          · simp [step, watcherAdd, Op.pushed, h1, h2, h3]
    | list limit => simp [Op.isEnqueue] at hop
    | download jobId => simp [Op.isEnqueue] at hop
    | complete jobId now ok => simp [Op.isEnqueue] at hop

/-- C6, as the claim states it, fails: after uploading `a.txt` and then
`b.txt` the listing returns the job of `b.txt` first. -/
theorem list_pending_not_fifo :
    (listPending Server.main (run Server.main sampleEnv emptyStore twoUploads) 5).2 =
      Reply.jobs [jobB, jobA] 2 (some 2) := by
  decide

/-- C6, amended: the listing is in reverse enqueue order. After a sequence of
enqueues the queue is the pushed jobs, newest first, followed by the old queue;
so if `a` was pushed as number `i` and `b` as number `k` with `i < k`, and `a`
is within the listing bound, then both are listed and `b` stands before `a`. -/
theorem list_pending_newest_first (srv : Server) (env : Env) (s : Store) (ops : List Op)
    (limit : Nat) (hops : ∀ op ∈ ops, op.isEnqueue = true) :
    (run srv env s ops).queue = (ops.filterMap Op.pushed).reverse ++ s.queue ∧
    ∀ (i k : Nat) (a b : Job), i < k →
      (ops.filterMap Op.pushed).get? i = some a →
      (ops.filterMap Op.pushed).get? k = some b →
      (ops.filterMap Op.pushed).length - 1 - i < listCap srv →
      ∃ jobs count total,
        (listPending srv (run srv env s ops) limit).2 = Reply.jobs jobs count total ∧
        jobs.get? ((ops.filterMap Op.pushed).length - 1 - k) = some b ∧
        jobs.get? ((ops.filterMap Op.pushed).length - 1 - i) = some a ∧
        (ops.filterMap Op.pushed).length - 1 - k < (ops.filterMap Op.pushed).length - 1 - i := by
  have hq := run_enqueues srv env ops s hops
  refine ⟨hq, ?_⟩
  intro i k a b hik ha hb hcap
  rw [List.get?_eq_getElem?] at ha hb
  obtain ⟨hi, hai⟩ := List.getElem?_eq_some.mp ha
  obtain ⟨hk, hbk⟩ := List.getElem?_eq_some.mp hb
  refine ⟨_, _, _, listPending_reply srv _ limit, ?_, ?_, by omega⟩
  · rw [List.get?_eq_getElem?, List.getElem?_take_of_lt (by omega), hq,
      List.getElem?_append_left (by simp; omega),
      List.getElem?_reverse (by omega)]
    have : (ops.filterMap Op.pushed).length - 1 -
        ((ops.filterMap Op.pushed).length - 1 - k) = k := by omega
    rw [this]
    exact hb
  · rw [List.get?_eq_getElem?, List.getElem?_take_of_lt (by omega), hq,
      List.getElem?_append_left (by simp; omega),
      List.getElem?_reverse (by omega)]
    have : (ops.filterMap Op.pushed).length - 1 -
        ((ops.filterMap Op.pushed).length - 1 - i) = i := by omega
    rw [this]
    exact ha

theorem list_pending_newest_first_witness :
    (∀ op ∈ twoUploads, op.isEnqueue = true) ∧
    ((run Server.main sampleEnv emptyStore twoUploads).queue =
      (twoUploads.filterMap Op.pushed).reverse ++ emptyStore.queue ∧
    ∀ (i k : Nat) (a b : Job), i < k →
      (twoUploads.filterMap Op.pushed).get? i = some a →
      (twoUploads.filterMap Op.pushed).get? k = some b →
      (twoUploads.filterMap Op.pushed).length - 1 - i < listCap Server.main →
      ∃ jobs count total,
        (listPending Server.main (run Server.main sampleEnv emptyStore twoUploads) 5).2 =
          Reply.jobs jobs count total ∧
        jobs.get? ((twoUploads.filterMap Op.pushed).length - 1 - k) = some b ∧
        jobs.get? ((twoUploads.filterMap Op.pushed).length - 1 - i) = some a ∧
        (twoUploads.filterMap Op.pushed).length - 1 - k <
          (twoUploads.filterMap Op.pushed).length - 1 - i) :=
  ⟨by decide,
    list_pending_newest_first Server.main sampleEnv emptyStore twoUploads 5 (by decide)⟩

/-- C7: the listing handler hands the store back as it was, both lists
included; `count` is the number of jobs in the reply, and `totalInQueue`, which
`server.js` reports, is the length of the pending queue. -/
theorem list_pending_reads_only (srv : Server) (s : Store) (limit : Nat) :
    (listPending srv s limit).1 = s ∧
    (listPending srv s limit).1.queue = s.queue ∧
    (listPending srv s limit).1.completed = s.completed ∧
    (∃ jobs total, (listPending srv s limit).2 = Reply.jobs jobs jobs.length total) ∧
    ∃ jobs, (listPending Server.main s limit).2 =
      Reply.jobs jobs jobs.length (some s.queue.length) := by
  exact ⟨rfl, rfl, rfl, ⟨s.queue.take (listCap srv), _, listPending_reply srv s limit⟩,
    ⟨s.queue.take (listCap Server.main), listPending_reply Server.main s limit⟩⟩

/-! ## Download -/

theorem find_first {l1 l2 : List Job} {job : Job} {jobId : String}
    (hid : job.id = jobId) (hfirst : ∀ x ∈ l1, x.id ≠ jobId) :
    (l1 ++ job :: l2).find? (fun j => decide (j.id = jobId)) = some job := by
  rw [List.find?_append, (find_none_iff l1 jobId).mpr hfirst]
  simp [hid]

/-- Every operation keeps the ids of the pending queue pairwise distinct,
provided an enqueueing operation brings an id that no pending job has. -/
theorem step_ids_nodup (srv : Server) (env : Env) (s : Store) (op : Op)
    (hnd : (s.queue.map Job.id).Nodup)
    (hfresh : ∀ id, op.newId = some id → ∀ x ∈ s.queue, x.id ≠ id) :
    ((step srv env s op).queue.map Job.id).Nodup := by
  cases op with
  | upload id file now =>
    simp only [step, uploadFile, lPush, List.map_cons, List.nodup_cons]
    refine ⟨?_, hnd⟩
    intro hm
    obtain ⟨x, hx, hxid⟩ := List.mem_map.mp hm
    exact hfresh id rfl x hx hxid
  | watch e =>
    simp only [step, watcherAdd]
    split
    · exact hnd
    · split
      · exact hnd
      · split
        · simp only [lPush, List.map_cons, List.nodup_cons]
          refine ⟨?_, hnd⟩
          intro hm
          obtain ⟨x, hx, hxid⟩ := List.mem_map.mp hm
          exact hfresh e.id rfl x hx hxid
        · exact hnd
  | list limit => exact hnd
  | download jobId =>
    simp only [step]
    unfold streamDownload
    simp only [findLoop_find]
    cases h : s.queue.find? (fun j => decide (j.id = jobId)) with
    | none => exact hnd
    | some job =>
      simp only []
      split
      · simp only [lRem_one]
        exact List.Nodup.sublist ((List.erase_sublist job s.queue).map Job.id) hnd
      · exact hnd
  | complete jobId now ok =>
    simp only [step]
    rw [completeJob_find]
    cases h : s.queue.find? (fun j => decide (j.id = jobId)) with
    | none => exact hnd
    | some job =>
      simp only [completeFound_queue]
      exact List.Nodup.sublist ((List.erase_sublist job s.queue).map Job.id) hnd

/-- The pending queue of a producer whose enqueued ids are fresh (as those of
`uuidv4()` are) has pairwise distinct ids, whatever requests it serves in
between. -/
theorem run_ids_nodup (srv : Server) (env : Env) (ops : List Op) :
    ∀ s : Store, (s.queue.map Job.id).Nodup → (ops.filterMap Op.newId).Nodup →
      (∀ id ∈ ops.filterMap Op.newId, ∀ x ∈ s.queue, x.id ≠ id) →
      ((run srv env s ops).queue.map Job.id).Nodup := by
  induction ops with
  | nil => intro s hnd _ _; exact hnd
  | cons op ops ih =>
    intro s hnd hids hfresh
    have hstep : ((step srv env s op).queue.map Job.id).Nodup := by
      apply step_ids_nodup srv env s op hnd
      intro id hid
      exact hfresh id (by simp [List.filterMap_cons, hid])
    have hrest : (ops.filterMap Op.newId).Nodup := by
      cases hop : op.newId with
      | none => simpa [List.filterMap_cons, hop] using hids
      | some id0 =>
        have := hids
        simp only [List.filterMap_cons, hop, List.nodup_cons] at this
        exact this.2
    refine ih (step srv env s op) hstep hrest ?_
    intro id hid
    apply step_no_id srv env s op id
    · apply hfresh id
      cases hop : op.newId with
      | none => simpa [List.filterMap_cons, hop] using hid
      | some id0 => simp [List.filterMap_cons, hop, hid]
    · intro hop
      have := hids
      simp only [List.filterMap_cons, hop, List.nodup_cons] at this
      exact this.1 hid

/-- C8: in a pending queue with pairwise distinct ids, which is what the
producer builds, a download request for a pending job whose file (upload
directory joined with its `fileName`) does not exist is answered 404 (with
code `FILE_NOT_FOUND` in `server.js`) and removes that job and no other from
the pending queue: the queue is the old one without this entry, the others in
their order; the completed list and the files are as before. -/
theorem stale_job_evicted (srv : Server) (env : Env) (s : Store) (job : Job)
    (hnd : (s.queue.map Job.id).Nodup) (hj : job ∈ s.queue)
    (hmiss : existsSync s.files (env.pathJoin env.uploadPath job.fileName) = false) :
    (streamDownload srv env s job.id).2.status = 404 ∧
    (srv = Server.main →
      (streamDownload srv env s job.id).2 =
        Reply.error 404 "File no longer exists" (some "FILE_NOT_FOUND")) ∧
    (∃ l1 l2, s.queue = l1 ++ job :: l2 ∧
      (streamDownload srv env s job.id).1.queue = l1 ++ l2) ∧
    job ∉ (streamDownload srv env s job.id).1.queue ∧
    (∀ x ∈ s.queue, x ≠ job → x ∈ (streamDownload srv env s job.id).1.queue) ∧
    (streamDownload srv env s job.id).1.completed = s.completed ∧
    (streamDownload srv env s job.id).1.files = s.files ∧
    ((streamDownload srv env s job.id).1.queue.map Job.id).Nodup := by
  have hfind := find_of_nodup hnd hj
  obtain ⟨-, l1, l2, hq, -, her⟩ := find_split hfind
  have hrun : streamDownload srv env s job.id =
      ({ s with queue := s.queue.erase job },
        errorReply srv 404 "File no longer exists" "FILE_NOT_FOUND") := by
    unfold streamDownload
    simp only [findLoop_find, hfind, hmiss, lRem_one]
    rfl
  rw [hrun]
  refine ⟨?_, ?_, ⟨l1, l2, hq, her⟩, ?_, ?_, rfl, rfl, ?_⟩
  · cases srv <;> rfl
  · intro hsrv
    subst hsrv
    rfl
  · intro hm
    exact erase_no_id hnd hj job hm rfl
  · intro x hx hne
    exact (List.mem_erase_of_ne hne).mpr hx
  · exact List.Nodup.sublist ((List.erase_sublist job s.queue).map Job.id) hnd

/-- A witness of C8: of two pending jobs the file of the second is gone; the
request for it is answered 404 and leaves the first job alone in the queue. -/
theorem stale_job_evicted_witness :
    (staleStore.queue.map Job.id).Nodup ∧ jobA ∈ staleStore.queue ∧
    existsSync staleStore.files (sampleEnv.pathJoin sampleEnv.uploadPath jobA.fileName) =
      false ∧
    (streamDownload Server.main sampleEnv staleStore jobA.id).2 =
      Reply.error 404 "File no longer exists" (some "FILE_NOT_FOUND") ∧
    (streamDownload Server.main sampleEnv staleStore jobA.id).1.queue = [jobB] :=
  ⟨by decide, by decide, by decide,
    (stale_job_evicted Server.main sampleEnv staleStore jobA (by decide) (by decide)
      (by decide)).2.1 rfl,
    by decide⟩

/-- C9: when no pending job has id `jobId`, the download handler answers 404
(with code `JOB_NOT_FOUND` in `server.js`) and changes neither list. -/
theorem download_absent_unchanged (srv : Server) (env : Env) (s : Store) (jobId : String)
    (h : ∀ x ∈ s.queue, x.id ≠ jobId) :
    (streamDownload srv env s jobId).1.queue = s.queue ∧
    (streamDownload srv env s jobId).1.completed = s.completed ∧
    (streamDownload srv env s jobId).1 = s ∧
    (streamDownload srv env s jobId).2.status = 404 ∧
    (srv = Server.main →
      (streamDownload srv env s jobId).2 =
        Reply.error 404 "Job not found" (some "JOB_NOT_FOUND")) := by
  rw [streamDownload_absent srv env s jobId h]
  refine ⟨rfl, rfl, rfl, ?_, ?_⟩
  · cases srv <;> rfl
  · intro hsrv
    subst hsrv
    rfl

theorem download_absent_unchanged_witness :
    (∀ x ∈ sampleStore.queue, x.id ≠ "id-z") ∧
    ((streamDownload Server.main sampleEnv sampleStore "id-z").1.queue = sampleStore.queue ∧
    (streamDownload Server.main sampleEnv sampleStore "id-z").1.completed =
      sampleStore.completed ∧
    (streamDownload Server.main sampleEnv sampleStore "id-z").1 = sampleStore ∧
    (streamDownload Server.main sampleEnv sampleStore "id-z").2.status = 404 ∧
    (Server.main = Server.main →
      (streamDownload Server.main sampleEnv sampleStore "id-z").2 =
        Reply.error 404 "Job not found" (some "JOB_NOT_FOUND"))) :=
  ⟨by decide, download_absent_unchanged Server.main sampleEnv sampleStore "id-z" (by decide)⟩

/-- C10: in a pending queue with pairwise distinct ids, which is what the
producer builds, a download request for the id of a pending job whose file is
on disk selects that job, the first (and only) one in queue order with the id,
serves the file at the upload directory joined with its `fileName` under its
`originalName`, and hands the store, the pending queue with it, back as it
was. -/
theorem download_serves_first_match (srv : Server) (env : Env) (s : Store) (jobId : String)
    (job : Job) (hnd : (s.queue.map Job.id).Nodup) (hj : job ∈ s.queue)
    (hid : job.id = jobId)
    (hex : existsSync s.files (env.pathJoin env.uploadPath job.fileName) = true) :
    (∃ l1 l2, s.queue = l1 ++ job :: l2 ∧ ∀ x ∈ l1, x.id ≠ jobId) ∧
    streamDownload srv env s jobId =
      (s, Reply.download (env.pathJoin env.uploadPath job.fileName) job.originalName) ∧
    (streamDownload srv env s jobId).1.queue = s.queue := by
  have hfind : s.queue.find? (fun j => decide (j.id = jobId)) = some job := by
    rw [← hid]
    exact find_of_nodup hnd hj
  obtain ⟨-, l1, l2, hq, hl1, -⟩ := find_split hfind
  have hrun : streamDownload srv env s jobId =
      (s, Reply.download (env.pathJoin env.uploadPath job.fileName) job.originalName) := by
    unfold streamDownload
    simp only [findLoop_find, hfind, hex]
    rfl
  rw [hrun]
  exact ⟨⟨l1, l2, hq, hl1⟩, rfl, rfl⟩

/-- A witness of C10: the second of two pending jobs is asked for and served
from its stored name under its original name. -/
theorem download_serves_first_match_witness :
    (sampleStore.queue.map Job.id).Nodup ∧ jobA ∈ sampleStore.queue ∧ jobA.id = "id-a" ∧
    existsSync sampleStore.files (sampleEnv.pathJoin sampleEnv.uploadPath jobA.fileName) =
      true ∧
    streamDownload Server.main sampleEnv sampleStore "id-a" =
      (sampleStore,
        Reply.download (sampleEnv.pathJoin sampleEnv.uploadPath jobA.fileName)
          jobA.originalName) :=
  ⟨by decide, by decide, by decide, by decide,
    (download_serves_first_match Server.main sampleEnv sampleStore "id-a" jobA
      (by decide) (by decide) (by decide) (by decide)).2.1⟩

/-! ## Decimal numerals: what the program relies on -/

theorem digitChar_ne_underscore (d : Nat) (h : d < 10) : Nat.digitChar d ≠ '_' := by
  interval_cases d <;> decide

theorem toDigitsCore_no_underscore (fuel : Nat) :
    ∀ (n : Nat) (ds : List Char), '_' ∉ ds → '_' ∉ Nat.toDigitsCore 10 fuel n ds := by
  induction fuel with
  | zero => intro n ds h; simpa [Nat.toDigitsCore] using h
  | succ fuel ih =>
    intro n ds h
    have hcons : '_' ∉ Nat.digitChar (n % 10) :: ds := by
      intro hm
      rcases List.mem_cons.mp hm with h1 | h1
      · exact digitChar_ne_underscore _ (Nat.mod_lt _ (by decide)) h1.symm
      · exact h h1
    unfold Nat.toDigitsCore
    simp only
    split
    · exact hcons
    · exact ih _ _ hcons

/-- A decimal numeral contains no underscore. -/
theorem toString_no_underscore (n : Nat) : '_' ∉ (toString n).data := by
  show '_' ∉ (Nat.repr n).data
  unfold Nat.repr Nat.toDigits
  simpa [List.asString] using toDigitsCore_no_underscore (n + 1) n [] (by simp)

theorem digitChar_value (d : Nat) (h : d < 10) : (Nat.digitChar d).toNat - 48 = d := by
  interval_cases d <;> rfl

theorem foldl_decimal (cs : List Char) (a : Nat) :
    cs.foldl (fun acc c => 10 * acc + (c.toNat - 48)) a =
      a * 10 ^ cs.length + decimalValue cs := by
  induction cs generalizing a with
  | nil => simp [decimalValue]
  | cons c cs ih =>
    unfold decimalValue
    simp only [List.foldl_cons, List.length_cons]
    rw [ih, ih (10 * 0 + (c.toNat - 48))]
    ring

theorem decimalValue_cons (c : Char) (cs : List Char) :
    decimalValue (c :: cs) = (c.toNat - 48) * 10 ^ cs.length + decimalValue cs := by
  have h := foldl_decimal cs (10 * 0 + (c.toNat - 48))
  unfold decimalValue at h ⊢
  simp only [List.foldl_cons]
  rw [h]
  ring

theorem toDigitsCore_value (fuel : Nat) :
    ∀ (n : Nat) (ds : List Char), n < fuel →
      decimalValue (Nat.toDigitsCore 10 fuel n ds) = n * 10 ^ ds.length + decimalValue ds := by
  induction fuel with
  | zero => intro n ds h; omega
  | succ fuel ih =>
    intro n ds h
    unfold Nat.toDigitsCore
    simp only
    split
    · rename_i h0
      have hn : n % 10 = n := by omega
      rw [decimalValue_cons, digitChar_value _ (Nat.mod_lt _ (by decide)), hn]
    · rename_i h0
      have hlt : n / 10 < fuel := by omega
      rw [ih _ _ hlt, decimalValue_cons, digitChar_value _ (Nat.mod_lt _ (by decide))]
      simp only [List.length_cons]
      have hdiv : n = 10 * (n / 10) + n % 10 := (Nat.div_add_mod n 10).symm
      generalize n / 10 = q at hdiv ⊢
      generalize n % 10 = r at hdiv ⊢
      subst hdiv
      ring

/-- A decimal numeral stands for the number it was printed from. -/
theorem decimalValue_toString (n : Nat) : decimalValue (toString n).data = n := by
  show decimalValue (Nat.repr n).data = n
  unfold Nat.repr Nat.toDigits
  have h := toDigitsCore_value (n + 1) n [] (Nat.lt_succ_self n)
  simpa [List.asString, decimalValue] using h

/-- Different numbers print differently. -/
theorem toString_nat_injective {m n : Nat} (h : toString m = toString n) : m = n := by
  rw [← decimalValue_toString m, ← decimalValue_toString n, h]

/-! ## Stored names -/

theorem splitSep_ne_nil (l : List Char) : splitSep l ≠ [] := by
  induction l using splitSep.induct with
  | case1 => simp [splitSep]
  | case2 rest ih => simp [splitSep]
  | case3 c cs hne p ps hsplit ih => rw [splitSep, hsplit] <;> simp_all
  | case4 c cs hne hsplit ih => rw [splitSep, hsplit] <;> simp_all

/-- Joining the pieces of a split with the separator gives the name back. -/
theorem joinSep_splitSep (l : List Char) : joinSep (splitSep l) = l := by
  induction l using splitSep.induct with
  | case1 => simp [splitSep, joinSep]
  | case2 rest ih =>
    rw [splitSep]
    cases h : splitSep rest with
    | nil => exact absurd h (splitSep_ne_nil rest)
    | cons q qs =>
      rw [h] at ih
      simp [joinSep, ih]
  | case3 c cs hne p ps hsplit ih =>
    rw [splitSep, hsplit]
    · rw [hsplit] at ih
      cases ps with
      | nil => simpa [joinSep] using ih
      | cons q qs =>
        simp only [joinSep] at ih ⊢
        simp [← ih]
    · exact hne
  | case4 c cs hne hsplit ih => exact absurd hsplit (splitSep_ne_nil cs)

/-- Splitting at the first separator: a prefix without underscores is the
first piece. -/
theorem splitSep_prefix (ds rest : List Char) (h : '_' ∉ ds) :
    splitSep (ds ++ '_' :: '_' :: '_' :: rest) = ds :: splitSep rest := by
  induction ds with
  | nil => simp [splitSep]
  | cons c cs ih =>
    have hc : c ≠ '_' := fun he => h (he ▸ List.mem_cons_self _ _)
    have hcs : '_' ∉ cs := fun hm => h (List.mem_cons_of_mem _ hm)
    rw [List.cons_append, splitSep, ih hcs]
    intro rest2 h1
    exact absurd h1 hc

theorem splitSep_no_sep (l : List Char) (h : includesSep l = false) : splitSep l = [l] := by
  induction l using splitSep.induct with
  | case1 => simp [splitSep]
  | case2 rest ih => simp [includesSep] at h
  | case3 c cs hne p ps hsplit ih =>
    have hcs : includesSep cs = false := by
      rw [includesSep] at h
      · exact h
      · exact hne
    rw [splitSep, hsplit]
    · rw [ih hcs] at hsplit
      simp only [List.cons.injEq] at hsplit
      simp [hsplit.1, hsplit.2]
    · exact hne
  | case4 c cs hne hsplit ih => exact absurd hsplit (splitSep_ne_nil cs)

theorem storedName_data (t : Nat) (n : String) :
    (storedName t n).data = (toString t).data ++ '_' :: '_' :: '_' :: n.data := by
  simp [storedName, String.data_append]

/-- C20: the original name is recovered from a stored name built as decimal
timestamp, separator, original name, whatever the original name is; so the
upload handler records the name the uploader supplied; and a stored name
without the separator is returned unchanged. -/
theorem extract_stored_name_round_trip :
    (∀ (t : Nat) (n : String), extractOriginalFilename (storedName t n) = n) ∧
    (∀ (t : Nat) (n id now : String) (size : Nat),
      (uploadJob id { filename := storedName t n, size := size } now).originalName = n) ∧
    (∀ s : String, includesSep s.data = false → extractOriginalFilename s = s) := by
  have h1 : ∀ (t : Nat) (n : String), extractOriginalFilename (storedName t n) = n := by
    intro t n
    unfold extractOriginalFilename
    simp only [storedName_data, splitSep_prefix _ _ (toString_no_underscore t)]
    cases h : splitSep n.data with
    | nil => exact absurd h (splitSep_ne_nil _)
    | cons p ps =>
      have hj := joinSep_splitSep n.data
      rw [h] at hj
      simp [hj]
  refine ⟨h1, ?_, ?_⟩
  · intro t n id now size
    exact h1 t n
  · intro s hs
    unfold extractOriginalFilename
    simp [splitSep_no_sep _ hs]

theorem extract_stored_name_round_trip_witness :
    extractOriginalFilename (storedName 1700000000000 "__a___b.txt") = "__a___b.txt" ∧
    includesSep "plain.txt".data = false ∧
    extractOriginalFilename "plain.txt" = "plain.txt" :=
  ⟨extract_stored_name_round_trip.1 1700000000000 "__a___b.txt", by decide,
    extract_stored_name_round_trip.2.2 "plain.txt" (by decide)⟩

/-! ## The file watcher -/

/-- The test of the watcher holds exactly of the names that contain three
underscores in a row. -/
theorem includesSep_iff (l : List Char) :
    includesSep l = true ↔ ∃ a b, l = a ++ '_' :: '_' :: '_' :: b := by
  induction l using includesSep.induct with
  | case1 =>
    simp only [includesSep, Bool.false_eq_true, false_iff]
    rintro ⟨a, b, h⟩
    cases a <;> simp at h
  | case2 rest =>
    simp only [includesSep, true_iff]
    exact ⟨[], rest, rfl⟩
  | case3 c cs hne ih =>
    rw [includesSep, ih]
    · constructor
      · rintro ⟨a, b, h⟩
        exact ⟨c :: a, b, by simp [h]⟩
      · rintro ⟨a, b, h⟩
        cases a with
        | nil =>
          simp only [List.nil_append, List.cons.injEq] at h
          exact absurd h.2 (hne b h.1)
        | cons x a =>
          simp only [List.cons_append, List.cons.injEq] at h
          exact ⟨a, b, h.2⟩
    · exact hne

theorem existsSync_iff (existing : List String) (p : String) :
    existsSync existing p = true ↔ p ∈ existing := by
  simp [existsSync]

theorem mem_renameSync (files : List String) (oldPath newPath q : String) :
    q ∈ renameSync files oldPath newPath ↔
      q = newPath ∨ (q ∈ files ∧ q ≠ oldPath ∧ q ≠ newPath) := by
  simp [renameSync]

/-- C19: a detected file whose name contains the separator is skipped: nothing
is renamed, nothing enqueued. Any other file, once its size is read and the
rename done, is stored under decimal timestamp, separator, name: that path is
in the upload directory afterwards, the path it was detected at is not, and
every other file is there exactly if it was before. Exactly one job is pushed
on the pending queue, with the detected name as `originalName`, the new name
as `fileName`, the size read and status `pending`. -/
theorem watcher_add_effect (env : Env) (s : Store) (e : AddEvent) :
    ((∃ a b, e.fileName.data = a ++ '_' :: '_' :: '_' :: b) → watcherAdd env s e = s) ∧
    ((¬ ∃ a b, e.fileName.data = a ++ '_' :: '_' :: '_' :: b) →
      ∀ size, e.statSize = some size → e.renameOk = true →
        (watcherAdd env s e).queue =
          { id := e.id
            originalName := e.fileName
            fileName := toString e.timestamp ++ "___" ++ e.fileName
            size := size
            uploadedAt := e.now
            status := "pending"
            completedAt := none } :: s.queue ∧
        (watcherAdd env s e).completed = s.completed ∧
        (watcherAdd env s e).files =
          renameSync s.files e.filePath
            (env.pathJoin env.uploadPath (toString e.timestamp ++ "___" ++ e.fileName)) ∧
        existsSync (watcherAdd env s e).files
          (env.pathJoin env.uploadPath (toString e.timestamp ++ "___" ++ e.fileName)) = true ∧
        (e.filePath ≠
            env.pathJoin env.uploadPath (toString e.timestamp ++ "___" ++ e.fileName) →
          existsSync (watcherAdd env s e).files e.filePath = false) ∧
        (∀ q, q ≠ e.filePath →
          q ≠ env.pathJoin env.uploadPath (toString e.timestamp ++ "___" ++ e.fileName) →
          (q ∈ (watcherAdd env s e).files ↔ q ∈ s.files))) := by
  constructor
  · intro h
    have hs := (includesSep_iff e.fileName.data).mpr h
    simp [watcherAdd, hs]
  · intro h size hsize hren
    have hs : includesSep e.fileName.data = false := by
      cases hb : includesSep e.fileName.data with
      | false => rfl
      | true => exact absurd ((includesSep_iff e.fileName.data).mp hb) h
    have hfiles : (watcherAdd env s e).files =
        renameSync s.files e.filePath
          (env.pathJoin env.uploadPath (toString e.timestamp ++ "___" ++ e.fileName)) := by
      simp [watcherAdd, hs, hsize, hren, storedName]
    refine ⟨?_, ?_, hfiles, ?_, ?_, ?_⟩
    · simp [watcherAdd, hs, hsize, hren, lPush, watcherJob, storedName]
    · simp [watcherAdd, hs, hsize, hren]
    · rw [hfiles, existsSync_iff, mem_renameSync]
      exact Or.inl rfl
    · intro hne
      cases hex : existsSync (watcherAdd env s e).files e.filePath with
      | false => rfl
      | true =>
        rw [hfiles, existsSync_iff, mem_renameSync] at hex
        rcases hex with h1 | ⟨-, h2, -⟩
        · exact absurd h1 hne
        · exact absurd rfl h2
    · intro q hq1 hq2
      rw [hfiles, mem_renameSync]
      constructor
      · rintro (h1 | ⟨h2, -, -⟩)
        · exact absurd h1 hq2
        · exact h2
      · intro h2
        exact Or.inr ⟨h2, hq1, hq2⟩

/-- A witness of C19: `report.pdf` is dropped into the upload directory at
1700000000005; afterwards it is there under the stored name and not under
its own, and one job for it heads the pending queue. -/
theorem watcher_add_effect_witness :
    (¬ ∃ a b, sampleAddEvent.fileName.data = a ++ '_' :: '_' :: '_' :: b) ∧
    sampleAddEvent.statSize = some 1234 ∧ sampleAddEvent.renameOk = true ∧
    existsSync droppedStore.files "uploads/report.pdf" = true ∧
    (watcherAdd sampleEnv droppedStore sampleAddEvent).queue =
      { id := "id-w"
        originalName := "report.pdf"
        fileName := toString 1700000000005 ++ "___" ++ "report.pdf"
        size := 1234
        uploadedAt := "2024-01-01T00:00:05.000Z"
        status := "pending"
        completedAt := none } :: droppedStore.queue ∧
    existsSync (watcherAdd sampleEnv droppedStore sampleAddEvent).files
      (sampleEnv.pathJoin sampleEnv.uploadPath
        (toString 1700000000005 ++ "___" ++ "report.pdf")) = true ∧
    existsSync (watcherAdd sampleEnv droppedStore sampleAddEvent).files
      "uploads/report.pdf" = false :=
  have hno : ¬ ∃ a b, sampleAddEvent.fileName.data = a ++ '_' :: '_' :: '_' :: b :=
    fun h => absurd ((includesSep_iff sampleAddEvent.fileName.data).mpr h) (by decide)
  ⟨hno, rfl, rfl, by decide,
    ((watcher_add_effect sampleEnv droppedStore sampleAddEvent).2 hno 1234 rfl rfl).1,
    ((watcher_add_effect sampleEnv droppedStore sampleAddEvent).2 hno 1234 rfl rfl).2.2.2.1,
    ((watcher_add_effect sampleEnv droppedStore sampleAddEvent).2 hno 1234 rfl rfl).2.2.2.2.1
      (by decide)⟩

/-! ## Unique local names -/

theorem uniqueLoop_none_iff (F : PathFns) (existing : List String) (filePath : String)
    (k : Nat) : ∀ c : Nat, uniqueLoop F existing filePath k c = none ↔
      ∀ n, c ≤ n → n < c + k → numberedPath F filePath n ∈ existing := by
  induction k with
  | zero =>
    intro c
    simp only [uniqueLoop, true_iff]
    intro n h1 h2
    omega
  | succ k ih =>
    intro c
    unfold uniqueLoop
    by_cases hex : existsSync existing (numberedPath F filePath c) = true
    · simp only [hex, if_true, ih]
      constructor
      · intro h n h1 h2
        by_cases hn : n = c
        · subst hn
          exact (existsSync_iff _ _).mp hex
        · exact h n (by omega) (by omega)
      · intro h n h1 h2
        exact h n (by omega) (by omega)
    · simp only [hex]
      constructor
      · intro h
        simp at h
      · intro h
        exact absurd ((existsSync_iff _ _).mpr (h c (le_refl c) (by omega))) hex

theorem uniqueLoop_some_iff (F : PathFns) (existing : List String) (filePath : String)
    (k : Nat) (q : String) : ∀ c : Nat, uniqueLoop F existing filePath k c = some q ↔
      ∃ n, c ≤ n ∧ n < c + k ∧ q = numberedPath F filePath n ∧
        numberedPath F filePath n ∉ existing ∧
        ∀ m, c ≤ m → m < n → numberedPath F filePath m ∈ existing := by
  induction k with
  | zero =>
    intro c
    simp only [uniqueLoop]
    constructor
    · intro h
      simp at h
    · rintro ⟨n, h1, h2, -⟩
      omega
  | succ k ih =>
    intro c
    unfold uniqueLoop
    by_cases hex : existsSync existing (numberedPath F filePath c) = true
    · simp only [hex, if_true, ih]
      have hmem := (existsSync_iff _ _).mp hex
      constructor
      · rintro ⟨n, h1, h2, h3, h4, h5⟩
        refine ⟨n, by omega, by omega, h3, h4, ?_⟩
        intro m hm1 hm2
        by_cases hmc : m = c
        · subst hmc
          exact hmem
        · exact h5 m (by omega) hm2
      · rintro ⟨n, h1, h2, h3, h4, h5⟩
        have hne : n ≠ c := by
          intro he
          subst he
          exact h4 hmem
        exact ⟨n, by omega, by omega, h3, h4, fun m hm1 hm2 => h5 m (by omega) hm2⟩
    · have hnot : numberedPath F filePath c ∉ existing :=
        fun hm => hex ((existsSync_iff _ _).mpr hm)
      simp only [hex]
      constructor
      · intro h
        have hq : numberedPath F filePath c = q := by simpa using h
        exact ⟨c, le_refl c, by omega, hq.symm, hnot, fun m hm1 hm2 => by omega⟩
      · rintro ⟨n, h1, h2, h3, h4, h5⟩
        have hn : n = c := by
          by_contra hne
          exact hnot (h5 c (le_refl c) (by omega))
        subst hn
        simp [h3]

/-- Pigeonhole: pairwise distinct numbered paths cannot all exist, when there
are more of them than existing paths. -/
theorem numbered_not_all_exist (F : PathFns) (existing : List String) (filePath : String)
    (hinj : NumberedDistinct F filePath) (c k : Nat) (hk : existing.length < k) :
    ¬ ∀ n, c ≤ n → n < c + k → numberedPath F filePath n ∈ existing := by
  intro hall
  have hnd : ((List.range k).map (fun i => numberedPath F filePath (c + i))).Nodup := by
    refine List.Nodup.map_on ?_ (List.nodup_range k)
    intro x _ y _ hxy
    have := hinj _ _ hxy
    omega
  have hsub : (List.range k).map (fun i => numberedPath F filePath (c + i)) ⊆ existing := by
    intro q hq
    obtain ⟨i, hi, rfl⟩ := List.mem_map.mp hq
    have hik : i < k := List.mem_range.mp hi
    exact hall (c + i) (by omega) (by omega)
  have hlen := (List.subperm_of_subset hnd hsub).length_le
  simp only [List.length_map, List.length_range] at hlen
  omega

/-- Enough rounds give a result, and more rounds give the same one. -/
theorem getUniqueFilePathFuel_enough (F : PathFns) (existing : List String)
    (filePath : String) (hinj : NumberedDistinct F filePath) (fuel : Nat)
    (hfuel : existing.length + 1 ≤ fuel) :
    getUniqueFilePathFuel F existing filePath fuel =
      some (getUniqueFilePath F existing filePath) := by
  unfold getUniqueFilePath getUniqueFilePathFuel
  by_cases hex : existsSync existing filePath = true
  · simp only [hex, Bool.not_true, Bool.false_eq_true, if_false]
    cases h1 : uniqueLoop F existing filePath (existing.length + 1) 1 with
    | none =>
      exact absurd ((uniqueLoop_none_iff F existing filePath _ 1).mp h1)
        (numbered_not_all_exist F existing filePath hinj 1 _ (by omega))
    | some q =>
      obtain ⟨n, a1, a2, a3, a4, a5⟩ := (uniqueLoop_some_iff F existing filePath _ q 1).mp h1
      simp only [Option.getD_some]
      exact (uniqueLoop_some_iff F existing filePath fuel q 1).mpr
        ⟨n, a1, by omega, a3, a4, a5⟩
  · simp [hex]

theorem getUniqueFilePath_of_absent (F : PathFns) (existing : List String)
    (filePath : String) (h : filePath ∉ existing) :
    getUniqueFilePath F existing filePath = filePath := by
  have hex : existsSync existing filePath = false := by
    simpa [existsSync] using h
  simp [getUniqueFilePath, getUniqueFilePathFuel, hex]

/-- When the target exists the result is the numbered path with the least
counter, from 1 on, that does not exist. -/
theorem getUniqueFilePath_of_present (F : PathFns) (existing : List String)
    (filePath : String) (hinj : NumberedDistinct F filePath) (h : filePath ∈ existing) :
    ∃ n, 1 ≤ n ∧ getUniqueFilePath F existing filePath = numberedPath F filePath n ∧
      numberedPath F filePath n ∉ existing ∧
      ∀ m, 1 ≤ m → m < n → numberedPath F filePath m ∈ existing := by
  have hfuel := getUniqueFilePathFuel_enough F existing filePath hinj _ (le_refl _)
  have hex : existsSync existing filePath = true := (existsSync_iff _ _).mpr h
  simp only [getUniqueFilePathFuel, hex, Bool.not_true, Bool.false_eq_true, if_false] at hfuel
  obtain ⟨n, a1, -, a3, a4, a5⟩ := (uniqueLoop_some_iff F existing filePath _ _ 1).mp hfuel
  exact ⟨n, a1, a3, a4, a5⟩

/-! ## Downloading one job -/

/-- A call of `downloadFile` rejects exactly on the failing attempts. -/
theorem downloadFile_rejects_iff (F : PathFns) (c : ServerConnection) (files : LocalFiles)
    (job : Job) (a : Attempt) :
    (∃ r, (downloadFile F c files job a).result = .rejected r) ↔ a.fails job = true := by
  cases a with
  | requestFailed reached timeout => simp [downloadFile, Attempt.fails]
  | streamBroken onDisk => simp [downloadFile, Attempt.fails]
  | finished onDisk =>
    by_cases h : onDisk = job.size
    · simp [downloadFile, Attempt.fails, h]
    · simp [downloadFile, Attempt.fails, h]

theorem downloadFile_of_fails (F : PathFns) (c : ServerConnection) (files : LocalFiles)
    (job : Job) (a : Attempt) (h : a.fails job = true) :
    (downloadFile F c files job a).conn = c ∧
    ∃ r, (downloadFile F c files job a).result = .rejected r := by
  refine ⟨?_, (downloadFile_rejects_iff F c files job a).mpr h⟩
  cases a with
  | requestFailed reached timeout => rfl
  | streamBroken onDisk => rfl
  | finished onDisk =>
    have hne : onDisk ≠ job.size := by simpa [Attempt.fails] using h
    simp [downloadFile, hne]

theorem downloadFile_of_succeeds (F : PathFns) (c : ServerConnection) (files : LocalFiles)
    (job : Job) (a : Attempt) (h : a.fails job = false) :
    a = .finished job.size ∧
    (downloadFile F c files job a).result = .resolvedTrue ∧
    (downloadFile F c files job a).conn =
      { c with stats := { c.stats with
          totalDownloaded := c.stats.totalDownloaded + job.size } } ∧
    (downloadFile F c files job a).files =
      writeFile files (downloadTarget F c files job) job.size := by
  cases a with
  | requestFailed reached timeout => simp [Attempt.fails] at h
  | streamBroken onDisk => simp [Attempt.fails] at h
  | finished onDisk =>
    have he : onDisk = job.size := by simpa [Attempt.fails] using h
    subst he
    simp [downloadFile]

/-- A round of the retry loop whose attempt fails: one download request, the
backoff sleep unless this was the last round, then the rest of the loop with
the retry count one higher. -/
theorem processLoop_fail_step (F : PathFns) (job : Job) (script : JobScript) (k r : Nat)
    (c : ServerConnection) (files : LocalFiles)
    (h : (script.attempts r).fails job = true) :
    processLoop F job script (k + 1) r c files =
      { processLoop F job script k (r + 1) c
          (downloadFile F c files job (script.attempts r)).files with
        events := .download job.id (script.attempts r).reached ::
          ((if r + 1 < c.maxRetries then [Event.sleep (2000 * (r + 1))] else []) ++
            (processLoop F job script k (r + 1) c
              (downloadFile F c files job (script.attempts r)).files).events) } := by
  obtain ⟨hc, rr, hr⟩ := downloadFile_of_fails F c files job (script.attempts r) h
  rw [processLoop]
  simp only [hr, hc]

/-- A round of the retry loop whose attempt succeeds: one download request,
one completion report, and the loop is left. -/
theorem processLoop_success_step (F : PathFns) (job : Job) (script : JobScript) (k r : Nat)
    (c : ServerConnection) (files : LocalFiles)
    (h : (script.attempts r).fails job = false) :
    processLoop F job script (k + 1) r c files =
      { conn := { c with stats := { c.stats with
                    totalDownloaded := c.stats.totalDownloaded + job.size
                    filesDownloaded := c.stats.filesDownloaded + 1 } }
        files := writeFile files (downloadTarget F c files job) job.size
        events := [.download job.id (script.attempts r).reached,
          .report job.id script.report] } := by
  obtain ⟨-, hres, hconn, hfiles⟩ := downloadFile_of_succeeds F c files job _ h
  rw [processLoop]
  simp only [hres, hconn, hfiles]

theorem sleepsOf_cons_download (jobId : String) (b : Bool) (es : List Event) :
    sleepsOf (.download jobId b :: es) = sleepsOf es := by
  simp [sleepsOf]

theorem sleepsOf_cons_sleep (ms : Nat) (es : List Event) :
    sleepsOf (.sleep ms :: es) = ms :: sleepsOf es := by
  simp [sleepsOf]

/-- The retry loop when every remaining attempt fails. -/
theorem processLoop_all_fail (F : PathFns) (job : Job) (script : JobScript) (k : Nat) :
    ∀ (r : Nat) (c : ServerConnection) (files : LocalFiles),
      r + k = c.maxRetries →
      (∀ i, r ≤ i → i < r + k → (script.attempts i).fails job = true) →
      (processLoop F job script k r c files).conn =
        { c with stats := { c.stats with errors := c.stats.errors + 1 } } ∧
      sleepsOf (processLoop F job script k r c files).events =
        (List.range (k - 1)).map (fun j => 2000 * (r + 1 + j)) ∧
      downloadCount (processLoop F job script k r c files).events = k ∧
      reportCount (processLoop F job script k r c files).events = 0 ∧
      (∀ e ∈ (processLoop F job script k r c files).events,
        (∃ b, e = Event.download job.id b) ∨ ∃ ms, e = Event.sleep ms) ∧
      (0 < k → (processLoop F job script k r c files).events.getLast? =
        some (.download job.id (script.attempts (r + k - 1)).reached)) := by
  induction k with
  | zero =>
    intro r c files _ _
    simp [processLoop, sleepsOf, downloadCount, reportCount]
  | succ k ih =>
    intro r c files hk hall
    have hfail := hall r (le_refl r) (by omega)
    obtain ⟨h1, h2, h3, h4, h5, h6⟩ := ih (r + 1) c
      (downloadFile F c files job (script.attempts r)).files (by omega)
      (fun i hi1 hi2 => hall i (by omega) (by omega))
    rw [processLoop_fail_step F job script k r c files hfail]
    refine ⟨h1, ?_, ?_, ?_, ?_, ?_⟩
    · simp only [sleepsOf_cons_download]
      by_cases hlt : r + 1 < c.maxRetries
      · simp only [hlt, if_true, List.singleton_append, sleepsOf_cons_sleep, h2]
        have hk1 : k - 1 + 1 = k := by omega
        have : k + 1 - 1 = (k - 1) + 1 := by omega
        rw [this, List.range_succ_eq_map]
        simp only [List.map_cons, List.map_map, Nat.add_zero]
        congr 1
        apply List.map_congr_left
        intro j _
        simp only [Function.comp]
        omega
      · have hk0 : k = 0 := by omega
        subst hk0
        simp [hlt, sleepsOf, processLoop]
    · by_cases hlt : r + 1 < c.maxRetries
      · simp only [downloadCount] at h3 ⊢
        simp [hlt, h3]
      · simp only [downloadCount] at h3 ⊢
        simp [hlt, h3]
    · by_cases hlt : r + 1 < c.maxRetries
      · simp only [reportCount] at h4 ⊢
        simp [hlt, h4]
      · simp only [reportCount] at h4 ⊢
        simp [hlt, h4]
    · intro e he
      simp only [List.mem_cons, List.mem_append] at he
      rcases he with rfl | he | he
      · exact Or.inl ⟨_, rfl⟩
      · by_cases hlt : r + 1 < c.maxRetries
        · simp only [hlt, if_true, List.mem_singleton] at he
          exact Or.inr ⟨_, he⟩
        · simp [hlt] at he
      · exact h5 e he
    · intro _
      by_cases hk0 : k = 0
      · subst hk0
        have hnl : ¬ r + 1 < c.maxRetries := by omega
        simp [hnl, processLoop]
      · have hlast := h6 (by omega)
        have hidx : r + 1 + k - 1 = r + (k + 1) - 1 := by omega
        rw [hidx] at hlast
        simp only
        rw [List.getLast?_cons, List.getLast?_append, hlast]
        rfl

/-- The retry loop makes at most as many download requests as it has rounds. -/
theorem processLoop_download_le (F : PathFns) (job : Job) (script : JobScript) (k : Nat) :
    ∀ (r : Nat) (c : ServerConnection) (files : LocalFiles),
      downloadCount (processLoop F job script k r c files).events ≤ k := by
  induction k with
  | zero => intro r c files; simp [processLoop, downloadCount]
  | succ k ih =>
    intro r c files
    cases hf : (script.attempts r).fails job with
    | true =>
      rw [processLoop_fail_step F job script k r c files hf]
      have h := ih (r + 1) c (downloadFile F c files job (script.attempts r)).files
      simp only [downloadCount] at h ⊢
      by_cases hlt : r + 1 < c.maxRetries
      · simp [hlt]
        omega
      · simp [hlt]
        omega
    | false =>
      rw [processLoop_success_step F job script k r c files hf]
      simp [downloadCount]

/-- The retry loop when attempt `i` is the first that succeeds. -/
theorem processLoop_first_success (F : PathFns) (job : Job) (script : JobScript) (k : Nat) :
    ∀ (r : Nat) (c : ServerConnection) (files : LocalFiles) (i : Nat),
      r ≤ i → i < r + k →
      (script.attempts i).fails job = false →
      (∀ j, r ≤ j → j < i → (script.attempts j).fails job = true) →
      (processLoop F job script k r c files).conn.stats.filesDownloaded =
        c.stats.filesDownloaded + 1 ∧
      (processLoop F job script k r c files).conn.stats.errors = c.stats.errors ∧
      (processLoop F job script k r c files).conn.stats.totalDownloaded =
        c.stats.totalDownloaded + job.size ∧
      reportCount (processLoop F job script k r c files).events = 1 ∧
      downloadCount (processLoop F job script k r c files).events = i - r + 1 ∧
      (processLoop F job script k r c files).events.getLast? =
        some (.report job.id script.report) := by
  induction k with
  | zero => intro r c files i h1 h2; omega
  | succ k ih =>
    intro r c files i h1 h2 hok hbefore
    by_cases hri : r = i
    · subst hri
      rw [processLoop_success_step F job script k r c files hok]
      simp [reportCount, downloadCount]
    · have hfail := hbefore r (le_refl r) (by omega)
      obtain ⟨a1, a2, a3, a4, a5, a6⟩ := ih (r + 1) c
        (downloadFile F c files job (script.attempts r)).files i (by omega) (by omega) hok
        (fun j hj1 hj2 => hbefore j (by omega) hj2)
      rw [processLoop_fail_step F job script k r c files hfail]
      refine ⟨a1, a2, a3, ?_, ?_, ?_⟩
      · simp only [reportCount] at a4 ⊢
        by_cases hlt : r + 1 < c.maxRetries
        · simp [hlt, a4]
        · simp [hlt, a4]
      · simp only [downloadCount] at a5 ⊢
        by_cases hlt : r + 1 < c.maxRetries
        · simp [hlt, a5]
          omega
        · simp [hlt, a5]
          omega
      · simp only
        rw [List.getLast?_cons, List.getLast?_append, a6]
        rfl

/-- A completion report is sent only after an attempt that left a file of
exactly the job's size. -/
theorem processLoop_report_cause (F : PathFns) (job : Job) (script : JobScript) (k : Nat) :
    ∀ (r : Nat) (c : ServerConnection) (files : LocalFiles),
      reportCount (processLoop F job script k r c files).events ≠ 0 →
      ∃ i, r ≤ i ∧ i < r + k ∧ script.attempts i = .finished job.size := by
  induction k with
  | zero => intro r c files h; simp [processLoop, reportCount] at h
  | succ k ih =>
    intro r c files h
    cases hf : (script.attempts r).fails job with
    | false =>
      exact ⟨r, le_refl r, by omega, (downloadFile_of_succeeds F c files job _ hf).1⟩
    | true =>
      rw [processLoop_fail_step F job script k r c files hf] at h
      have h2 : reportCount (processLoop F job script k (r + 1) c
          (downloadFile F c files job (script.attempts r)).files).events ≠ 0 := by
        intro h0
        apply h
        simp only [reportCount] at h0 ⊢
        by_cases hlt : r + 1 < c.maxRetries
        · simpa [hlt] using h0
        · simpa [hlt] using h0
      obtain ⟨i, i1, i2, i3⟩ := ih (r + 1) c _ h2
      exact ⟨i, by omega, by omega, i3⟩

/-! ## What the producer sees of a client run -/

theorem streamDownload_completed (srv : Server) (env : Env) (s : Store) (jobId : String) :
    (streamDownload srv env s jobId).1.completed = s.completed := by
  unfold streamDownload
  simp only
  split
  · rfl
  · split <;> rfl

theorem streamDownload_first_present (srv : Server) (env : Env) (s : Store) (jobId : String)
    (job : Job) (l1 l2 : List Job) (hq : s.queue = l1 ++ job :: l2)
    (hid : job.id = jobId) (hfirst : ∀ x ∈ l1, x.id ≠ jobId)
    (hex : existsSync s.files (env.pathJoin env.uploadPath job.fileName) = true) :
    streamDownload srv env s jobId =
      (s, Reply.download (env.pathJoin env.uploadPath job.fileName) job.originalName) := by
  have hfind : s.queue.find? (fun j => decide (j.id = jobId)) = some job := by
    rw [hq]
    exact find_first hid hfirst
  unfold streamDownload
  simp only [findLoop_find, hfind, hex]
  rfl

/-- Download requests alone never touch the completed list, and leave the
whole store alone when the first pending job with the id has its file. -/
theorem run_downloads (srv : Server) (env : Env) (jobId : String) (ops : List Op)
    (hops : ∀ op ∈ ops, op = Op.download jobId) :
    ∀ s : Store, (run srv env s ops).completed = s.completed ∧
      ∀ (job : Job) (l1 l2 : List Job), s.queue = l1 ++ job :: l2 → job.id = jobId →
        (∀ x ∈ l1, x.id ≠ jobId) →
        existsSync s.files (env.pathJoin env.uploadPath job.fileName) = true →
        run srv env s ops = s := by
  induction ops with
  | nil => intro s; exact ⟨rfl, fun _ _ _ _ _ _ _ => rfl⟩
  | cons op ops ih =>
    intro s
    have hop := hops op (List.mem_cons_self _ _)
    have hrest : ∀ o ∈ ops, o = Op.download jobId :=
      fun o ho => hops o (List.mem_cons_of_mem _ ho)
    subst hop
    have hrun : run srv env s (Op.download jobId :: ops) =
        run srv env (streamDownload srv env s jobId).1 ops := rfl
    rw [hrun]
    refine ⟨?_, ?_⟩
    · rw [(ih hrest _).1, streamDownload_completed]
    · intro job l1 l2 hq hid hfirst hex
      have hsame := streamDownload_first_present srv env s jobId job l1 l2 hq hid hfirst hex
      rw [hsame]
      exact (ih hrest s).2 job l1 l2 hq hid hfirst hex

/-! ## The transfer executor -/

theorem simpleFns_distinct (filePath : String) : NumberedDistinct simpleFns filePath := by
  intro m n h
  have h1 := congrArg String.data h
  simp only [numberedPath, simpleFns, String.data_append, List.append_assoc] at h1
  have h2 := List.append_cancel_left (List.append_cancel_left (List.append_cancel_left
    (List.append_cancel_left h1)))
  have h3 : (toString m).data = (toString n).data := List.append_cancel_right h2
  exact toString_nat_injective (String.ext h3)

/-- C13: with `maxRetries = n ≥ 1` and every attempt failing, `processJob`
sleeps `n - 1` times, the sleeps lasting 2000, 4000, ..., `2000 * (n - 1)` ms
in this order; its last act is the last download request, with no sleep after
it; for `n = 3` the sleeps are 2000 and 4000 ms. -/
theorem backoff_is_linear (F : PathFns) (c : ServerConnection) (files : LocalFiles)
    (job : Job) (script : JobScript) (hn : 1 ≤ c.maxRetries)
    (hfail : ∀ i, i < c.maxRetries → (script.attempts i).fails job = true) :
    sleepsOf (processJob F c files job script).events =
      (List.range (c.maxRetries - 1)).map (fun j => 2000 * (j + 1)) ∧
    (sleepsOf (processJob F c files job script).events).length = c.maxRetries - 1 ∧
    (processJob F c files job script).events.getLast? =
      some (.download job.id (script.attempts (c.maxRetries - 1)).reached) ∧
    (c.maxRetries = 3 → sleepsOf (processJob F c files job script).events = [2000, 4000]) := by
  obtain ⟨-, h2, -, -, -, h6⟩ := processLoop_all_fail F job script c.maxRetries 0 c files
    (by omega) (fun i _ hi => hfail i (by omega))
  have hs : sleepsOf (processJob F c files job script).events =
      (List.range (c.maxRetries - 1)).map (fun j => 2000 * (j + 1)) := by
    unfold processJob
    rw [h2]
    apply List.map_congr_left
    intro j _
    omega
  refine ⟨hs, ?_, ?_, ?_⟩
  · rw [hs]
    simp
  · have := h6 (by omega)
    simpa [processJob] using this
  · intro h3
    rw [hs, h3]
    rfl

theorem backoff_is_linear_witness :
    1 ≤ sampleConn.maxRetries ∧
    (∀ i, i < sampleConn.maxRetries → (failScript.attempts i).fails jobA = true) ∧
    (sleepsOf (processJob simpleFns sampleConn [] jobA failScript).events =
      (List.range (sampleConn.maxRetries - 1)).map (fun j => 2000 * (j + 1)) ∧
    (sleepsOf (processJob simpleFns sampleConn [] jobA failScript).events).length =
      sampleConn.maxRetries - 1 ∧
    (processJob simpleFns sampleConn [] jobA failScript).events.getLast? =
      some (.download jobA.id (failScript.attempts (sampleConn.maxRetries - 1)).reached) ∧
    (sampleConn.maxRetries = 3 →
      sleepsOf (processJob simpleFns sampleConn [] jobA failScript).events = [2000, 4000])) :=
  ⟨by decide, by decide,
    backoff_is_linear simpleFns sampleConn [] jobA failScript (by decide) (by decide)⟩

theorem producerOps_of_downloads (now : String) (unlinkOk : Bool) (jobId : String)
    (events : List Event)
    (h : ∀ e ∈ events, (∃ b, e = Event.download jobId b) ∨ ∃ ms, e = Event.sleep ms) :
    ∀ op ∈ producerOps now unlinkOk events, op = Op.download jobId := by
  intro op hop
  obtain ⟨e, he, hto⟩ := List.mem_filterMap.mp hop
  rcases h e he with ⟨b, rfl⟩ | ⟨ms, rfl⟩
  · cases b with
    | true =>
      simp only [Event.toOp, Option.some.injEq] at hto
      exact hto.symm
    | false => simp [Event.toOp] at hto
  · simp [Event.toOp] at hto

/-- C14, as the claim states it, fails: all three attempts fail and no
completion is reported, yet the job does not stay pending. Its file is missing
on the producer, whose download handler answers 404 and evicts the job; the
next listing is without it. -/
theorem abandoned_job_can_leave_queue :
    (∀ i, i < sampleConn.maxRetries → (failScript.attempts i).fails jobA = true) ∧
    reportCount (processJob simpleFns sampleConn [] jobA failScript).events = 0 ∧
    jobA ∈ staleStore.queue ∧
    (streamDownload Server.main sampleEnv staleStore jobA.id).2.status = 404 ∧
    jobA ∉ (run Server.main sampleEnv staleStore
      (producerOps "t9" true
        (processJob simpleFns sampleConn [] jobA failScript).events)).queue ∧
    (listPending Server.main
      (run Server.main sampleEnv staleStore
        (producerOps "t9" true (processJob simpleFns sampleConn [] jobA failScript).events))
      5).2 = Reply.jobs [jobB] 1 (some 1) := by
  decide

/-- C14, amended: with `maxRetries = n`, `processJob` makes at most `n`
download requests. When all `n` attempts fail it makes exactly `n`, sends no
completion report, adds 1 to the error counter and leaves `filesDownloaded`
alone. On the producer the requests of such a run never touch the completed
list; and when the first pending job with that id has its file, they leave the
whole store as it was, so the next listing is what it was before. -/
theorem abandon_after_retries (F : PathFns) (c : ServerConnection) (files : LocalFiles)
    (job : Job) (script : JobScript) :
    downloadCount (processJob F c files job script).events ≤ c.maxRetries ∧
    ((∀ i, i < c.maxRetries → (script.attempts i).fails job = true) →
      downloadCount (processJob F c files job script).events = c.maxRetries ∧
      reportCount (processJob F c files job script).events = 0 ∧
      (processJob F c files job script).conn.stats.errors = c.stats.errors + 1 ∧
      (processJob F c files job script).conn.stats.filesDownloaded =
        c.stats.filesDownloaded ∧
      ∀ (srv : Server) (env : Env) (store : Store) (now : String) (unlinkOk : Bool),
        (run srv env store
          (producerOps now unlinkOk (processJob F c files job script).events)).completed =
            store.completed ∧
        ∀ (j : Job) (l1 l2 : List Job), store.queue = l1 ++ j :: l2 → j.id = job.id →
          (∀ x ∈ l1, x.id ≠ job.id) →
          existsSync store.files (env.pathJoin env.uploadPath j.fileName) = true →
          run srv env store
            (producerOps now unlinkOk (processJob F c files job script).events) = store ∧
          listPending srv (run srv env store
            (producerOps now unlinkOk (processJob F c files job script).events)) 5 =
              listPending srv store 5) := by
  refine ⟨processLoop_download_le F job script c.maxRetries 0 c files, ?_⟩
  intro hfail
  obtain ⟨h1, -, h3, h4, h5, -⟩ := processLoop_all_fail F job script c.maxRetries 0 c files
    (by omega) (fun i _ hi => hfail i (by omega))
  refine ⟨h3, h4, ?_, ?_, ?_⟩
  · unfold processJob
    rw [h1]
  · unfold processJob
    rw [h1]
  · intro srv env store now unlinkOk
    have hops := producerOps_of_downloads now unlinkOk job.id _ h5
    have hrun := run_downloads srv env job.id _ hops store
    refine ⟨hrun.1, ?_⟩
    intro j l1 l2 hq hid hfirst hex
    have hsame := hrun.2 j l1 l2 hq hid hfirst hex
    unfold processJob
    rw [hsame]
    exact ⟨rfl, rfl⟩

theorem abandon_after_retries_witness :
    1 ≤ sampleConn.maxRetries ∧
    (∀ i, i < sampleConn.maxRetries → (failScript.attempts i).fails jobA = true) ∧
    (downloadCount (processJob simpleFns sampleConn [] jobA failScript).events ≤
      sampleConn.maxRetries ∧
    ((∀ i, i < sampleConn.maxRetries → (failScript.attempts i).fails jobA = true) →
      downloadCount (processJob simpleFns sampleConn [] jobA failScript).events =
        sampleConn.maxRetries ∧
      reportCount (processJob simpleFns sampleConn [] jobA failScript).events = 0 ∧
      (processJob simpleFns sampleConn [] jobA failScript).conn.stats.errors =
        sampleConn.stats.errors + 1 ∧
      (processJob simpleFns sampleConn [] jobA failScript).conn.stats.filesDownloaded =
        sampleConn.stats.filesDownloaded ∧
      ∀ (srv : Server) (env : Env) (store : Store) (now : String) (unlinkOk : Bool),
        (run srv env store
          (producerOps now unlinkOk
            (processJob simpleFns sampleConn [] jobA failScript).events)).completed =
            store.completed ∧
        ∀ (j : Job) (l1 l2 : List Job), store.queue = l1 ++ j :: l2 → j.id = jobA.id →
          (∀ x ∈ l1, x.id ≠ jobA.id) →
          existsSync store.files (env.pathJoin env.uploadPath j.fileName) = true →
          run srv env store
            (producerOps now unlinkOk
              (processJob simpleFns sampleConn [] jobA failScript).events) = store ∧
          listPending srv (run srv env store
            (producerOps now unlinkOk
              (processJob simpleFns sampleConn [] jobA failScript).events)) 5 =
              listPending srv store 5)) :=
  ⟨by decide, by decide, abandon_after_retries simpleFns sampleConn [] jobA failScript⟩

theorem localPaths_writeFile (files : LocalFiles) (p : String) (size : Nat) :
    ∀ q, q ∈ localPaths (writeFile files p size) ↔ q = p ∨ q ∈ localPaths files := by
  intro q
  simp only [localPaths, writeFile, List.map_cons, List.mem_cons, List.mem_map,
    List.mem_filter, decide_eq_true_eq]
  constructor
  · rintro (h | ⟨e, ⟨he, -⟩, rfl⟩)
    · exact Or.inl h
    · exact Or.inr ⟨e, he, rfl⟩
  · rintro (h | ⟨e, he, rfl⟩)
    · exact Or.inl h
    · by_cases hp : e.1 = p
      · exact Or.inl hp
      · exact Or.inr ⟨e, ⟨he, hp⟩, rfl⟩

theorem mem_writeFile_of_mem (files : LocalFiles) (p : String) (size : Nat)
    (hp : p ∉ localPaths files) : ∀ e ∈ files, e ∈ writeFile files p size := by
  intro e he
  have hne : e.1 ≠ p := fun h => hp (h ▸ List.mem_map_of_mem Prod.fst he)
  simp [writeFile, he, hne]

theorem unlinkLocal_writeFile (files : LocalFiles) (p : String) (size : Nat)
    (hp : p ∉ localPaths files) : unlinkLocal (writeFile files p size) p = files := by
  simp only [unlinkLocal, writeFile, List.filter_cons, ne_eq, not_true_eq_false,
    decide_False, Bool.false_eq_true, if_false, List.filter_filter, Bool.and_self]
  apply List.filter_eq_self.mpr
  intro e he
  have hne : e.1 ≠ p := fun h => hp (h ▸ List.mem_map_of_mem Prod.fst he)
  simp [hne]

theorem getUniqueFilePath_free (F : PathFns) (existing : List String) (filePath : String)
    (hinj : NumberedDistinct F filePath) :
    getUniqueFilePath F existing filePath ∉ existing := by
  by_cases h : filePath ∈ existing
  · obtain ⟨n, -, h2, h3, -⟩ := getUniqueFilePath_of_present F existing filePath hinj h
    rw [h2]
    exact h3
  · rw [getUniqueFilePath_of_absent F existing filePath h]
    exact h

/-- C15: for every target path and every list of existing paths the loop of
`getUniqueFilePath` stops within one round more than there are existing paths
(any larger bound gives the same result), the path returned does not exist,
and it is the target itself exactly when the target does not exist. So
`downloadFile`, which writes to that path, keeps every file that was there. -/
theorem unique_path_is_free (F : PathFns) (existing : List String) (filePath : String)
    (hinj : NumberedDistinct F filePath) :
    (∀ fuel, existing.length + 1 ≤ fuel →
      getUniqueFilePathFuel F existing filePath fuel =
        some (getUniqueFilePath F existing filePath)) ∧
    getUniqueFilePath F existing filePath ∉ existing ∧
    (getUniqueFilePath F existing filePath = filePath ↔ filePath ∉ existing) ∧
    ∀ (c : ServerConnection) (files : LocalFiles) (job : Job) (a : Attempt),
      filePath = F.join c.serverDownloadPath job.originalName →
      existing = localPaths files →
      downloadTarget F c files job ∉ localPaths files ∧
      ∀ e ∈ files, e ∈ (downloadFile F c files job a).files := by
  have hfree := getUniqueFilePath_free F existing filePath hinj
  refine ⟨fun fuel hfuel => getUniqueFilePathFuel_enough F existing filePath hinj fuel hfuel,
    hfree, ?_, ?_⟩
  · constructor
    · intro heq hmem
      rw [heq] at hfree
      exact hfree hmem
    · exact getUniqueFilePath_of_absent F existing filePath
  · intro c files job a hp hex
    subst hp hex
    have htarget : downloadTarget F c files job ∉ localPaths files := hfree
    refine ⟨htarget, ?_⟩
    intro e he
    cases a with
    | requestFailed reached timeout => exact he
    | streamBroken onDisk =>
      cases onDisk with
      | none => exact he
      | some n => exact mem_writeFile_of_mem files _ n htarget e he
    | finished onDisk =>
      by_cases hsz : onDisk = job.size
      · simp only [downloadFile, hsz, ne_eq, not_true_eq_false, if_false]
        exact mem_writeFile_of_mem files _ _ htarget e he
      · simp only [downloadFile, hsz, ne_eq, not_false_eq_true, if_true]
        rw [unlinkLocal_writeFile files _ onDisk htarget]
        exact he

theorem unique_path_is_free_witness :
    NumberedDistinct simpleFns "downloads/a.txt" ∧
    ((∀ fuel, ["downloads/a.txt", "downloads/a (1).txt"].length + 1 ≤ fuel →
      getUniqueFilePathFuel simpleFns ["downloads/a.txt", "downloads/a (1).txt"]
        "downloads/a.txt" fuel =
        some (getUniqueFilePath simpleFns ["downloads/a.txt", "downloads/a (1).txt"]
          "downloads/a.txt")) ∧
    getUniqueFilePath simpleFns ["downloads/a.txt", "downloads/a (1).txt"]
      "downloads/a.txt" ∉ ["downloads/a.txt", "downloads/a (1).txt"] ∧
    (getUniqueFilePath simpleFns ["downloads/a.txt", "downloads/a (1).txt"]
      "downloads/a.txt" = "downloads/a.txt" ↔
        "downloads/a.txt" ∉ ["downloads/a.txt", "downloads/a (1).txt"]) ∧
    ∀ (c : ServerConnection) (files : LocalFiles) (job : Job) (a : Attempt),
      "downloads/a.txt" = simpleFns.join c.serverDownloadPath job.originalName →
      ["downloads/a.txt", "downloads/a (1).txt"] = localPaths files →
      downloadTarget simpleFns c files job ∉ localPaths files ∧
      ∀ e ∈ files, e ∈ (downloadFile simpleFns c files job a).files) :=
  ⟨simpleFns_distinct "downloads/a.txt",
    unique_path_is_free simpleFns ["downloads/a.txt", "downloads/a (1).txt"]
      "downloads/a.txt" (simpleFns_distinct "downloads/a.txt")⟩

theorem numberedPath_eq (F : PathFns) (filePath : String) (n : Nat) :
    numberedPath F filePath n =
      F.join (F.dirname filePath)
        (F.basename filePath (F.extname filePath) ++ " (" ++ toString n ++ ")" ++
          F.extname filePath) := rfl

/-- C16: when the target exists, `getUniqueFilePath` returns the path in the
target's directory named base name, ` (n)`, extension, for the least `n ≥ 1`
whose path does not exist. So two jobs with one original name, both downloaded
with success into an empty directory, leave two files: the first under the
original name, the second under the name numbered 1. -/
theorem dedup_numbering (F : PathFns) (filePath : String)
    (hinj : NumberedDistinct F filePath) :
    (∀ existing : List String, filePath ∈ existing →
      ∃ n, 1 ≤ n ∧
        getUniqueFilePath F existing filePath =
          F.join (F.dirname filePath)
            (F.basename filePath (F.extname filePath) ++ " (" ++ toString n ++ ")" ++
              F.extname filePath) ∧
        getUniqueFilePath F existing filePath ∉ existing ∧
        ∀ m, 1 ≤ m → m < n →
          F.join (F.dirname filePath)
            (F.basename filePath (F.extname filePath) ++ " (" ++ toString m ++ ")" ++
              F.extname filePath) ∈ existing) ∧
    (∀ (c : ServerConnection) (j1 j2 : Job) (a1 a2 : Attempt),
      filePath = F.join c.serverDownloadPath j1.originalName →
      j2.originalName = j1.originalName →
      a1.fails j1 = false → a2.fails j2 = false →
      NumberedFresh F filePath →
      (downloadFile F c [] j1 a1).result = .resolvedTrue ∧
      (downloadFile F c [] j1 a1).files = [(filePath, j1.size)] ∧
      (downloadFile F (downloadFile F c [] j1 a1).conn
        (downloadFile F c [] j1 a1).files j2 a2).result = .resolvedTrue ∧
      (downloadFile F (downloadFile F c [] j1 a1).conn
        (downloadFile F c [] j1 a1).files j2 a2).files =
          [(numberedPath F filePath 1, j2.size), (filePath, j1.size)] ∧
      numberedPath F filePath 1 ≠ filePath) := by
  constructor
  · intro existing hmem
    obtain ⟨n, h1, h2, h3, h4⟩ := getUniqueFilePath_of_present F existing filePath hinj hmem
    exact ⟨n, h1, h2, h2 ▸ h3, h4⟩
  · intro c j1 j2 a1 a2 hp hname hok1 hok2 hfresh
    obtain ⟨-, r1, c1, f1⟩ := downloadFile_of_succeeds F c [] j1 a1 hok1
    have ht1 : downloadTarget F c [] j1 = filePath := by
      unfold downloadTarget
      rw [← hp]
      exact getUniqueFilePath_of_absent F _ filePath (by simp [localPaths])
    have hfiles1 : (downloadFile F c [] j1 a1).files = [(filePath, j1.size)] := by
      rw [f1, ht1]
      rfl
    obtain ⟨-, r2, -, f2⟩ := downloadFile_of_succeeds F (downloadFile F c [] j1 a1).conn
      (downloadFile F c [] j1 a1).files j2 a2 hok2
    have hne : numberedPath F filePath 1 ≠ filePath := hfresh 1
    have ht2 : downloadTarget F (downloadFile F c [] j1 a1).conn
        (downloadFile F c [] j1 a1).files j2 = numberedPath F filePath 1 := by
      unfold downloadTarget
      rw [c1, hfiles1, hname, ← hp]
      obtain ⟨n, n1, n2, n3, n4⟩ := getUniqueFilePath_of_present F
        (localPaths [(filePath, j1.size)]) filePath hinj (by simp [localPaths])
      have hn : n = 1 := by
        by_contra hne1
        have hm := n4 1 (le_refl 1) (by omega)
        simp only [localPaths, List.map_cons, List.map_nil, List.mem_singleton] at hm
        exact hfresh 1 hm
      rw [n2, hn]
    refine ⟨r1, hfiles1, r2, ?_, hne⟩
    rw [f2, ht2, hfiles1]
    simp [writeFile, hne.symm]

theorem dedup_numbering_witness :
    NumberedDistinct simpleFns "downloads/a.txt" ∧
    ((∀ existing : List String, "downloads/a.txt" ∈ existing →
      ∃ n, 1 ≤ n ∧
        getUniqueFilePath simpleFns existing "downloads/a.txt" =
          simpleFns.join (simpleFns.dirname "downloads/a.txt")
            (simpleFns.basename "downloads/a.txt" (simpleFns.extname "downloads/a.txt") ++
              " (" ++ toString n ++ ")" ++ simpleFns.extname "downloads/a.txt") ∧
        getUniqueFilePath simpleFns existing "downloads/a.txt" ∉ existing ∧
        ∀ m, 1 ≤ m → m < n →
          simpleFns.join (simpleFns.dirname "downloads/a.txt")
            (simpleFns.basename "downloads/a.txt" (simpleFns.extname "downloads/a.txt") ++
              " (" ++ toString m ++ ")" ++ simpleFns.extname "downloads/a.txt") ∈ existing) ∧
    (∀ (c : ServerConnection) (j1 j2 : Job) (a1 a2 : Attempt),
      "downloads/a.txt" = simpleFns.join c.serverDownloadPath j1.originalName →
      j2.originalName = j1.originalName →
      a1.fails j1 = false → a2.fails j2 = false →
      NumberedFresh simpleFns "downloads/a.txt" →
      (downloadFile simpleFns c [] j1 a1).result = .resolvedTrue ∧
      (downloadFile simpleFns c [] j1 a1).files = [("downloads/a.txt", j1.size)] ∧
      (downloadFile simpleFns (downloadFile simpleFns c [] j1 a1).conn
        (downloadFile simpleFns c [] j1 a1).files j2 a2).result = .resolvedTrue ∧
      (downloadFile simpleFns (downloadFile simpleFns c [] j1 a1).conn
        (downloadFile simpleFns c [] j1 a1).files j2 a2).files =
          [(numberedPath simpleFns "downloads/a.txt" 1, j2.size),
            ("downloads/a.txt", j1.size)] ∧
      numberedPath simpleFns "downloads/a.txt" 1 ≠ "downloads/a.txt")) :=
  ⟨simpleFns_distinct "downloads/a.txt",
    dedup_numbering simpleFns "downloads/a.txt" (simpleFns_distinct "downloads/a.txt")⟩

theorem simpleFns_fresh_sample : NumberedFresh simpleFns "downloads/a.txt" := by
  intro n h
  have hd : simpleFns.dirname "downloads/a.txt" = "downloads" := by decide
  have he : simpleFns.extname "downloads/a.txt" = ".txt" := by decide
  have hb : simpleFns.basename "downloads/a.txt" ".txt" = "a" := by decide
  rw [numberedPath_eq, he, hb, hd] at h
  have h1 := congrArg String.data h
  simp [simpleFns, String.data_append] at h1

/-- The two downloads of C16 on sample data: `a.txt` arrives twice, from two
jobs, and is stored as `a.txt` and `a (1).txt`. -/
theorem dedup_two_downloads_example :
    (downloadFile simpleFns
      (downloadFile simpleFns sampleConn [] jobA (.finished 10)).conn
      (downloadFile simpleFns sampleConn [] jobA (.finished 10)).files
      jobA3 (.finished 20)).files =
      [("downloads/a (1).txt", 20), ("downloads/a.txt", 10)] := by
  decide

theorem not_mem_localPaths_unlinkLocal (files : LocalFiles) (p : String) :
    p ∉ localPaths (unlinkLocal files p) := by
  simp [localPaths, unlinkLocal]

theorem mem_writeFile_size (files : LocalFiles) (p : String) (size sz : Nat)
    (h : (p, sz) ∈ writeFile files p size) : sz = size := by
  simp only [writeFile, List.mem_cons, Prod.mk.injEq, true_and, List.mem_filter, ne_eq,
    not_true_eq_false, decide_False, Bool.false_eq_true, and_false, or_false] at h
  exact h

/-- C17: `downloadFile` resolves only on a finished stream whose file on disk
has exactly `job.size` bytes, and that file is then what the target path
holds. On any other size the file is removed again and the call rejects with a
size mismatch, the counters untouched; `processJob` takes a rejected call as a
failed attempt, going on with the retry count one higher; and it reports a job
only after an attempt that left exactly `job.size` bytes. -/
theorem download_checks_size (F : PathFns) (c : ServerConnection) (files : LocalFiles)
    (job : Job) :
    (∀ a : Attempt, (downloadFile F c files job a).result = .resolvedTrue →
      a = .finished job.size ∧
      (downloadTarget F c files job, job.size) ∈ (downloadFile F c files job a).files ∧
      ∀ sz, (downloadTarget F c files job, sz) ∈ (downloadFile F c files job a).files →
        sz = job.size) ∧
    (∀ onDisk : Nat, onDisk ≠ job.size →
      (downloadFile F c files job (.finished onDisk)).result =
        .rejected (.sizeMismatch job.size onDisk) ∧
      downloadTarget F c files job ∉
        localPaths (downloadFile F c files job (.finished onDisk)).files ∧
      (downloadFile F c files job (.finished onDisk)).conn = c) ∧
    (∀ (script : JobScript) (k r : Nat),
      (∃ reason, (downloadFile F c files job (script.attempts r)).result =
        .rejected reason) →
      (processLoop F job script (k + 1) r c files).conn =
        (processLoop F job script k (r + 1) c
          (downloadFile F c files job (script.attempts r)).files).conn ∧
      (processLoop F job script (k + 1) r c files).files =
        (processLoop F job script k (r + 1) c
          (downloadFile F c files job (script.attempts r)).files).files) ∧
    (∀ script : JobScript, reportCount (processJob F c files job script).events ≠ 0 →
      ∃ i, i < c.maxRetries ∧ script.attempts i = .finished job.size) := by
  refine ⟨?_, ?_, ?_, ?_⟩
  · intro a hres
    have hnf : a.fails job = false := by
      cases hf : a.fails job with
      | false => rfl
      | true =>
        obtain ⟨r, hr⟩ := (downloadFile_rejects_iff F c files job a).mpr hf
        rw [hr] at hres
        cases hres
    obtain ⟨ha, -, -, hfiles⟩ := downloadFile_of_succeeds F c files job a hnf
    refine ⟨ha, ?_, ?_⟩
    · rw [hfiles]
      simp [writeFile]
    · intro sz hsz
      rw [hfiles] at hsz
      exact mem_writeFile_size files _ _ _ hsz
  · intro onDisk hne
    simp only [downloadFile, hne, ne_eq, not_false_eq_true, if_true, and_true, true_and]
    exact not_mem_localPaths_unlinkLocal _ _
  · intro script k r hrej
    have hf := (downloadFile_rejects_iff F c files job _).mp hrej
    rw [processLoop_fail_step F job script k r c files hf]
    exact ⟨rfl, rfl⟩
  · intro script h
    obtain ⟨i, -, i2, i3⟩ := processLoop_report_cause F job script c.maxRetries 0 c files h
    exact ⟨i, by omega, i3⟩

theorem download_checks_size_witness :
    (downloadFile simpleFns sampleConn [] jobA (.finished 10)).result = .resolvedTrue ∧
    (Attempt.finished 10 = .finished jobA.size ∧
      (downloadTarget simpleFns sampleConn [] jobA, jobA.size) ∈
        (downloadFile simpleFns sampleConn [] jobA (.finished 10)).files ∧
      ∀ sz, (downloadTarget simpleFns sampleConn [] jobA, sz) ∈
          (downloadFile simpleFns sampleConn [] jobA (.finished 10)).files →
        sz = jobA.size) ∧
    (7 ≠ jobA.size) ∧
    ((downloadFile simpleFns sampleConn [] jobA (.finished 7)).result =
        .rejected (.sizeMismatch jobA.size 7) ∧
      downloadTarget simpleFns sampleConn [] jobA ∉
        localPaths (downloadFile simpleFns sampleConn [] jobA (.finished 7)).files ∧
      (downloadFile simpleFns sampleConn [] jobA (.finished 7)).conn = sampleConn) :=
  ⟨by decide,
    (download_checks_size simpleFns sampleConn [] jobA).1 (.finished 10) (by decide),
    by decide,
    (download_checks_size simpleFns sampleConn [] jobA).2.1 7 (by decide)⟩

theorem processLoop_report_irrelevant (F : PathFns) (job : Job) (script : JobScript)
    (outcome : ReportOutcome) (k : Nat) :
    ∀ (r : Nat) (c : ServerConnection) (files : LocalFiles),
      (processLoop F job { script with report := outcome } k r c files).conn =
        (processLoop F job script k r c files).conn ∧
      (processLoop F job { script with report := outcome } k r c files).files =
        (processLoop F job script k r c files).files := by
  induction k with
  | zero => intro r c files; exact ⟨rfl, rfl⟩
  | succ k ih =>
    intro r c files
    cases hf : (script.attempts r).fails job with
    | true =>
      rw [processLoop_fail_step F job script k r c files hf,
        processLoop_fail_step F job { script with report := outcome } k r c files hf]
      exact ih (r + 1) c _
    | false =>
      rw [processLoop_success_step F job script k r c files hf,
        processLoop_success_step F job { script with report := outcome } k r c files hf]
      exact ⟨rfl, rfl⟩

/-- C18: when some attempt within the retry budget succeeds, `processJob`
stops at the first such attempt: it has made one download request per attempt
up to that one, then sends exactly one completion report, which is its last
act. Whatever becomes of the report, `filesDownloaded` goes up by 1, the error
counter stays, and the state left behind is the same as if the report had got
through. -/
theorem completion_report_best_effort (F : PathFns) (c : ServerConnection)
    (files : LocalFiles) (job : Job) (script : JobScript)
    (h : ∃ i, i < c.maxRetries ∧ (script.attempts i).fails job = false) :
    reportCount (processJob F c files job script).events = 1 ∧
    (processJob F c files job script).events.getLast? =
      some (.report job.id script.report) ∧
    (∃ i, i < c.maxRetries ∧ (script.attempts i).fails job = false ∧
      (∀ j, j < i → (script.attempts j).fails job = true) ∧
      downloadCount (processJob F c files job script).events = i + 1) ∧
    (processJob F c files job script).conn.stats.filesDownloaded =
      c.stats.filesDownloaded + 1 ∧
    (processJob F c files job script).conn.stats.errors = c.stats.errors ∧
    ∀ outcome : ReportOutcome,
      (processJob F c files job { script with report := outcome }).conn =
        (processJob F c files job script).conn ∧
      (processJob F c files job { script with report := outcome }).files =
        (processJob F c files job script).files := by
  classical
  have hex : ∃ i, i < c.maxRetries ∧ (script.attempts i).fails job = false := h
  let i0 := Nat.find hex
  have hi0 : i0 < c.maxRetries ∧ (script.attempts i0).fails job = false := Nat.find_spec hex
  have hmin : ∀ j, j < i0 → (script.attempts j).fails job = true := by
    intro j hj
    have hnot := Nat.find_min hex hj
    cases hf : (script.attempts j).fails job with
    | true => rfl
    | false => exact absurd ⟨by omega, hf⟩ hnot
  obtain ⟨a1, a2, -, a4, a5, a6⟩ := processLoop_first_success F job script c.maxRetries 0 c
    files i0 (Nat.zero_le _) (by omega) hi0.2 (fun j _ hj => hmin j hj)
  refine ⟨a4, a6, ⟨i0, hi0.1, hi0.2, hmin, ?_⟩, a1, a2, ?_⟩
  · simpa [processJob] using a5
  · intro outcome
    exact processLoop_report_irrelevant F job script outcome c.maxRetries 0 c files

theorem completion_report_best_effort_witness :
    (∃ i, i < sampleConn.maxRetries ∧ (retryScript.attempts i).fails jobA = false) ∧
    (reportCount (processJob simpleFns sampleConn [] jobA retryScript).events = 1 ∧
    (processJob simpleFns sampleConn [] jobA retryScript).events.getLast? =
      some (.report jobA.id retryScript.report) ∧
    (∃ i, i < sampleConn.maxRetries ∧ (retryScript.attempts i).fails jobA = false ∧
      (∀ j, j < i → (retryScript.attempts j).fails jobA = true) ∧
      downloadCount (processJob simpleFns sampleConn [] jobA retryScript).events = i + 1) ∧
    (processJob simpleFns sampleConn [] jobA retryScript).conn.stats.filesDownloaded =
      sampleConn.stats.filesDownloaded + 1 ∧
    (processJob simpleFns sampleConn [] jobA retryScript).conn.stats.errors =
      sampleConn.stats.errors ∧
    ∀ outcome : ReportOutcome,
      (processJob simpleFns sampleConn [] jobA { retryScript with report := outcome }).conn =
        (processJob simpleFns sampleConn [] jobA retryScript).conn ∧
      (processJob simpleFns sampleConn [] jobA { retryScript with report := outcome }).files =
        (processJob simpleFns sampleConn [] jobA retryScript).files) :=
  ⟨⟨1, by decide, by decide⟩,
    completion_report_best_effort simpleFns sampleConn [] jobA retryScript
      ⟨1, by decide, by decide⟩⟩

/-! ## The order of a cycle -/

theorem insertSorted_perm {α : Type} (cmp : α → α → Int) (x : α) (ys : List α) :
    (insertSorted cmp x ys).Perm (x :: ys) := by
  induction ys with
  | nil => exact List.Perm.refl _
  | cons y ys ih =>
    unfold insertSorted
    split
    · exact ((List.Perm.cons y ih).trans (List.Perm.swap x y ys))
    · exact List.Perm.refl _

theorem stableSort_perm {α : Type} (cmp : α → α → Int) (l : List α) :
    (stableSort cmp l).Perm l := by
  induction l with
  | nil => exact List.Perm.refl _
  | cons x xs ih =>
    unfold stableSort
    exact (insertSorted_perm cmp x _).trans (List.Perm.cons x ih)

theorem insertSorted_pollsBefore (x : Nat × ServerConnection)
    (ys : List (Nat × ServerConnection)) (hys : ys.Pairwise PollsBefore)
    (hx : ∀ y ∈ ys, x.1 < y.1) :
    (insertSorted comparePriority x ys).Pairwise PollsBefore := by
  induction ys with
  | nil => simp [insertSorted]
  | cons y ys ih =>
    have hy := List.pairwise_cons.mp hys
    unfold insertSorted
    by_cases hc : comparePriority x y > 0
    · simp only [hc, if_true]
      have hyx : y.2.priority > x.2.priority := by
        unfold comparePriority at hc
        omega
      refine List.pairwise_cons.mpr ⟨?_, ih hy.2 (fun z hz => hx z (List.mem_cons_of_mem _ hz))⟩
      intro z hz
      rcases List.mem_cons.mp ((insertSorted_perm comparePriority x ys).mem_iff.mp hz) with
        rfl | hz2
      · exact Or.inl hyx
      · exact hy.1 z hz2
    · simp only [hc, if_false]
      have hxy : x.2.priority ≥ y.2.priority := by
        unfold comparePriority at hc
        omega
      refine List.pairwise_cons.mpr ⟨?_, hys⟩
      intro z hz
      have hxz := hx z hz
      rcases List.mem_cons.mp hz with rfl | hz2
      · rcases lt_or_eq_of_le hxy with h1 | h1
        · exact Or.inl h1
        · exact Or.inr ⟨h1.symm, hxz⟩
      · rcases hy.1 z hz2 with h1 | ⟨h1, -⟩
        · exact Or.inl (lt_of_lt_of_le h1 hxy)
        · rcases lt_or_eq_of_le hxy with h2 | h2
          · exact Or.inl (h1 ▸ h2)
          · exact Or.inr ⟨by rw [← h1, h2], hxz⟩

theorem stableSort_pollsBefore (l : List (Nat × ServerConnection))
    (hl : l.Pairwise (fun a b => a.1 < b.1)) :
    (stableSort comparePriority l).Pairwise PollsBefore := by
  induction l with
  | nil => simp [stableSort]
  | cons x xs ih =>
    have hx := List.pairwise_cons.mp hl
    unfold stableSort
    refine insertSorted_pollsBefore x _ (ih hx.2) ?_
    intro y hy
    exact hx.1 y ((stableSort_perm comparePriority xs).mem_iff.mp hy)

theorem enum_pairwise_fst (servers : List ServerConnection) :
    servers.enum.Pairwise (fun a b => a.1 < b.1) := by
  have h : (servers.enum.map Prod.fst).Pairwise (fun a b => a < b) := by
    rw [List.enum_map_fst]
    exact List.pairwise_lt_range _
  exact List.pairwise_map.mp h

theorem sortedServers_perm (servers : List ServerConnection) :
    (sortedServers servers).Perm (servers.enum.filter (fun p => p.2.enabled)) :=
  stableSort_perm comparePriority _

theorem sortedServers_pollsBefore (servers : List ServerConnection) :
    (sortedServers servers).Pairwise PollsBefore :=
  stableSort_pollsBefore _ ((enum_pairwise_fst servers).filter _)

theorem sortedServers_mem (servers : List ServerConnection) (p : Nat × ServerConnection)
    (h : p ∈ sortedServers servers) :
    servers.get? p.1 = some p.2 ∧ p.2.enabled = true ∧ p.1 < servers.length := by
  have h1 := (sortedServers_perm servers).mem_iff.mp h
  obtain ⟨h2, h3⟩ := List.mem_filter.mp h1
  refine ⟨?_, h3, List.fst_lt_of_mem_enum h2⟩
  rw [List.get?_eq_getElem?]
  exact List.mem_enum_iff_getElem?.mp h2

theorem passLoop_polled_prefix (F : PathFns) (sorted : List (Nat × ServerConnection))
    (running : Nat → Bool) (scripts : Nat → PollScript)
    (rest : List (Nat × ServerConnection)) :
    ∀ (i : Nat) (servers : List ServerConnection) (files : LocalFiles),
      (∀ p ∈ rest, p.1 < servers.length) →
      (passLoop F sorted running scripts rest i servers files).polled <+:
          rest.map Prod.fst ∧
      ((∀ j, running j = true) →
        (passLoop F sorted running scripts rest i servers files).polled =
          rest.map Prod.fst) := by
  induction rest with
  | nil =>
    intro i servers files _
    simp [passLoop]
  | cons p rest ih =>
    intro i servers files hvalid
    obtain ⟨ref, snap⟩ := p
    have href : ref < servers.length := hvalid (ref, snap) (List.mem_cons_self _ _)
    have hget : servers.get? ref = some (servers.get ⟨ref, href⟩) := List.get?_eq_get href
    unfold passLoop
    by_cases hrun : running i = true
    · simp only [hrun, Bool.not_true, Bool.false_eq_true, if_false, hget, List.map_cons]
      have hlen : ∀ q ∈ rest, q.1 < (servers.set ref
          (pollForFiles F (servers.get ⟨ref, href⟩) files (scripts i)).conn).length := by
        intro q hq
        rw [List.length_set]
        exact hvalid q (List.mem_cons_of_mem _ hq)
      obtain ⟨h1, h2⟩ := ih (i + 1) _
        (pollForFiles F (servers.get ⟨ref, href⟩) files (scripts i)).files hlen
      refine ⟨(List.prefix_cons_inj ref).mpr h1, ?_⟩
      intro hall
      rw [h2 hall]
    · have hfalse : running i = false := by simpa using hrun
      simp only [hfalse, Bool.not_false, if_true, List.map_cons]
      refine ⟨List.nil_prefix, ?_⟩
      intro hall
      rw [hall i] at hfalse
      cases hfalse

/-- C11, as the claim states it, fails: of two enabled endpoints configured
with priorities 0 and 1, in this order, the one configured with 0 is polled
first. -/
theorem zero_priority_polled_first :
    zeroFirstServers =
      [mkServerConnection (sampleConfig "p0" 0 30000) "downloads/p0",
        mkServerConnection (sampleConfig "p1" 1 30000) "downloads/p1"] ∧
    (sampleConfig "p0" 0 30000).priority = some 0 ∧
    (sampleConfig "p1" 1 30000).priority = some 1 ∧
    (pollCycle simpleFns zeroFirstServers [] (fun _ => true) idleScripts).pass.polled =
      [0, 1] := by
  decide

/-- C11, amended: the endpoints polled in a cycle are, in this order, a prefix
of the sorted list, and all of it when the client is not stopped meanwhile.
The sorted list holds exactly the enabled endpoints, each once, ordered by
descending effective priority, the endpoint earlier in the configuration first
among equals; the effective priority is the configured one, except that a
missing or zero priority counts as 1. Endpoints with priorities 3, 1 and 2 are
polled first, third, second. -/
theorem poll_order_by_priority (F : PathFns) (servers : List ServerConnection)
    (files : LocalFiles) (running : Nat → Bool) (scripts : Nat → PollScript) :
    (pollCycle F servers files running scripts).pass.polled <+:
      (sortedServers servers).map Prod.fst ∧
    ((∀ i, running i = true) →
      (pollCycle F servers files running scripts).pass.polled =
        (sortedServers servers).map Prod.fst) ∧
    (sortedServers servers).Perm (servers.enum.filter (fun p => p.2.enabled)) ∧
    (sortedServers servers).Pairwise
      (fun a b => a.2.priority > b.2.priority ∨
        (a.2.priority = b.2.priority ∧ a.1 < b.1)) ∧
    (∀ p ∈ sortedServers servers, servers.get? p.1 = some p.2 ∧ p.2.enabled = true) ∧
    (∀ (cfg : ServerConfig) (dir : String),
      (mkServerConnection cfg dir).priority =
        match cfg.priority with
        | none => 1
        | some v => if v = 0 then 1 else v) ∧
    (∀ a b c : ServerConnection, a.enabled = true → b.enabled = true → c.enabled = true →
      a.priority = 3 → b.priority = 1 → c.priority = 2 →
      (sortedServers [a, b, c]).map Prod.fst = [0, 2, 1]) := by
  have hvalid : ∀ p ∈ sortedServers servers, p.1 < servers.length :=
    fun p hp => (sortedServers_mem servers p hp).2.2
  obtain ⟨h1, h2⟩ := passLoop_polled_prefix F (sortedServers servers) running scripts
    (sortedServers servers) 0 servers files hvalid
  refine ⟨h1, h2, sortedServers_perm servers, sortedServers_pollsBefore servers, ?_, ?_, ?_⟩
  · intro p hp
    exact ⟨(sortedServers_mem servers p hp).1, (sortedServers_mem servers p hp).2.1⟩
  · intro cfg dir
    rfl
  · intro a b c ha hb hc pa pb pc
    simp [sortedServers, List.enum, List.enumFrom, ha, hb, hc, stableSort, insertSorted,
      comparePriority, pa, pb, pc]

theorem poll_order_by_priority_witness :
    (∀ i, (fun _ : Nat => true) i = true) ∧
    (pollCycle simpleFns threeServers [] (fun _ => true) idleScripts).pass.polled =
      (sortedServers threeServers).map Prod.fst ∧
    (sortedServers threeServers).map Prod.fst = [0, 2, 1] :=
  ⟨fun _ => rfl,
    (poll_order_by_priority simpleFns threeServers [] (fun _ => true) idleScripts).2.1
      (fun _ => rfl),
    (poll_order_by_priority simpleFns threeServers [] (fun _ => true)
      idleScripts).2.2.2.2.2.2 _ _ _ (by decide) (by decide) (by decide) (by decide)
      (by decide) (by decide)⟩

/-! ## The wait after a cycle -/

theorem downloadFile_scheduleKey (F : PathFns) (c : ServerConnection) (files : LocalFiles)
    (job : Job) (a : Attempt) :
    scheduleKey (downloadFile F c files job a).conn = scheduleKey c := by
  cases a with
  | requestFailed reached timeout => rfl
  | streamBroken onDisk => rfl
  | finished onDisk =>
    by_cases h : onDisk = job.size
    · simp [downloadFile, h, scheduleKey]
    · simp [downloadFile, h, scheduleKey]

theorem processLoop_scheduleKey (F : PathFns) (job : Job) (script : JobScript) (k : Nat) :
    ∀ (r : Nat) (c : ServerConnection) (files : LocalFiles),
      scheduleKey (processLoop F job script k r c files).conn = scheduleKey c := by
  induction k with
  | zero => intro r c files; rfl
  | succ k ih =>
    intro r c files
    cases hf : (script.attempts r).fails job with
    | true =>
      rw [processLoop_fail_step F job script k r c files hf]
      exact ih (r + 1) c _
    | false =>
      rw [processLoop_success_step F job script k r c files hf]
      rfl

theorem processBatch_scheduleKey (F : PathFns) (scripts : Nat → JobScript)
    (jobs : List Job) :
    ∀ (i : Nat) (c : ServerConnection) (files : LocalFiles),
      scheduleKey (processBatch F scripts jobs i c files).conn = scheduleKey c := by
  induction jobs with
  | nil => intro i c files; rfl
  | cons job rest ih =>
    intro i c files
    unfold processBatch
    simp only
    rw [ih]
    exact processLoop_scheduleKey F job (scripts i) c.maxRetries 0 c files

/-- A poll changes neither the `enabled` flag nor the poll interval. -/
theorem pollForFiles_scheduleKey (F : PathFns) (c : ServerConnection) (files : LocalFiles)
    (script : PollScript) :
    scheduleKey (pollForFiles F c files script).conn = scheduleKey c := by
  unfold pollForFiles
  split
  · rfl
  · split
    · rfl
    · split
      · rfl
      · exact processBatch_scheduleKey F script.jobs _ 0 c files

theorem map_set_same {α β : Type} (f : α → β) (l : List α) :
    ∀ (i : Nat) (a x : α), l.get? i = some a → f x = f a → (l.set i x).map f = l.map f := by
  induction l with
  | nil => intro i a x h; simp at h
  | cons y ys ih =>
    intro i a x h hf
    cases i with
    | zero =>
      simp only [List.get?_cons_zero, Option.some.injEq] at h
      subst h
      simp [hf]
    | succ i =>
      simp only [List.get?_cons_succ] at h
      simp [ih i a x h hf]

theorem passLoop_scheduleKeys (F : PathFns) (sorted : List (Nat × ServerConnection))
    (running : Nat → Bool) (scripts : Nat → PollScript)
    (rest : List (Nat × ServerConnection)) :
    ∀ (i : Nat) (servers : List ServerConnection) (files : LocalFiles),
      (passLoop F sorted running scripts rest i servers files).servers.map scheduleKey =
        servers.map scheduleKey := by
  induction rest with
  | nil => intro i servers files; rfl
  | cons p rest ih =>
    intro i servers files
    obtain ⟨ref, snap⟩ := p
    unfold passLoop
    by_cases hrun : running i = true
    · simp only [hrun, Bool.not_true, Bool.false_eq_true, if_false]
      cases hget : servers.get? ref with
      | none => exact ih (i + 1) servers files
      | some server =>
        simp only
        rw [ih]
        exact map_set_same scheduleKey servers ref server _ hget
          (pollForFiles_scheduleKey F server files (scripts i))
    · simp [hrun]

theorem passLoop_total_pos (F : PathFns) (sorted : List (Nat × ServerConnection))
    (running : Nat → Bool) (scripts : Nat → PollScript)
    (rest : List (Nat × ServerConnection)) :
    ∀ (i : Nat) (servers : List ServerConnection) (files : LocalFiles),
      0 < (passLoop F sorted running scripts rest i servers files).totalJobsFound ↔
        ∃ n m, PollResult.success n m ∈
          (passLoop F sorted running scripts rest i servers files).results ∧ 0 < n := by
  induction rest with
  | nil => intro i servers files; simp [passLoop]
  | cons p rest ih =>
    intro i servers files
    obtain ⟨ref, snap⟩ := p
    unfold passLoop
    by_cases hrun : running i = true
    · simp only [hrun, Bool.not_true, Bool.false_eq_true, if_false]
      cases hget : servers.get? ref with
      | none => exact ih (i + 1) servers files
      | some server =>
        simp only [List.mem_cons]
        have ihr := ih (i + 1) (servers.set ref (pollForFiles F server files (scripts i)).conn)
          (pollForFiles F server files (scripts i)).files
        cases hres : (pollForFiles F server files (scripts i)).result with
        | undefined =>
          simp only [Nat.zero_add, ihr]
          constructor
          · rintro ⟨n, m, h1, h2⟩
            exact ⟨n, m, Or.inr h1, h2⟩
          · rintro ⟨n, m, h1 | h1, h2⟩
            · cases h1
            · exact ⟨n, m, h1, h2⟩
        | failure =>
          simp only [Nat.zero_add, ihr]
          constructor
          · rintro ⟨n, m, h1, h2⟩
            exact ⟨n, m, Or.inr h1, h2⟩
          · rintro ⟨n, m, h1 | h1, h2⟩
            · cases h1
            · exact ⟨n, m, h1, h2⟩
        | success found processed =>
          simp only
          constructor
          · intro hpos
            by_cases hf : 0 < found
            · exact ⟨found, processed, Or.inl rfl, hf⟩
            · have hrest : 0 < (passLoop F sorted running scripts rest (i + 1)
                  (servers.set ref (pollForFiles F server files (scripts i)).conn)
                  (pollForFiles F server files (scripts i)).files).totalJobsFound := by
                omega
              obtain ⟨n, m, h1, h2⟩ := ihr.mp hrest
              exact ⟨n, m, Or.inr h1, h2⟩
          · rintro ⟨n, m, h1 | h1, h2⟩
            · injection h1 with h3 h4
              omega
            · have := ihr.mpr ⟨n, m, h1, h2⟩
              omega
    · simp [hrun]

theorem foldl_min_spec (xs : List Nat) :
    ∀ a : Nat, xs.foldl min a ≤ a ∧ (∀ x ∈ xs, xs.foldl min a ≤ x) ∧
      (xs.foldl min a = a ∨ xs.foldl min a ∈ xs) := by
  induction xs with
  | nil => intro a; simp
  | cons y ys ih =>
    intro a
    obtain ⟨h1, h2, h3⟩ := ih (min a y)
    simp only [List.foldl_cons, List.mem_cons]
    refine ⟨le_trans h1 (min_le_left a y), ?_, ?_⟩
    · intro x hx
      rcases hx with rfl | hx
      · exact le_trans h1 (min_le_right a x)
      · exact h2 x hx
    · rcases h3 with h | h
      · rcases min_choice a y with hm | hm
        · exact Or.inl (by rw [h, hm])
        · exact Or.inr (Or.inl (by rw [h, hm]))
      · exact Or.inr (Or.inr h)

theorem mathMin_spec (l : List Nat) (h : l ≠ []) :
    mathMin l ∈ l ∧ ∀ x ∈ l, mathMin l ≤ x := by
  cases l with
  | nil => exact absurd rfl h
  | cons a xs =>
    obtain ⟨h1, h2, h3⟩ := foldl_min_spec xs a
    simp only [mathMin, List.mem_cons]
    refine ⟨?_, ?_⟩
    · rcases h3 with h | h
      · exact Or.inl h
      · exact Or.inr h
    · intro x hx
      rcases hx with rfl | hx
      · exact h1
      · exact h2 x hx

theorem getMinPollInterval_congr (s1 s2 : List ServerConnection)
    (h : s1.map scheduleKey = s2.map scheduleKey) :
    getMinPollInterval s1 = getMinPollInterval s2 := by
  have key : ∀ s : List ServerConnection,
      (s.filter (fun c => c.enabled)).map (fun c => c.pollInterval) =
        ((s.map scheduleKey).filter (fun p => p.1)).map (fun p => p.2) := by
    intro s
    induction s with
    | nil => rfl
    | cons c cs ih =>
      by_cases hc : c.enabled = true
      · simp [List.filter_cons, hc, scheduleKey, ih]
      · simp [List.filter_cons, hc, scheduleKey, ih]
  have hlen : ∀ s : List ServerConnection,
      (s.filter (fun c => c.enabled)).length =
        ((s.filter (fun c => c.enabled)).map (fun c => c.pollInterval)).length := by
    intro s
    simp
  unfold getMinPollInterval
  simp only [hlen, key, h]

theorem getMinPollInterval_spec (servers : List ServerConnection) :
    ((∀ c ∈ servers, c.enabled = false) → getMinPollInterval servers = 30000) ∧
    ((∃ c ∈ servers, c.enabled = true) →
      (∀ c ∈ servers, c.enabled = true → getMinPollInterval servers ≤ c.pollInterval) ∧
      ∃ c ∈ servers, c.enabled = true ∧ getMinPollInterval servers = c.pollInterval) := by
  constructor
  · intro hall
    have hnil : servers.filter (fun s => s.enabled) = [] := by
      apply List.filter_eq_nil_iff.mpr
      intro c hc
      simp [hall c hc]
    simp [getMinPollInterval, hnil]
  · rintro ⟨c0, hc0, he0⟩
    have hmem0 : c0 ∈ servers.filter (fun s => s.enabled) :=
      List.mem_filter.mpr ⟨hc0, he0⟩
    have hne : servers.filter (fun s => s.enabled) ≠ [] := List.ne_nil_of_mem hmem0
    have hlen : (servers.filter (fun s => s.enabled)).length ≠ 0 := by
      intro h0
      exact hne (List.length_eq_zero.mp h0)
    have hne2 : (servers.filter (fun s => s.enabled)).map (fun s => s.pollInterval) ≠ [] := by
      intro h0
      exact hne (List.map_eq_nil_iff.mp h0)
    obtain ⟨m1, m2⟩ := mathMin_spec _ hne2
    have hval : getMinPollInterval servers =
        mathMin ((servers.filter (fun s => s.enabled)).map (fun s => s.pollInterval)) := by
      simp [getMinPollInterval, hlen]
    rw [hval]
    constructor
    · intro c hc he
      exact m2 _ (List.mem_map_of_mem _ (List.mem_filter.mpr ⟨hc, he⟩))
    · obtain ⟨c, hc, hcv⟩ := List.mem_map.mp m1
      obtain ⟨hc1, hc2⟩ := List.mem_filter.mp hc
      exact ⟨c, hc1, hc2, hcv.symm⟩

theorem pollCycle_waitTime (F : PathFns) (servers : List ServerConnection)
    (files : LocalFiles) (running : Nat → Bool) (scripts : Nat → PollScript) :
    (pollCycle F servers files running scripts).waitTime =
      if 0 < (pollCycle F servers files running scripts).pass.totalJobsFound then 5000
      else getMinPollInterval servers := by
  have hkeys := passLoop_scheduleKeys F (sortedServers servers) running scripts
    (sortedServers servers) 0 servers files
  have hmin := getMinPollInterval_congr _ _ hkeys
  simp only [pollCycle, gt_iff_lt, hmin]

/-- C12: the wait after a cycle is a function of what the cycle found. If some
poll of the cycle succeeded with at least one job found, the wait is 5000 ms.
Otherwise it is the least poll interval among the enabled endpoints, which is
at most the interval of each of them and is the interval of one of them; and
30000 ms when no endpoint is enabled. A poll of an enabled endpoint whose list
request is answered reports the answer's count as the jobs found. -/
theorem next_wait_time (F : PathFns) (servers : List ServerConnection)
    (files : LocalFiles) (running : Nat → Bool) (scripts : Nat → PollScript) :
    ((∃ n m, PollResult.success n m ∈
        (pollCycle F servers files running scripts).pass.results ∧ 0 < n) →
      (pollCycle F servers files running scripts).waitTime = 5000) ∧
    ((¬ ∃ n m, PollResult.success n m ∈
        (pollCycle F servers files running scripts).pass.results ∧ 0 < n) →
      ((∀ c ∈ servers, c.enabled = false) →
        (pollCycle F servers files running scripts).waitTime = 30000) ∧
      ((∃ c ∈ servers, c.enabled = true) →
        (∀ c ∈ servers, c.enabled = true →
          (pollCycle F servers files running scripts).waitTime ≤ c.pollInterval) ∧
        ∃ c ∈ servers, c.enabled = true ∧
          (pollCycle F servers files running scripts).waitTime = c.pollInterval)) ∧
    (∀ (c : ServerConnection) (fs : LocalFiles) (script : PollScript) (jobs : List Job)
      (count : Nat), c.enabled = true → script.list = .ok jobs count →
      ∃ m, (pollForFiles F c fs script).result = .success count m) := by
  have hwait := pollCycle_waitTime F servers files running scripts
  have hpos := passLoop_total_pos F (sortedServers servers) running scripts
    (sortedServers servers) 0 servers files
  have hpos2 : 0 < (pollCycle F servers files running scripts).pass.totalJobsFound ↔
      ∃ n m, PollResult.success n m ∈
        (pollCycle F servers files running scripts).pass.results ∧ 0 < n := hpos
  refine ⟨?_, ?_, ?_⟩
  · intro h
    rw [hwait, if_pos (hpos2.mpr h)]
  · intro h
    have hzero : ¬ 0 < (pollCycle F servers files running scripts).pass.totalJobsFound :=
      fun hp => h (hpos2.mp hp)
    rw [hwait, if_neg hzero]
    exact getMinPollInterval_spec servers
  · intro c fs script jobs count he hl
    unfold pollForFiles
    simp only [he, Bool.not_true, Bool.false_eq_true, if_false, hl]
    by_cases h0 : count = 0
    · subst h0
      exact ⟨none, by simp⟩
    · exact ⟨some (processBatch F script.jobs jobs 0 c fs).processedJobs,
        by simp only [h0, if_false]⟩

theorem next_wait_time_witness :
    (∃ n m, PollResult.success n m ∈
        (pollCycle simpleFns threeServers [] (fun _ => true) busyScripts).pass.results ∧
        0 < n) ∧
    (pollCycle simpleFns threeServers [] (fun _ => true) busyScripts).waitTime = 5000 ∧
    (¬ ∃ n m, PollResult.success n m ∈
        (pollCycle simpleFns threeServers [] (fun _ => true) idleScripts).pass.results ∧
        0 < n) ∧
    (∃ c ∈ threeServers, c.enabled = true) ∧
    ((∀ c ∈ threeServers, c.enabled = true →
        (pollCycle simpleFns threeServers [] (fun _ => true) idleScripts).waitTime ≤
          c.pollInterval) ∧
      ∃ c ∈ threeServers, c.enabled = true ∧
        (pollCycle simpleFns threeServers [] (fun _ => true) idleScripts).waitTime =
          c.pollInterval) :=
  have hbusy : ∃ n m, PollResult.success n m ∈
      (pollCycle simpleFns threeServers [] (fun _ => true) busyScripts).pass.results ∧
      0 < n := ⟨1, some 1, by decide, by decide⟩
  have hidle : ¬ ∃ n m, PollResult.success n m ∈
      (pollCycle simpleFns threeServers [] (fun _ => true) idleScripts).pass.results ∧
      0 < n := by
    rintro ⟨n, m, h1, -⟩
    have hres : (pollCycle simpleFns threeServers [] (fun _ => true)
        idleScripts).pass.results = [.failure, .failure, .failure] := by decide
    rw [hres] at h1
    simp at h1
  have hsome : ∃ c ∈ threeServers, c.enabled = true :=
    ⟨mkServerConnection (sampleConfig "p3" 3 30000) "downloads/p3", by decide, by decide⟩
  ⟨hbusy,
    (next_wait_time simpleFns threeServers [] (fun _ => true) busyScripts).1 hbusy,
    hidle, hsome,
    ((next_wait_time simpleFns threeServers [] (fun _ => true) idleScripts).2.1 hidle).2
      hsome⟩

/-! ## The listing bound -/

/-- C27: whatever limit a request carries, the listing returns `min (queue
length, bound)` jobs, the bound being 50 in `server.js` and 10 in
`server_work_no_login.js`; the jobs are the queue entries at the indices below
the bound, in index order. -/
theorem list_pending_count (srv : Server) (s : Store) (limit : Nat) :
    ∃ jobs count total, (listPending srv s limit).2 = Reply.jobs jobs count total ∧
      count = min s.queue.length (listCap srv) ∧
      jobs.length = min s.queue.length (listCap srv) ∧
      (∀ i, i < listCap srv → jobs.get? i = s.queue.get? i) ∧
      (∀ i, listCap srv ≤ i → jobs.get? i = none) ∧
      listCap Server.main = 50 ∧ listCap Server.noLogin = 10 ∧
      ∀ limit2, (listPending srv s limit2).2 = Reply.jobs jobs count total := by
  have hlen : (s.queue.take (listCap srv)).length = min s.queue.length (listCap srv) := by
    rw [List.length_take, min_comm]
  refine ⟨_, _, _, listPending_reply srv s limit, hlen, hlen, ?_, ?_, rfl, rfl, ?_⟩
  · intro i hi
    rw [List.get?_eq_getElem?, List.get?_eq_getElem?, List.getElem?_take_of_lt hi]
  · intro i hi
    rw [List.get?_eq_getElem?]
    apply List.getElem?_eq_none
    rw [hlen]
    exact le_trans (min_le_right _ _) hi
  · intro limit2
    exact listPending_reply srv s limit2

theorem list_pending_count_witness :
    ∃ jobs count total,
      (listPending Server.noLogin sixStore 5).2 = Reply.jobs jobs count total ∧
      count = min sixStore.queue.length (listCap Server.noLogin) ∧
      jobs.length = min sixStore.queue.length (listCap Server.noLogin) ∧
      (∀ i, i < listCap Server.noLogin → jobs.get? i = sixStore.queue.get? i) ∧
      (∀ i, listCap Server.noLogin ≤ i → jobs.get? i = none) ∧
      listCap Server.main = 50 ∧ listCap Server.noLogin = 10 ∧
      ∀ limit2, (listPending Server.noLogin sixStore limit2).2 = Reply.jobs jobs count total :=
  list_pending_count Server.noLogin sixStore 5

/-! ## Deletion on completion -/

theorem mem_unlinkSync (files : List String) (p q : String) :
    q ∈ unlinkSync files p ↔ q ∈ files ∧ q ≠ p := by
  simp [unlinkSync]

theorem deleteFileAfterDownload_spec (env : Env) (files : List String) (filePath : String)
    (ok : Bool) :
    (env.deleteAfterDownload = false → deleteFileAfterDownload env files filePath ok = files) ∧
    (ok = false → deleteFileAfterDownload env files filePath ok = files) ∧
    (∀ q ∈ files, q ≠ filePath → q ∈ deleteFileAfterDownload env files filePath ok) ∧
    (∀ q ∈ deleteFileAfterDownload env files filePath ok, q ∈ files) ∧
    (env.deleteAfterDownload = true → ok = true →
      filePath ∉ deleteFileAfterDownload env files filePath ok) := by
  unfold deleteFileAfterDownload
  refine ⟨?_, ?_, ?_, ?_, ?_⟩
  · intro h
    simp [h]
  · intro h
    simp [h]
  · intro q hq hne
    split
    · split
      · exact (mem_unlinkSync files filePath q).mpr ⟨hq, hne⟩
      · exact hq
    · exact hq
  · intro q hq
    split at hq
    · split at hq
      · exact ((mem_unlinkSync files filePath q).mp hq).1
      · exact hq
    · exact hq
  · intro hd hok hmem
    by_cases hex : existsSync files filePath = true
    · simp only [hd, hex, Bool.and_self, if_true, hok] at hmem
      exact ((mem_unlinkSync files filePath filePath).mp hmem).2 rfl
    · simp only [hd, hex, Bool.true_and, Bool.false_eq_true, if_false] at hmem
      exact hex ((existsSync_iff files filePath).mpr hmem)

/-- C24: a successful completion moves the job from the pending queue to the
completed list whether or not the file is deleted and whether or not the
deletion works. With `deleteAfterDownload` off the stored files stay as they
are; with it on, no file other than the job's own (upload directory joined
with its `fileName`) is removed, and nothing is added. -/
theorem file_deleted_only_by_policy (srv : Server) (env : Env) (s : Store)
    (jobId now : String) (ok : Bool)
    (hok : (completeJob srv env s jobId now ok).2.status = 200) :
    ∃ job, job ∈ s.queue ∧ job.id = jobId ∧
      (completeJob srv env s jobId now ok).1.queue = s.queue.erase job ∧
      (completeJob srv env s jobId now ok).1.completed =
        { job with completedAt := some now } :: s.completed ∧
      (env.deleteAfterDownload = false →
        (completeJob srv env s jobId now ok).1.files = s.files) ∧
      (ok = false → (completeJob srv env s jobId now ok).1.files = s.files) ∧
      (∀ q ∈ s.files, q ≠ env.pathJoin env.uploadPath job.fileName →
        q ∈ (completeJob srv env s jobId now ok).1.files) ∧
      (∀ q ∈ (completeJob srv env s jobId now ok).1.files, q ∈ s.files) ∧
      (env.deleteAfterDownload = true → ok = true →
        env.pathJoin env.uploadPath job.fileName ∉
          (completeJob srv env s jobId now ok).1.files) := by
  rcases completeJob_cases srv env s jobId now ok with h1 | ⟨job, hjob, hid, h2⟩
  · rw [h1] at hok
    cases srv <;> simp [errorReply, Reply.status] at hok
  · obtain ⟨d1, d2, d3, d4, d5⟩ := deleteFileAfterDownload_spec env s.files
      (env.pathJoin env.uploadPath job.fileName) ok
    have hfiles : (completeJob srv env s jobId now ok).1.files =
        deleteFileAfterDownload env s.files (env.pathJoin env.uploadPath job.fileName) ok := by
      rw [h2]
      rfl
    refine ⟨job, hjob, hid, ?_, ?_, ?_, ?_, ?_, ?_, ?_⟩
    · rw [h2, completeFound_queue]
    · rw [h2, completeFound_completed]
    · intro h
      rw [hfiles]
      exact d1 h
    · intro h
      rw [hfiles]
      exact d2 h
    · intro q hq hne
      rw [hfiles]
      exact d3 q hq hne
    · intro q hq
      rw [hfiles] at hq
      exact d4 q hq
    · intro hd ho
      rw [hfiles]
      exact d5 hd ho

theorem file_deleted_only_by_policy_witness :
    (completeJob Server.main sampleEnv sampleStore "id-a" "t9" false).2.status = 200 ∧
    ∃ job, job ∈ sampleStore.queue ∧ job.id = "id-a" ∧
      (completeJob Server.main sampleEnv sampleStore "id-a" "t9" false).1.queue =
        sampleStore.queue.erase job ∧
      (completeJob Server.main sampleEnv sampleStore "id-a" "t9" false).1.completed =
        { job with completedAt := some "t9" } :: sampleStore.completed ∧
      (sampleEnv.deleteAfterDownload = false →
        (completeJob Server.main sampleEnv sampleStore "id-a" "t9" false).1.files =
          sampleStore.files) ∧
      (false = false →
        (completeJob Server.main sampleEnv sampleStore "id-a" "t9" false).1.files =
          sampleStore.files) ∧
      (∀ q ∈ sampleStore.files, q ≠ sampleEnv.pathJoin sampleEnv.uploadPath job.fileName →
        q ∈ (completeJob Server.main sampleEnv sampleStore "id-a" "t9" false).1.files) ∧
      (∀ q ∈ (completeJob Server.main sampleEnv sampleStore "id-a" "t9" false).1.files,
        q ∈ sampleStore.files) ∧
      (sampleEnv.deleteAfterDownload = true → false = true →
        sampleEnv.pathJoin sampleEnv.uploadPath job.fileName ∉
          (completeJob Server.main sampleEnv sampleStore "id-a" "t9" false).1.files) :=
  ⟨by decide,
    file_deleted_only_by_policy Server.main sampleEnv sampleStore "id-a" "t9" false
      (by decide)⟩

/-! ## Defaults of an endpoint -/

/-- C29: the constructor replaces a missing or zero priority by 1, a missing
or zero `maxRetries` by 3, a missing or zero `pollInterval` by 30000, and keeps
every other value; `enabled` is true unless the configured value is `false`.
An endpoint configured with priority 0 is the same object as one configured
with priority 1, so a cycle sorts and polls it the same way; setting up the
download directory keeps `enabled` when it works. -/
theorem endpoint_defaults (cfg : ServerConfig) (dir : String) :
    (mkServerConnection cfg dir).priority =
      (match cfg.priority with
       | none => 1
       | some v => if v = 0 then 1 else v) ∧
    (mkServerConnection cfg dir).maxRetries =
      (match cfg.maxRetries with
       | none => 3
       | some v => if v = 0 then 3 else v) ∧
    (mkServerConnection cfg dir).pollInterval =
      (match cfg.pollInterval with
       | none => 30000
       | some v => if v = 0 then 30000 else v) ∧
    ((mkServerConnection cfg dir).enabled = true ↔ cfg.enabled ≠ some false) ∧
    mkServerConnection { cfg with priority := some 0 } dir =
      mkServerConnection { cfg with priority := some 1 } dir ∧
    (∀ (before after : List ServerConnection),
      sortedServers (before ++ mkServerConnection { cfg with priority := some 0 } dir :: after) =
        sortedServers
          (before ++ mkServerConnection { cfg with priority := some 1 } dir :: after)) ∧
    (∀ v : Int, cfg.priority = some v → v ≠ 0 → (mkServerConnection cfg dir).priority = v) ∧
    (∀ v : Nat, cfg.maxRetries = some v → v ≠ 0 →
      (mkServerConnection cfg dir).maxRetries = v) ∧
    (∀ v : Nat, cfg.pollInterval = some v → v ≠ 0 →
      (mkServerConnection cfg dir).pollInterval = v) ∧
    (initializeDownloadPath (mkServerConnection cfg dir) true).enabled =
      (mkServerConnection cfg dir).enabled := by
  have hnat : ∀ (x : Option Nat) (d : Nat), orDefaultNat x d =
      (match x with
       | none => d
       | some v => if v = 0 then d else v) := by
    intro x d
    cases x with
    | none => rfl
    | some v => cases v <;> simp [orDefaultNat]
  have hsame : mkServerConnection { cfg with priority := some 0 } dir =
      mkServerConnection { cfg with priority := some 1 } dir := by
    simp [mkServerConnection, orDefaultInt]
  refine ⟨rfl, hnat _ _, hnat _ _, ?_, hsame, ?_, ?_, ?_, ?_, rfl⟩
  · simp [mkServerConnection]
  · intro before after
    rw [hsame]
  · intro v hv hne
    simp [mkServerConnection, orDefaultInt, hv, hne]
  · intro v hv hne
    simp only [mkServerConnection, hv, hnat, hne, if_false]
  · intro v hv hne
    simp only [mkServerConnection, hv, hnat, hne, if_false]

theorem endpoint_defaults_witness :
    (sampleConfig "p0" 0 0).priority = some 0 ∧
    (sampleConfig "p0" 0 0).pollInterval = some 0 ∧
    (mkServerConnection (sampleConfig "p0" 0 0) "downloads").priority = 1 ∧
    (mkServerConnection (sampleConfig "p0" 0 0) "downloads").pollInterval = 30000 ∧
    (mkServerConnection (sampleConfig "p0" 0 0) "downloads").maxRetries = 3 :=
  ⟨rfl, rfl, (endpoint_defaults (sampleConfig "p0" 0 0) "downloads").1,
    (endpoint_defaults (sampleConfig "p0" 0 0) "downloads").2.2.1,
    (endpoint_defaults (sampleConfig "p0" 0 0) "downloads").2.2.2.2.2.2.2.1 3 rfl (by decide)⟩

/-! ## Only the counters of an endpoint change -/

theorem downloadFile_conn (F : PathFns) (c : ServerConnection) (files : LocalFiles)
    (job : Job) (a : Attempt) :
    (downloadFile F c files job a).conn =
      { c with stats := (downloadFile F c files job a).conn.stats } := by
  cases a with
  | requestFailed reached timeout => rfl
  | streamBroken onDisk => rfl
  | finished onDisk =>
    by_cases h : onDisk = job.size
    · simp [downloadFile, h]
    · simp [downloadFile, h]

theorem processLoop_conn (F : PathFns) (job : Job) (script : JobScript) (k : Nat) :
    ∀ (r : Nat) (c : ServerConnection) (files : LocalFiles),
      (processLoop F job script k r c files).conn =
        { c with stats := (processLoop F job script k r c files).conn.stats } := by
  induction k with
  | zero => intro r c files; rfl
  | succ k ih =>
    intro r c files
    cases hf : (script.attempts r).fails job with
    | true =>
      rw [processLoop_fail_step F job script k r c files hf]
      exact ih (r + 1) c _
    | false =>
      rw [processLoop_success_step F job script k r c files hf]

theorem processJob_conn (F : PathFns) (c : ServerConnection) (files : LocalFiles)
    (job : Job) (script : JobScript) :
    (processJob F c files job script).conn =
      { c with stats := (processJob F c files job script).conn.stats } :=
  processLoop_conn F job script c.maxRetries 0 c files

theorem processBatch_conn (F : PathFns) (scripts : Nat → JobScript) (jobs : List Job) :
    ∀ (i : Nat) (c : ServerConnection) (files : LocalFiles),
      (processBatch F scripts jobs i c files).conn =
        { c with stats := (processBatch F scripts jobs i c files).conn.stats } := by
  induction jobs with
  | nil => intro i c files; rfl
  | cons job rest ih =>
    intro i c files
    unfold processBatch
    simp only
    have h1 := ih (i + 1) (processJob F c files job (scripts i)).conn
      (processJob F c files job (scripts i)).files
    have h2 := processJob_conn F c files job (scripts i)
    rw [h1]
    rw [h2]

/-- A poll changes nothing of an endpoint but its counters. -/
theorem pollForFiles_conn (F : PathFns) (c : ServerConnection) (files : LocalFiles)
    (script : PollScript) :
    (pollForFiles F c files script).conn =
      { c with stats := (pollForFiles F c files script).conn.stats } := by
  unfold pollForFiles
  split
  · rfl
  · split
    · rfl
    · split
      · rfl
      · rename_i jobs count _ _
        simp only
        have h := processBatch_conn F script.jobs jobs 0 c files
        rw [h]

theorem pollMany_conn (F : PathFns) (scripts : List PollScript) :
    ∀ (c : ServerConnection) (files : LocalFiles),
      (pollMany F scripts c files).1 =
        { c with stats := (pollMany F scripts c files).1.stats } := by
  induction scripts with
  | nil => intro c files; rfl
  | cons script rest ih =>
    intro c files
    unfold pollMany
    simp only
    have h1 := ih (pollForFiles F c files script).conn (pollForFiles F c files script).files
    have h2 := pollForFiles_conn F c files script
    rw [h1]
    rw [h2]

theorem checkAllServersHealth_servers (probes : Nat → Option Nat)
    (servers : List ServerConnection) :
    ∀ i : Nat, (checkAllServersHealth probes servers i).1 = servers := by
  induction servers with
  | nil => intro i; rfl
  | cons server rest ih =>
    intro i
    unfold checkAllServersHealth
    simp only
    split
    · simp [ih]
    · simp [ih, checkServerHealth]

/-- C25: a health probe, whatever its outcome, leaves the endpoint as it is,
and so does the round of probes at start-up for every endpoint. A poll, and so
any number of polls whatever their outcomes and whatever `consecutiveErrors`
has reached, changes nothing of an endpoint but its counters: `enabled`,
`priority`, `pollInterval` and `maxRetries` stay. -/
theorem polls_never_disable (F : PathFns) (c : ServerConnection) (files : LocalFiles) :
    (∀ probe : Option Nat, (checkServerHealth c probe).1 = c) ∧
    (∀ (probes : Nat → Option Nat) (servers : List ServerConnection),
      (checkAllServersHealth probes servers 0).1 = servers) ∧
    (∀ script : PollScript,
      (pollForFiles F c files script).conn =
        { c with stats := (pollForFiles F c files script).conn.stats } ∧
      (pollForFiles F c files script).conn.enabled = c.enabled ∧
      (pollForFiles F c files script).conn.priority = c.priority ∧
      (pollForFiles F c files script).conn.pollInterval = c.pollInterval ∧
      (pollForFiles F c files script).conn.maxRetries = c.maxRetries) ∧
    (∀ scripts : List PollScript,
      (pollMany F scripts c files).1.enabled = c.enabled ∧
      (pollMany F scripts c files).1.priority = c.priority ∧
      (pollMany F scripts c files).1.pollInterval = c.pollInterval ∧
      (pollMany F scripts c files).1.maxRetries = c.maxRetries) := by
  refine ⟨fun _ => rfl, fun probes servers => checkAllServersHealth_servers probes servers 0,
    ?_, ?_⟩
  · intro script
    have h := pollForFiles_conn F c files script
    refine ⟨h, ?_, ?_, ?_, ?_⟩ <;> rw [h]
  · intro scripts
    have h := pollMany_conn F scripts c files
    refine ⟨?_, ?_, ?_, ?_⟩ <;> rw [h]

theorem polls_never_disable_witness :
    (pollMany simpleFns [idleScripts 0, idleScripts 1, idleScripts 2, idleScripts 3]
      sampleConn []).1.stats.consecutiveErrors = 4 ∧
    (pollMany simpleFns [idleScripts 0, idleScripts 1, idleScripts 2, idleScripts 3]
      sampleConn []).1.enabled = sampleConn.enabled ∧
    (checkServerHealth sampleConn none).2 = false ∧
    (checkServerHealth sampleConn none).1 = sampleConn :=
  ⟨by decide,
    ((polls_never_disable simpleFns sampleConn []).2.2.2
      [idleScripts 0, idleScripts 1, idleScripts 2, idleScripts 3]).1,
    by decide, (polls_never_disable simpleFns sampleConn []).1 none⟩

/-! ## The counter of consecutive errors -/

theorem pollForFiles_failed (F : PathFns) (c : ServerConnection) (files : LocalFiles)
    (script : PollScript) (hen : c.enabled = true) (hl : script.list = .failed) :
    pollForFiles F c files script =
      { conn := { c with stats := { c.stats with
                    consecutiveErrors := c.stats.consecutiveErrors + 1 } }
        files := files, events := [.list false], result := .failure } := by
  unfold pollForFiles
  simp only [hen, Bool.not_true, Bool.false_eq_true, if_false, hl]

theorem pollForFiles_answered (F : PathFns) (c : ServerConnection) (files : LocalFiles)
    (script : PollScript) (jobs : List Job) (count : Nat) (hen : c.enabled = true)
    (hl : script.list = .ok jobs count) :
    (pollForFiles F c files script).conn.stats.consecutiveErrors = 0 ∧
    ∃ m, (pollForFiles F c files script).result = .success count m := by
  unfold pollForFiles
  simp only [hen, Bool.not_true, Bool.false_eq_true, if_false, hl]
  by_cases h0 : count = 0
  · subst h0
    simp
  · simp only [h0, if_false, true_and]
    exact ⟨_, rfl⟩

theorem pollForFiles_countAfter (F : PathFns) (c : ServerConnection) (files : LocalFiles)
    (script : PollScript) (hen : c.enabled = true) :
    (pollForFiles F c files script).conn.stats.consecutiveErrors =
      countAfter c.stats.consecutiveErrors script := by
  cases hl : script.list with
  | failed =>
    rw [pollForFiles_failed F c files script hen hl]
    simp [countAfter, PollScript.listFails, hl]
  | ok jobs count =>
    rw [(pollForFiles_answered F c files script jobs count hen hl).1]
    simp [countAfter, PollScript.listFails, hl]

theorem pollMany_countAfter (F : PathFns) (scripts : List PollScript) :
    ∀ (c : ServerConnection) (files : LocalFiles), c.enabled = true →
      (pollMany F scripts c files).1.stats.consecutiveErrors =
        scripts.foldl countAfter c.stats.consecutiveErrors := by
  induction scripts with
  | nil => intro c files _; rfl
  | cons script rest ih =>
    intro c files hen
    unfold pollMany
    simp only [List.foldl_cons]
    have hen2 : (pollForFiles F c files script).conn.enabled = true := by
      rw [pollForFiles_conn F c files script]
      exact hen
    rw [ih _ _ hen2, pollForFiles_countAfter F c files script hen]

theorem foldl_countAfter (scripts : List PollScript) (n : Nat) :
    scripts.foldl countAfter n =
      trailingFailures scripts + (if scripts.all PollScript.listFails then n else 0) := by
  induction scripts using List.reverseRecOn with
  | nil => simp [trailingFailures]
  | append_singleton l s ih =>
    rw [List.foldl_append, List.foldl_cons, List.foldl_nil, ih]
    unfold trailingFailures at ih ⊢
    cases hs : s.listFails with
    | true =>
      simp only [countAfter, hs, if_true, List.reverse_append, List.reverse_cons,
        List.reverse_nil, List.nil_append, List.singleton_append, List.takeWhile_cons,
        List.length_cons, List.all_append, List.all_cons, List.all_nil, Bool.and_true]
      omega
    | false =>
      simp [countAfter, hs]

/-- C30: for an enabled endpoint, a poll whose list request is answered, with
jobs or without and however their downloads end, sets `consecutiveErrors` to
0; a poll whose list request fails adds exactly 1 to it and leaves the other
counters alone. After a sequence of polls the counter is the number of failed
polls since the last answered one, on top of its old value when none was
answered. -/
theorem consecutive_errors_count (F : PathFns) (c : ServerConnection) (files : LocalFiles)
    (hen : c.enabled = true) :
    (∀ (script : PollScript) (jobs : List Job) (count : Nat),
      script.list = .ok jobs count →
      (pollForFiles F c files script).conn.stats.consecutiveErrors = 0 ∧
      ∃ m, (pollForFiles F c files script).result = .success count m) ∧
    (∀ script : PollScript, script.list = .failed →
      (pollForFiles F c files script).result = .failure ∧
      (pollForFiles F c files script).conn.stats.consecutiveErrors =
        c.stats.consecutiveErrors + 1 ∧
      (pollForFiles F c files script).conn.stats.filesDownloaded =
        c.stats.filesDownloaded ∧
      (pollForFiles F c files script).conn.stats.totalDownloaded =
        c.stats.totalDownloaded ∧
      (pollForFiles F c files script).conn.stats.errors = c.stats.errors) ∧
    (∀ scripts : List PollScript,
      (pollMany F scripts c files).1.stats.consecutiveErrors =
        trailingFailures scripts +
          (if scripts.all PollScript.listFails then c.stats.consecutiveErrors else 0)) := by
  refine ⟨?_, ?_, ?_⟩
  · intro script jobs count hl
    exact pollForFiles_answered F c files script jobs count hen hl
  · intro script hl
    rw [pollForFiles_failed F c files script hen hl]
    exact ⟨rfl, rfl, rfl, rfl, rfl⟩
  · intro scripts
    rw [pollMany_countAfter F scripts c files hen, foldl_countAfter]

theorem consecutive_errors_count_witness :
    sampleConn.enabled = true ∧
    (pollMany simpleFns okThenTwoFailures sampleConn []).1.stats.consecutiveErrors = 2 ∧
    (pollMany simpleFns okThenTwoFailures sampleConn []).1.stats.consecutiveErrors =
      trailingFailures okThenTwoFailures +
        (if okThenTwoFailures.all PollScript.listFails then
          sampleConn.stats.consecutiveErrors else 0) :=
  ⟨by decide, by decide,
    (consecutive_errors_count simpleFns sampleConn [] (by decide)).2.2 okThenTwoFailures⟩

/-! ## Jobs processed and jobs given up -/

theorem abandons_iff (maxRetries : Nat) (job : Job) (script : JobScript) :
    abandons maxRetries job script = true ↔
      ∀ i, i < maxRetries → (script.attempts i).fails job = true := by
  simp [abandons, List.all_eq_true]

/-- A job adds 1 to the error counter exactly when it is given up. -/
theorem processJob_errors (F : PathFns) (c : ServerConnection) (files : LocalFiles)
    (job : Job) (script : JobScript) :
    (processJob F c files job script).conn.stats.errors =
      c.stats.errors + (if abandons c.maxRetries job script then 1 else 0) := by
  cases hab : abandons c.maxRetries job script with
  | true =>
    have hall := (abandons_iff c.maxRetries job script).mp hab
    obtain ⟨h1, -⟩ := processLoop_all_fail F job script c.maxRetries 0 c files
      (by omega) (fun i _ hi => hall i (by omega))
    unfold processJob
    rw [h1]
    simp
  | false =>
    have hex : ∃ i, i < c.maxRetries ∧ (script.attempts i).fails job = false := by
      by_contra hno
      have hall : ∀ i, i < c.maxRetries → (script.attempts i).fails job = true := by
        intro i hi
        cases hf : (script.attempts i).fails job with
        | true => rfl
        | false => exact absurd ⟨i, hi, hf⟩ hno
      rw [(abandons_iff c.maxRetries job script).mpr hall] at hab
      cases hab
    classical
    have hi0 := Nat.find_spec hex
    have hmin : ∀ j, j < Nat.find hex → (script.attempts j).fails job = true := by
      intro j hj
      have hnot := Nat.find_min hex hj
      cases hf : (script.attempts j).fails job with
      | true => rfl
      | false => exact absurd ⟨by omega, hf⟩ hnot
    obtain ⟨-, a2, -⟩ := processLoop_first_success F job script c.maxRetries 0 c files
      (Nat.find hex) (Nat.zero_le _) (by omega) hi0.2 (fun j _ hj => hmin j hj)
    unfold processJob
    rw [a2]
    simp

theorem processBatch_counts (F : PathFns) (scripts : Nat → JobScript) (jobs : List Job) :
    ∀ (i : Nat) (c : ServerConnection) (files : LocalFiles),
      (processBatch F scripts jobs i c files).processedJobs = jobs.length ∧
      (processBatch F scripts jobs i c files).conn.stats.errors =
        c.stats.errors + abandonedCount c.maxRetries scripts jobs i := by
  induction jobs with
  | nil => intro i c files; exact ⟨rfl, rfl⟩
  | cons job rest ih =>
    intro i c files
    obtain ⟨h1, h2⟩ := ih (i + 1) (processJob F c files job (scripts i)).conn
      (processJob F c files job (scripts i)).files
    have hmax : (processJob F c files job (scripts i)).conn.maxRetries = c.maxRetries := by
      rw [processJob_conn F c files job (scripts i)]
    unfold processBatch
    simp only [List.length_cons]
    refine ⟨by rw [h1], ?_⟩
    rw [h2, processJob_errors, hmax]
    simp only [abandonedCount]
    omega

theorem abandonedCount_le (maxRetries : Nat) (scripts : Nat → JobScript) (jobs : List Job) :
    ∀ i : Nat, abandonedCount maxRetries scripts jobs i ≤ jobs.length := by
  induction jobs with
  | nil => intro i; simp [abandonedCount]
  | cons job rest ih =>
    intro i
    have := ih (i + 1)
    simp only [abandonedCount, List.length_cons]
    split <;> omega

/-- C28: for a batch that is not empty and whose count is its length, as in
every answer of the producer, `pollForFiles` reports all the jobs of the batch
as processed, whatever became of their downloads: the value returned does not
depend on what happens to the jobs. The jobs given up show in the error
counter, which goes up by their number. -/
theorem batch_always_counted (F : PathFns) (c : ServerConnection) (files : LocalFiles)
    (script : PollScript) (jobs : List Job) (count : Nat)
    (hen : c.enabled = true) (hl : script.list = .ok jobs count) (hne : jobs ≠ [])
    (hcount : count = jobs.length) :
    (pollForFiles F c files script).result = .success jobs.length (some jobs.length) ∧
    (∀ script2 : PollScript, script2.list = script.list →
      (pollForFiles F c files script2).result = (pollForFiles F c files script).result) ∧
    (pollForFiles F c files script).conn.stats.errors =
      c.stats.errors + abandonedCount c.maxRetries script.jobs jobs 0 ∧
    abandonedCount c.maxRetries script.jobs jobs 0 ≤ jobs.length ∧
    (∀ (srv : Server) (s : Store) (limit : Nat) (js : List Job) (n : Nat)
      (total : Option Nat),
      (listPending srv s limit).2 = Reply.jobs js n total → n = js.length) := by
  have hpos : count ≠ 0 := by
    rw [hcount]
    intro h0
    exact hne (List.length_eq_zero.mp h0)
  have hres : ∀ sc : PollScript, sc.list = .ok jobs count →
      (pollForFiles F c files sc).result = .success jobs.length (some jobs.length) ∧
      (pollForFiles F c files sc).conn.stats.errors =
        c.stats.errors + abandonedCount c.maxRetries sc.jobs jobs 0 := by
    intro sc hsc
    obtain ⟨b1, b2⟩ := processBatch_counts F sc.jobs jobs 0 c files
    unfold pollForFiles
    simp only [hen, Bool.not_true, Bool.false_eq_true, if_false, hsc, hpos, b1, b2]
    rw [hcount]
    simp
  refine ⟨(hres script hl).1, ?_, (hres script hl).2, abandonedCount_le _ _ _ 0, ?_⟩
  · intro script2 h2
    rw [(hres script2 (h2.trans hl)).1, (hres script hl).1]
  · intro srv s limit js n total hrep
    rw [listPending_reply] at hrep
    injection hrep with e1 e2 _
    rw [← e2, ← e1]

theorem batch_always_counted_witness :
    sampleConn.enabled = true ∧ mixedPoll.list = .ok [jobA, jobA3] 2 ∧
    [jobA, jobA3] ≠ [] ∧ 2 = [jobA, jobA3].length ∧
    ((pollForFiles simpleFns sampleConn [] mixedPoll).result =
      .success [jobA, jobA3].length (some [jobA, jobA3].length) ∧
    (∀ script2 : PollScript, script2.list = mixedPoll.list →
      (pollForFiles simpleFns sampleConn [] script2).result =
        (pollForFiles simpleFns sampleConn [] mixedPoll).result) ∧
    (pollForFiles simpleFns sampleConn [] mixedPoll).conn.stats.errors =
      sampleConn.stats.errors +
        abandonedCount sampleConn.maxRetries mixedPoll.jobs [jobA, jobA3] 0 ∧
    abandonedCount sampleConn.maxRetries mixedPoll.jobs [jobA, jobA3] 0 ≤
      [jobA, jobA3].length ∧
    (∀ (srv : Server) (s : Store) (limit : Nat) (js : List Job) (n : Nat)
      (total : Option Nat),
      (listPending srv s limit).2 = Reply.jobs js n total → n = js.length)) :=
  ⟨by decide, rfl, by decide, rfl,
    batch_always_counted simpleFns sampleConn [] mixedPoll [jobA, jobA3] 2 (by decide) rfl
      (by decide) rfl⟩

/-! ## Stored names -/

/-- Two stored names are equal only when they were built from the same clock
reading and the same original name. -/
theorem storedName_injective {t t2 : Nat} {n n2 : String}
    (h : storedName t n = storedName t2 n2) : t = t2 ∧ n = n2 := by
  have hd : (storedName t n).data = (storedName t2 n2).data := by rw [h]
  rw [storedName_data, storedName_data] at hd
  have hs := congrArg splitSep hd
  rw [ splitSep_prefix _ _ (toString_no_underscore t),
    splitSep_prefix _ _ (toString_no_underscore t2)] at hs
  simp only [List.cons.injEq] at hs
  obtain ⟨h1, h2⟩ := hs
  have ht : t = t2 := toString_nat_injective (String.ext h1)
  have hn : n.data = n2.data := by
    rw [← joinSep_splitSep n.data, ← joinSep_splitSep n2.data, h2]
  exact ⟨ht, String.ext hn⟩

/-- C21: the code at the failing input. One upload request carries two files
named a.txt and both `filename` callbacks of multer read the same `Date.now()`:
the two jobs enqueued have different ids and one and the same stored name,
hence one and the same path in the upload directory. The claim says that the
stored names of one producer never collide, and the comment above the callback
says that the timestamp is put in front to prevent duplicate names. -/
theorem same_millisecond_names_collide :
    (run Server.main sampleEnv emptyStore
        [Op.upload "id-1" (multerFile 1700000000000 "a.txt" 10) "2024-01-01T00:00:00.000Z",
          Op.upload "id-2" (multerFile 1700000000000 "a.txt" 20)
            "2024-01-01T00:00:00.000Z"]).queue =
      [uploadJob "id-2" (multerFile 1700000000000 "a.txt" 20) "2024-01-01T00:00:00.000Z",
        uploadJob "id-1" (multerFile 1700000000000 "a.txt" 10) "2024-01-01T00:00:00.000Z"] ∧
    (uploadJob "id-1" (multerFile 1700000000000 "a.txt" 10) "2024-01-01T00:00:00.000Z").id ≠
      (uploadJob "id-2" (multerFile 1700000000000 "a.txt" 20) "2024-01-01T00:00:00.000Z").id ∧
    (uploadJob "id-1" (multerFile 1700000000000 "a.txt" 10)
        "2024-01-01T00:00:00.000Z").fileName =
      (uploadJob "id-2" (multerFile 1700000000000 "a.txt" 20)
        "2024-01-01T00:00:00.000Z").fileName ∧
    sampleEnv.pathJoin sampleEnv.uploadPath
        (uploadJob "id-1" (multerFile 1700000000000 "a.txt" 10)
          "2024-01-01T00:00:00.000Z").fileName =
      sampleEnv.pathJoin sampleEnv.uploadPath
        (uploadJob "id-2" (multerFile 1700000000000 "a.txt" 20)
          "2024-01-01T00:00:00.000Z").fileName :=
  ⟨rfl, by decide, rfl, rfl⟩

/-! ## The gate before the handlers -/

theorem startsWith_iff (s p : List Char) : startsWith s p = true ↔ ∃ rest, s = p ++ rest := by
  induction p generalizing s with
  | nil => simp [startsWith]
  | cons c p ih =>
    cases s with
    | nil => simp [startsWith]
    | cons d s =>
      simp only [startsWith, Bool.and_eq_true, decide_eq_true_eq, ih, List.cons_append,
        List.cons.injEq]
      constructor
      · rintro ⟨h1, rest, h2⟩
        exact ⟨rest, h1, h2⟩
      · rintro ⟨rest, h1, h2⟩
        exact ⟨h1, rest, h2⟩

theorem startsWith_string (s p : String) :
    startsWith s.data p.data = true ↔ ∃ rest : String, s = p ++ rest := by
  rw [startsWith_iff]
  constructor
  · rintro ⟨rest, h⟩
    exact ⟨String.mk rest, String.ext (by rw [h, String.data_append])⟩
  · rintro ⟨rest, h⟩
    exact ⟨rest.data, by rw [h, String.data_append]⟩

/-- C22, as the claim states it, fails twice. With authentication enabled, a
request for the protected page `/upload` that carries neither a key nor a
session is redirected to `/login`, not answered 401; and when the configured
key is the empty text, a request to `/api/status` whose `X-API-Key` header is
that same empty text is answered 401, not let through. -/
theorem unauthenticated_page_redirected :
    protectedRoute { enabled := true, apiKey := some "secret" }
        { apiKeyHeader := none, sessionAuthenticated := false, path := "/upload" }
        (fun _ => "page") = Routed.redirected "/login" ∧
      ({ apiKeyHeader := some "", sessionAuthenticated := false, path := "/api/status" } :
          Request).apiKeyHeader = ({ enabled := true, apiKey := some "" } : AuthConfig).apiKey ∧
      protectedRoute { enabled := true, apiKey := some "" }
        { apiKeyHeader := some "", sessionAuthenticated := false, path := "/api/status" }
        (fun _ => "status") =
          Routed.refused 401 "Authentication required. Use X-API-Key header or web login." := by
  decide

/-- C22, amended: when authentication is enabled, a request to a protected
endpoint that carries neither a non-empty `X-API-Key` header equal to the
configured key nor an authenticated session does not reach the handler: it is
answered 401 when its path starts with `/api/` and redirected to `/login`
otherwise; a request whose header is non-empty and equals the configured key
is let through, and so is one with an authenticated session; and when
authentication is disabled every request is let through. -/
theorem auth_gate {α : Type} (auth : AuthConfig) (req : Request) (handler : Request → α) :
    (auth.enabled = false → protectedRoute auth req handler = .handled (handler req)) ∧
    (∀ key, req.apiKeyHeader = some key → key ≠ "" → auth.apiKey = some key →
      protectedRoute auth req handler = .handled (handler req)) ∧
    (req.sessionAuthenticated = true →
      protectedRoute auth req handler = .handled (handler req)) ∧
    (auth.enabled = true →
      (∀ key, req.apiKeyHeader = some key → key ≠ "" → auth.apiKey ≠ some key) →
      req.sessionAuthenticated = false →
      ((∃ rest : String, req.path = "/api/" ++ rest) →
        protectedRoute auth req handler =
          .refused 401 "Authentication required. Use X-API-Key header or web login.") ∧
      ((¬ ∃ rest : String, req.path = "/api/" ++ rest) →
        protectedRoute auth req handler = .redirected "/login")) := by
  refine ⟨?_, ?_, ?_, ?_⟩
  · intro h
    simp [protectedRoute, isAuthenticated, h]
  · intro key hk hne hcfg
    cases hen : auth.enabled <;> simp [protectedRoute, isAuthenticated, hen, hk, hne, hcfg]
  · intro hs
    cases hen : auth.enabled
    · simp [protectedRoute, isAuthenticated, hen]
    · cases hkey : (match req.apiKeyHeader with
          | some apiKey => decide (apiKey ≠ "") && decide (auth.apiKey = some apiKey)
          | none => false) <;>
        simp [protectedRoute, isAuthenticated, hen, hkey, hs]
  · intro hen hkey hs
    have hk : (match req.apiKeyHeader with
        | some apiKey => decide (apiKey ≠ "") && decide (auth.apiKey = some apiKey)
        | none => false) = false := by
      cases hh : req.apiKeyHeader with
      | none => rfl
      | some key =>
        by_cases hne : key = ""
        · simp [hne]
        · simp [hne, hkey key hh hne]
    simp only [ne_eq, decide_not] at hk
    constructor
    · intro hp
      have hsw := (startsWith_string req.path "/api/").mpr hp
      simp [protectedRoute, isAuthenticated, hen, hk, hs, hsw]
    · intro hp
      have hsw : startsWith req.path.data "/api/".data = false := by
        cases hc : startsWith req.path.data "/api/".data
        · rfl
        · exact absurd ((startsWith_string req.path "/api/").mp hc) hp
      simp [protectedRoute, isAuthenticated, hen, hk, hs, hsw]

/-- A witness of the amended C22: the four cases on concrete requests. -/
theorem auth_gate_witness :
    protectedRoute { enabled := false, apiKey := none }
        { apiKeyHeader := none, sessionAuthenticated := false, path := "/api/status" }
        (fun r => r.path) = .handled "/api/status" ∧
      protectedRoute { enabled := true, apiKey := some "secret" }
        { apiKeyHeader := some "secret", sessionAuthenticated := false, path := "/api/status" }
        (fun r => r.path) = .handled "/api/status" ∧
      protectedRoute { enabled := true, apiKey := some "secret" }
        { apiKeyHeader := some "wrong", sessionAuthenticated := false,
          path := "/api/jobs/pending" }
        (fun r => r.path) =
          .refused 401 "Authentication required. Use X-API-Key header or web login." ∧
      protectedRoute { enabled := true, apiKey := some "secret" }
        { apiKeyHeader := some "wrong", sessionAuthenticated := false, path := "/upload" }
        (fun r => r.path) = .redirected "/login" :=
  ⟨(auth_gate { enabled := false, apiKey := none }
      { apiKeyHeader := none, sessionAuthenticated := false, path := "/api/status" }
      (fun r => r.path)).1 rfl,
    (auth_gate { enabled := true, apiKey := some "secret" }
      { apiKeyHeader := some "secret", sessionAuthenticated := false, path := "/api/status" }
      (fun r => r.path)).2.1 "secret" rfl (by decide) rfl,
    ((auth_gate { enabled := true, apiKey := some "secret" }
      { apiKeyHeader := some "wrong", sessionAuthenticated := false,
        path := "/api/jobs/pending" }
      (fun r => r.path)).2.2.2 rfl (by decide) rfl).1 ⟨"jobs/pending", by decide⟩,
    ((auth_gate { enabled := true, apiKey := some "secret" }
      { apiKeyHeader := some "wrong", sessionAuthenticated := false, path := "/upload" }
      (fun r => r.path)).2.2.2 rfl (by decide) rfl).2
      (fun h => absurd ((startsWith_string "/upload" "/api/").mpr h) (by decide))⟩

/-! ## The retention sweep -/

theorem cleanupLoop_spec (env : Env) (now : Int) (k : Int) (listing : List DirEntry) :
    ∀ (files : List String) (n : Nat),
      (cleanupLoop env now k listing files n).2 =
          n + (listing.filter (DirEntry.swept now k)).length ∧
        ∀ q, q ∈ (cleanupLoop env now k listing files n).1 ↔
          q ∈ files ∧ ∀ e ∈ listing, e.swept now k = true →
            env.pathJoin env.uploadPath e.name ≠ q := by
  induction listing with
  | nil =>
    intro files n
    simp [cleanupLoop]
  | cons e rest ih =>
    intro files n
    unfold cleanupLoop
    cases hm : e.mtime with
    | none =>
      have hsw : e.swept now k = false := by simp [DirEntry.swept, hm]
      obtain ⟨h1, h2⟩ := ih files n
      refine ⟨?_, ?_⟩
      · simp only [h1, List.filter_cons, hsw, Bool.false_eq_true, if_false]
      · intro q
        simp only [h2 q, List.mem_cons, forall_eq_or_imp, hsw, Bool.false_eq_true,
          false_implies, true_and]
    | some mtime =>
      by_cases hold : now - mtime > maxAge k
      · cases hu : e.unlinkOk
        · have hsw : e.swept now k = false := by simp [DirEntry.swept, hm, hu]
          obtain ⟨h1, h2⟩ := ih files n
          refine ⟨?_, ?_⟩
          · simp only [hold, if_true, hu, Bool.false_eq_true, if_false, h1, List.filter_cons,
              hsw]
          · intro q
            simp only [hold, if_true, hu, Bool.false_eq_true, if_false, h2 q, List.mem_cons,
              forall_eq_or_imp, hsw, false_implies, true_and]
        · have hsw : e.swept now k = true := by simp [DirEntry.swept, hm, hu, hold]
          obtain ⟨h1, h2⟩ := ih (unlinkSync files (env.pathJoin env.uploadPath e.name)) (n + 1)
          refine ⟨?_, ?_⟩
          · simp only [hold, if_true, h1, List.filter_cons, hsw, List.length_cons]
            omega
          · intro q
            simp only [hold, if_true, h2 q, mem_unlinkSync, List.mem_cons, forall_eq_or_imp,
              hsw, true_implies]
            constructor
            · rintro ⟨⟨h3, h4⟩, h5⟩
              exact ⟨h3, fun h => h4 h.symm, h5⟩
            · rintro ⟨h3, h4, h5⟩
              exact ⟨⟨h3, fun h => h4 h.symm⟩, h5⟩
      · have hsw : e.swept now k = false := by simp [DirEntry.swept, hm, hold]
        obtain ⟨h1, h2⟩ := ih files n
        refine ⟨?_, ?_⟩
        · simp only [hold, if_false, h1, List.filter_cons, hsw, Bool.false_eq_true]
        · intro q
          simp only [hold, if_false, h2 q, List.mem_cons, forall_eq_or_imp, hsw,
            Bool.false_eq_true, false_implies, true_and]

theorem cleanupLoop_skip (env : Env) (now : Int) (k : Int) (e : DirEntry)
    (post : List DirEntry) (hfail : e.swept now k = false) (pre : List DirEntry) :
    ∀ (files : List String) (n : Nat),
      cleanupLoop env now k (pre ++ e :: post) files n =
        cleanupLoop env now k (pre ++ post) files n := by
  induction pre with
  | nil =>
    intro files n
    simp only [List.nil_append]
    rw [cleanupLoop]
    cases hm : e.mtime with
    | none => rfl
    | some mtime =>
      simp only [DirEntry.swept, hm, Bool.and_eq_false_iff, decide_eq_false_iff_not] at hfail
      rcases hfail with h | h
      · simp only [h, if_false]
      · simp only [h, Bool.false_eq_true, if_false, ite_self]
  | cons p pre ih =>
    intro files n
    simp only [List.cons_append]
    rw [cleanupLoop, cleanupLoop]
    cases hm : p.mtime with
    | none => exact ih files n
    | some mtime =>
      simp only []
      split
      · split
        · exact ih _ _
        · exact ih _ _
      · exact ih _ _

/-- C23, as the claim states it, fails: failures are swallowed but not
counted. In a sweep over four names, of which one cannot be read by
`statSync` and one old file cannot be deleted, the only number the sweep keeps
is 1, the number of files deleted, exactly as in the sweep over the two other
names alone. -/
theorem sweep_failures_not_counted :
    cleanupOldFiles sampleEnv 7 oldPendingStore (some sampleListing) (8 * dayMs) =
        ({ oldPendingStore with files := ["uploads/new.txt"] }, 1) ∧
      cleanupOldFiles sampleEnv 7 oldPendingStore
          (some [{ name := jobA.fileName, mtime := some 0, unlinkOk := true },
            { name := "new.txt", mtime := some (7 * dayMs), unlinkOk := true }])
          (8 * dayMs) =
        ({ oldPendingStore with files := ["uploads/new.txt"] }, 1) ∧
      (sampleListing.filter (fun e => decide (e.mtime = none) ||
          (decide (e.mtime = some 0) && !e.unlinkOk))).length = 2 := by
  decide

/-- C23, amended: for every listing of the upload directory, the sweep removes
the file of each name whose modification time is older than the retention
window and whose `unlinkSync` returns, whether or not a pending job refers to
it (the two queues are neither read nor changed, and the outcome is the same
for every queue); a file is kept when no name of the listing that stands for
it is older than the window; a name whose `statSync` or `unlinkSync` throws
is skipped without a trace, the sweep going on with the remaining names as if
the name were not in the listing; and the one number the sweep keeps is the
number of files it deleted. -/
theorem retention_sweep (env : Env) (keepFilesForDays : Int) (s : Store)
    (listing : List DirEntry) (now : Int) :
    (cleanupOldFiles env keepFilesForDays s (some listing) now).1.queue = s.queue ∧
    (cleanupOldFiles env keepFilesForDays s (some listing) now).1.completed = s.completed ∧
    (∀ s2 : Store, s2.files = s.files →
      (cleanupOldFiles env keepFilesForDays s2 (some listing) now).1.files =
          (cleanupOldFiles env keepFilesForDays s (some listing) now).1.files ∧
        (cleanupOldFiles env keepFilesForDays s2 (some listing) now).2 =
          (cleanupOldFiles env keepFilesForDays s (some listing) now).2) ∧
    (∀ e ∈ listing, ∀ mtime, e.mtime = some mtime →
      now - mtime > keepFilesForDays * 24 * 60 * 60 * 1000 → e.unlinkOk = true →
      env.pathJoin env.uploadPath e.name ∉
        (cleanupOldFiles env keepFilesForDays s (some listing) now).1.files) ∧
    (∀ q ∈ s.files,
      (∀ e ∈ listing, env.pathJoin env.uploadPath e.name = q →
        ∃ mtime, e.mtime = some mtime ∧
          now - mtime ≤ keepFilesForDays * 24 * 60 * 60 * 1000) →
      q ∈ (cleanupOldFiles env keepFilesForDays s (some listing) now).1.files) ∧
    (∀ q, q ∈ (cleanupOldFiles env keepFilesForDays s (some listing) now).1.files →
      q ∈ s.files) ∧
    (∀ (pre post : List DirEntry) (e : DirEntry), listing = pre ++ e :: post →
      (e.mtime = none ∨ e.unlinkOk = false) →
      cleanupOldFiles env keepFilesForDays s (some listing) now =
        cleanupOldFiles env keepFilesForDays s (some (pre ++ post)) now) ∧
    (cleanupOldFiles env keepFilesForDays s (some listing) now).2 =
      (listing.filter (DirEntry.swept now keepFilesForDays)).length := by
  obtain ⟨hcount, hmem⟩ := cleanupLoop_spec env now keepFilesForDays listing s.files 0
  refine ⟨rfl, rfl, ?_, ?_, ?_, ?_, ?_, ?_⟩
  · intro s2 h2
    constructor <;> simp [cleanupOldFiles, h2]
  · intro e he mtime hm hold hu hin
    have hsw : e.swept now keepFilesForDays = true := by
      simp only [DirEntry.swept, hm, hu, Bool.and_true, decide_eq_true_eq, maxAge]
      exact hold
    exact ((hmem _).mp hin).2 e he hsw rfl
  · intro q hq hyoung
    refine (hmem q).mpr ⟨hq, ?_⟩
    intro e he hsw hpath
    obtain ⟨mtime, hm, hle⟩ := hyoung e he hpath
    simp only [DirEntry.swept, hm, Bool.and_eq_true, decide_eq_true_eq, maxAge] at hsw
    omega
  · intro q hq
    exact ((hmem q).mp hq).1
  · intro pre post e hl hfail
    have hsw : e.swept now keepFilesForDays = false := by
      rcases hfail with h | h
      · simp [DirEntry.swept, h]
      · cases hm : e.mtime <;> simp [DirEntry.swept, hm, h]
    subst hl
    simp only [cleanupOldFiles, cleanupLoop_skip env now keepFilesForDays e post hsw pre]
  · simpa using hcount

/-- A witness of the amended C23: the sample sweep, where the old file of the
pending job goes, the file one day old stays, and dropping the name whose
`statSync` throws changes nothing. -/
theorem retention_sweep_witness :
    jobA ∈ oldPendingStore.queue ∧
      sampleEnv.pathJoin sampleEnv.uploadPath jobA.fileName ∉
        (cleanupOldFiles sampleEnv 7 oldPendingStore (some sampleListing) (8 * dayMs)).1.files ∧
      "uploads/new.txt" ∈
        (cleanupOldFiles sampleEnv 7 oldPendingStore (some sampleListing) (8 * dayMs)).1.files ∧
      cleanupOldFiles sampleEnv 7 oldPendingStore (some sampleListing) (8 * dayMs) =
        cleanupOldFiles sampleEnv 7 oldPendingStore
          (some ([{ name := jobA.fileName, mtime := some 0, unlinkOk := true }] ++
            [{ name := "locked", mtime := some 0, unlinkOk := false },
              { name := "new.txt", mtime := some (7 * dayMs), unlinkOk := true }]))
          (8 * dayMs) :=
  ⟨by decide,
    (retention_sweep sampleEnv 7 oldPendingStore sampleListing (8 * dayMs)).2.2.2.1
      { name := jobA.fileName, mtime := some 0, unlinkOk := true } (by decide) 0 rfl
      (by decide) rfl,
    (retention_sweep sampleEnv 7 oldPendingStore sampleListing (8 * dayMs)).2.2.2.2.1
      "uploads/new.txt" (by decide)
      (by
        intro e he hp
        simp only [sampleListing, List.mem_cons, List.mem_singleton, List.not_mem_nil,
          or_false] at he
        rcases he with h | h | h | h
        · subst h; revert hp; decide
        · subst h; revert hp; decide
        · subst h; revert hp; decide
        · subst h; exact ⟨7 * dayMs, rfl, by decide⟩),
    (retention_sweep sampleEnv 7 oldPendingStore sampleListing (8 * dayMs)).2.2.2.2.2.2.1
      [{ name := jobA.fileName, mtime := some 0, unlinkOk := true }]
      [{ name := "locked", mtime := some 0, unlinkOk := false },
        { name := "new.txt", mtime := some (7 * dayMs), unlinkOk := true }]
      { name := "gone.txt", mtime := none, unlinkOk := true } rfl (Or.inl rfl)⟩

/-! ## The stop signal -/

theorem passLoop_stop (F : PathFns) (sorted : List (Nat × ServerConnection))
    (running : Nat → Bool) (scripts : Nat → PollScript)
    (rest : List (Nat × ServerConnection)) :
    ∀ (i : Nat) (servers : List ServerConnection) (files : LocalFiles) (n : Nat),
      (∀ p ∈ rest, p.1 < servers.length) →
      (∀ j, j < n → running (i + j) = true) →
      (n < rest.length → running (i + n) = false) →
      (passLoop F sorted running scripts rest i servers files).polled =
          (rest.map Prod.fst).take n ∧
        (passLoop F sorted running scripts rest i servers files).results =
          (passLoop F sorted (fun _ => true) scripts rest i servers files).results.take n ∧
        ∃ tail, (passLoop F sorted (fun _ => true) scripts rest i servers files).events =
          (passLoop F sorted running scripts rest i servers files).events ++ tail := by
  induction rest with
  | nil =>
    intro i servers files n _ _ _
    simp [passLoop]
  | cons p rest ih =>
    intro i servers files n hvalid hbefore hstop
    obtain ⟨ref, snap⟩ := p
    have href : ref < servers.length := hvalid (ref, snap) (List.mem_cons_self _ _)
    have hget : servers.get? ref = some (servers.get ⟨ref, href⟩) := List.get?_eq_get href
    cases n with
    | zero =>
      have hfalse : running i = false := by
        have := hstop (by simp)
        simpa using this
      simp only [passLoop, hfalse, Bool.not_false, if_true, List.take_zero, true_and,
        List.nil_append]
      exact ⟨_, rfl⟩
    | succ m =>
      have hrun : running i = true := by
        have := hbefore 0 (Nat.succ_pos m)
        simpa using this
      have hlen : ∀ q ∈ rest, q.1 < (servers.set ref
          (pollForFiles F (servers.get ⟨ref, href⟩) files (scripts i)).conn).length := by
        intro q hq
        rw [List.length_set]
        exact hvalid q (List.mem_cons_of_mem _ hq)
      have hb2 : ∀ j, j < m → running (i + 1 + j) = true := by
        intro j hj
        have := hbefore (j + 1) (Nat.succ_lt_succ hj)
        rwa [show i + (j + 1) = i + 1 + j by omega] at this
      have hs2 : m < rest.length → running (i + 1 + m) = false := by
        intro hm
        have := hstop (by simpa using Nat.succ_lt_succ hm)
        rwa [show i + (m + 1) = i + 1 + m by omega] at this
      obtain ⟨h1, h2, tail, h3⟩ := ih (i + 1) _
        (pollForFiles F (servers.get ⟨ref, href⟩) files (scripts i)).files m hlen hb2 hs2
      simp only [passLoop, hrun, Bool.not_true, Bool.false_eq_true, if_false, hget,
        List.map_cons, List.take_succ_cons, h1, h2, h3]
      refine ⟨trivial, trivial, tail, ?_⟩
      simp only [List.append_assoc]

theorem pollAllServers_last_cycle (F : PathFns) (runningAtCycle : Nat → Bool)
    (runningAtPoll : Nat → Nat → Bool) (scripts : Nat → Nat → PollScript)
    (c : Nat) (servers : List ServerConnection) (files : LocalFiles)
    (hcycle : runningAtCycle c = true) (hnext : runningAtCycle (c + 1) = false)
    (rounds : Nat) :
    pollAllServers F runningAtCycle runningAtPoll scripts (rounds + 2) c servers files =
      some
        { servers := (pollCycle F servers files (runningAtPoll c) (scripts c)).pass.servers
          files := (pollCycle F servers files (runningAtPoll c) (scripts c)).pass.files
          cycles := [pollCycle F servers files (runningAtPoll c) (scripts c)] } := by
  simp [pollAllServers, hcycle, hnext]

theorem pollAllServers_stopped (F : PathFns) (runningAtCycle : Nat → Bool)
    (runningAtPoll : Nat → Nat → Bool) (scripts : Nat → Nat → PollScript)
    (c : Nat) (servers : List ServerConnection) (files : LocalFiles)
    (hcycle : runningAtCycle c = false) (rounds : Nat) :
    pollAllServers F runningAtCycle runningAtPoll scripts (rounds + 1) c servers files =
      some { servers := servers, files := files, cycles := [] } := by
  simp [pollAllServers, hcycle]

/-- C26: the stop signal is read before each cycle and before each poll of a
cycle. When `isRunning` is still true at the `while` test of a cycle and at
the first `i0` checks of its `for` loop, and false at the next check of the
`for` loop and at the next `while` test, then the loop ends (two `while` tests
are enough) after that one cycle, in which exactly the first `i0` enabled
endpoints in poll order were polled and no other; the polls that had started
ran to their end, with the results and the downloads, reports and pauses they
have in a cycle that is not stopped; and a loop whose `while` test reads false
ends at once without a poll. -/
theorem stop_is_cooperative (F : PathFns) (runningAtCycle : Nat → Bool)
    (runningAtPoll : Nat → Nat → Bool) (scripts : Nat → Nat → PollScript)
    (c i0 : Nat) (servers : List ServerConnection) (files : LocalFiles)
    (hcycle : runningAtCycle c = true)
    (hbefore : ∀ j, j < i0 → runningAtPoll c j = true)
    (hstop : runningAtPoll c i0 = false)
    (hnext : runningAtCycle (c + 1) = false) :
    (∀ rounds, 2 ≤ rounds →
      pollAllServers F runningAtCycle runningAtPoll scripts rounds c servers files =
        some
          { servers := (pollCycle F servers files (runningAtPoll c) (scripts c)).pass.servers
            files := (pollCycle F servers files (runningAtPoll c) (scripts c)).pass.files
            cycles := [pollCycle F servers files (runningAtPoll c) (scripts c)] }) ∧
    (pollCycle F servers files (runningAtPoll c) (scripts c)).pass.polled =
      ((sortedServers servers).map Prod.fst).take i0 ∧
    (pollCycle F servers files (runningAtPoll c) (scripts c)).pass.results =
      (pollCycle F servers files (fun _ => true) (scripts c)).pass.results.take i0 ∧
    (∃ tail, (pollCycle F servers files (fun _ => true) (scripts c)).pass.events =
      (pollCycle F servers files (runningAtPoll c) (scripts c)).pass.events ++ tail) ∧
    (∀ (rounds : Nat) (servers2 : List ServerConnection) (files2 : LocalFiles), 1 ≤ rounds →
      pollAllServers F runningAtCycle runningAtPoll scripts rounds (c + 1) servers2 files2 =
        some { servers := servers2, files := files2, cycles := [] }) := by
  have hvalid : ∀ p ∈ sortedServers servers, p.1 < servers.length :=
    fun p hp => (sortedServers_mem servers p hp).2.2
  have hb : ∀ j, j < i0 → runningAtPoll c (0 + j) = true := by
    intro j hj
    rw [Nat.zero_add]
    exact hbefore j hj
  have hs : i0 < (sortedServers servers).length → runningAtPoll c (0 + i0) = false := by
    intro _
    rw [Nat.zero_add]
    exact hstop
  obtain ⟨h1, h2, h3⟩ := passLoop_stop F (sortedServers servers) (runningAtPoll c) (scripts c)
    (sortedServers servers) 0 servers files i0 hvalid hb hs
  refine ⟨?_, h1, h2, h3, ?_⟩
  · intro rounds hr
    obtain ⟨k, rfl⟩ : ∃ k, rounds = k + 2 := ⟨rounds - 2, by omega⟩
    exact pollAllServers_last_cycle F runningAtCycle runningAtPoll scripts c servers files
      hcycle hnext k
  · intro rounds servers2 files2 hr
    obtain ⟨k, rfl⟩ : ∃ k, rounds = k + 1 := ⟨rounds - 1, by omega⟩
    exact pollAllServers_stopped F runningAtCycle runningAtPoll scripts (c + 1) servers2 files2
      hnext k

/-- A witness of C26: three endpoints with priorities 3, 1 and 2; `stop()` is
called during the second poll of the first cycle, so the third endpoint in
poll order is not polled and the loop ends at its second `while` test. -/
theorem stop_is_cooperative_witness :
    stopAfter 1 0 = true ∧ stopAfter 2 2 = false ∧ stopAfter 1 (0 + 1) = false ∧
      pollAllServers simpleFns (stopAfter 1) (fun _ => stopAfter 2) (fun _ => busyScripts)
          2 0 threeServers [] =
        some
          { servers := (pollCycle simpleFns threeServers [] (stopAfter 2) busyScripts).pass.servers
            files := (pollCycle simpleFns threeServers [] (stopAfter 2) busyScripts).pass.files
            cycles := [pollCycle simpleFns threeServers [] (stopAfter 2) busyScripts] } ∧
      (pollCycle simpleFns threeServers [] (stopAfter 2) busyScripts).pass.polled =
        ((sortedServers threeServers).map Prod.fst).take 2 ∧
      ((sortedServers threeServers).map Prod.fst).take 2 = [0, 2] :=
  ⟨by decide, by decide, by decide,
    (stop_is_cooperative simpleFns (stopAfter 1) (fun _ => stopAfter 2) (fun _ => busyScripts)
      0 2 threeServers [] (by decide) (by intro j hj; interval_cases j <;> decide) (by decide)
      (by decide)).1 2 (le_refl 2),
    (stop_is_cooperative simpleFns (stopAfter 1) (fun _ => stopAfter 2) (fun _ => busyScripts)
      0 2 threeServers [] (by decide) (by intro j hj; interval_cases j <;> decide) (by decide)
      (by decide)).2.1,
    by decide⟩

end FileDrop
